import Mathlib

/-!
# Chameleon virtual switch: tagging, shaping, the control channel and the guests

A shallow embedding of `virtual_switch/app/main.c`: the matching table, the
token bucket, `tag_packet` and `update_table`; the life of a guest
(`new_device`, `link_vmdq`, `unlink_vmdq`, `destroy_device`) and the loop of
the workers (`drain_eth_rx`, `drain_virtio_tx`, `switch_worker`).

Conventions of the embedding.

* Machine integers are natural numbers; every C operation on a `uint64_t`
  is reduced modulo `2^64` where the C operation wraps.
* The host is little-endian (the source relies on it: `BE_RTE_ETHER_TYPE_IPV4`
  is the byte-swapped EtherType), so a multi-byte field is loaded from the
  frame least significant byte first.
* `matching_table` is the array `[MAX_VIRTIO_DEVICES + 1][N_ENTRIES_PER_VHOST]`
  in row-major order: `matching_table[v][s]` is element `v * 3 + s` of a list.
* A function returns `none` when the C code would access memory outside the
  object it indexes (frame bytes past the data length, a table element past
  the array, tags past `tags[N_TAGS]`); C leaves such an access undefined.
* The lists of guests are lists of `vid`s where the code uses the `TAILQ`
  macros on elements of the list they are given; the part on the removal of
  guests holds the links of the queues as `sys/queue.h` keeps them.
-/

namespace Chameleon

/-! ## Constants -/

/-- Five-tuple matching entries per vHost. -/
def N_ENTRIES_PER_VHOST : Nat := 3

/-- Max number of VLAN tags to push. -/
def N_TAGS : Nat := 10

/-- Number of rows of the matching table minus one. -/
def MAX_VIRTIO_DEVICES : Nat := 64

/-- Max burst size for RX/TX. -/
def MAX_PKT_BURST : Nat := 32

/-- EtherType of IPv4 as a little-endian CPU loads it from the wire. -/
def BE_RTE_ETHER_TYPE_IPV4 : Nat := 0x0008

/-- IP protocol number of TCP. -/
def IPPROTO_TCP : Nat := 6

/-- IP protocol number of UDP. -/
def IPPROTO_UDP : Nat := 17

/-- Length of a MAC address. -/
def RTE_ETHER_ADDR_LEN : Nat := 6

/-- Size of `struct rte_ether_hdr`: two MAC addresses and the EtherType. -/
def SIZEOF_ETHER_HDR : Nat := 14

/-- Size of `struct rte_ipv4_hdr` (no options). -/
def SIZEOF_IPV4_HDR : Nat := 20

/-- Size of `struct rte_vlan_hdr`. -/
def SIZEOF_VLAN_HDR : Nat := 4

/-- Size of `struct tagging_entry` with natural alignment on x86-64:
protocol at 0, src_ip at 4, dst_ip at 8, src_port at 12, dst_port at 14,
rate_bps at 16, burst_bits at 24, n_tokens at 32, last_tsc at 40, n_tags at 48,
tags at 50..89, padding up to 96. -/
def SIZEOF_TAGGING_ENTRY : Nat := 96

/-- The EtherType of a table-update message. -/
def CTRL_ETHER_TYPE : Nat := 0xbebe

/-! ## Machine arithmetic -/

/-- Addition of two `uint64_t`. -/
def u64_add (a b : Nat) : Nat := (a + b) % 2 ^ 64

/-- Subtraction of two `uint64_t`. -/
def u64_sub (a b : Nat) : Nat := (a + (2 ^ 64 - b % 2 ^ 64)) % 2 ^ 64

/-- Multiplication of two `uint64_t`. -/
def u64_mul (a b : Nat) : Nat := (a * b) % 2 ^ 64

/-- Byte swap of a 16-bit value, `rte_bswap16`. -/
def rte_bswap16 (x : Nat) : Nat := (x % 256) * 256 + (x / 256) % 256

/-! ## Bytes -/

/-- One byte of a buffer. -/
def byte_at (l : List Nat) (i : Nat) : Nat := l.getD i 0 % 256

/-- The `n` bytes of a buffer that start at offset `off`. -/
def bytes_at (l : List Nat) (off n : Nat) : List Nat :=
  (List.range n).map (fun i => byte_at l (off + i))

/-- Little-endian load of an `n`-byte integer at offset `off`. -/
def load_le (l : List Nat) (off : Nat) : Nat → Nat
  | 0 => 0
  | n + 1 => byte_at l off + 256 * load_le l (off + 1) n

/-- Little-endian memory image of an `n`-byte integer. -/
def store_le : Nat → Nat → List Nat
  | 0, _ => []
  | n + 1, v => v % 256 :: store_le n (v / 256)

/-- Overwrite the bytes of `buf` from offset `off` with `src`. -/
def write_bytes (buf : List Nat) (off : Nat) (src : List Nat) : List Nat :=
  buf.take off ++ src ++ buf.drop (off + src.length)

/-! ## Data model -/

/-- One tag: EtherType and VLAN id, both as stored (on-wire order in memory). -/
structure vlan_hdr where
  eth_type : Nat
  vlan_id : Nat
deriving DecidableEq

/-- Structure of a matching table entry. -/
structure tagging_entry where
  protocol : Nat
  src_ip : Nat
  dst_ip : Nat
  src_port : Nat
  dst_port : Nat
  rate_bps : Nat
  burst_bits : Nat
  n_tokens : Nat
  last_tsc : Nat
  n_tags : Nat
  tags : List vlan_hdr
deriving DecidableEq

/-- The entry fits its C type: every field within its width and `tags` an
array of `N_TAGS` elements. -/
def tagging_entry.wf (e : tagging_entry) : Prop :=
  e.protocol < 2 ^ 8 ∧ e.src_ip < 2 ^ 32 ∧ e.dst_ip < 2 ^ 32 ∧
  e.src_port < 2 ^ 16 ∧ e.dst_port < 2 ^ 16 ∧
  e.rate_bps < 2 ^ 64 ∧ e.burst_bits < 2 ^ 64 ∧ e.n_tokens < 2 ^ 64 ∧
  e.last_tsc < 2 ^ 64 ∧ e.n_tags < 2 ^ 16 ∧
  e.tags.length = N_TAGS ∧
  ∀ t ∈ e.tags, t.eth_type < 2 ^ 16 ∧ t.vlan_id < 2 ^ 16

/-- The all-zero entry of the table at start-up. -/
def zero_entry : tagging_entry :=
  { protocol := 0, src_ip := 0, dst_ip := 0, src_port := 0, dst_port := 0,
    rate_bps := 0, burst_bits := 0, n_tokens := 0, last_tsc := 0, n_tags := 0,
    tags := List.replicate N_TAGS ⟨0, 0⟩ }

/-- Number of elements of `matching_table`. -/
def TABLE_SIZE : Nat := (MAX_VIRTIO_DEVICES + 1) * N_ENTRIES_PER_VHOST

/-- The matching table at start-up: a zero-initialised static array. -/
def matching_table_init : List tagging_entry :=
  List.replicate TABLE_SIZE zero_entry

/-- Position of `matching_table[v][s]` in the row-major array. -/
def table_index (v s : Nat) : Nat := v * N_ENTRIES_PER_VHOST + s

/-- Device statistics. -/
structure device_statistics where
  tx_total : Nat
  tx_tagged : Nat
  tx_dropped : Nat
  tx_success : Nat
  rx_total_atomic : Nat
  rx_success_atomic : Nat
deriving DecidableEq

/-- The vHost device representation. -/
structure vhost_dev where
  mac_address : List Nat
  pool_id : Nat
  vmdq_rx_q : Nat
  vlan_tag : Nat
  tx_coreid : Nat
  rx_coreid : Nat
  ready : Nat
  remove : Nat
  vid : Int
  stats : device_statistics
deriving DecidableEq

/-- Modelled from the spec: the packet buffer of the external allocator
(`struct rte_mbuf`, declared in the DPDK headers, which are not part of the
sources). `headroom` holds the bytes in front of the frame, `data` the frame,
`direct` is the direct-vs-indirect check and `refcnt` the reference count. -/
structure rte_mbuf where
  headroom : List Nat
  data : List Nat
  pkt_len : Nat
  refcnt : Nat
  direct : Bool
  ol_flags : Nat
  l2_len : Nat
  outer_l2_len : Nat
deriving DecidableEq

/-- Modelled from the spec: the flag "VLAN stripped on RX"; the macro is
declared in the DPDK headers, not in the sources, and no property below
depends on which bit it is. -/
def PKT_RX_VLAN_STRIPPED : Nat := 2 ^ 6

/-- Modelled from the spec: the flag "insert VLAN on TX"; the macro is
declared in the DPDK headers, not in the sources. -/
def PKT_TX_VLAN : Nat := 2 ^ 57

/-- Modelled from the spec: the tunnel offload marker; the mask is declared
in the DPDK headers, not in the sources. -/
def PKT_TX_TUNNEL_MASK : Nat := 15 * 2 ^ 45

/-- Modelled from the spec: prepend-headroom of the external allocator
(`rte_pktmbuf_prepend`): it fails, returning `none` for NULL and leaving the
buffer alone, when the buffer lacks `len` bytes of headroom, and else moves
the start of the frame `len` bytes to the front. The length is the number
`n_tags * sizeof(struct rte_vlan_hdr)` that the caller computes. -/
def rte_pktmbuf_prepend (m : rte_mbuf) (len : Nat) : Option rte_mbuf :=
  if len > m.headroom.length then none
  else some { m with
    headroom := m.headroom.take (m.headroom.length - len)
    data := m.headroom.drop (m.headroom.length - len) ++ m.data
    pkt_len := m.pkt_len + len }

/-! ## Token bucket (the shaping block of `tag_packet`) -/

/-- The refill amount: `delta_cycles * rate_bps`, replaced by the bucket size
`cpu_freq * burst_bits` when the overflow test of the source fires. -/
def generate_tokens (cpu_freq current_tsc : Nat) (e : tagging_entry) : Nat :=
  let delta_cycles := u64_sub current_tsc e.last_tsc
  let generate_tokens := u64_mul delta_cycles e.rate_bps
  if delta_cycles ≠ 0 ∧ generate_tokens / delta_cycles ≠ e.rate_bps then
    u64_mul cpu_freq e.burst_bits
  else
    generate_tokens

/-- The refill step: update the timer, add the tokens, cap at the bucket size. -/
def refill (cpu_freq current_tsc : Nat) (e : tagging_entry) : tagging_entry :=
  let generate_tokens := generate_tokens cpu_freq current_tsc e
  let e1 := { e with last_tsc := current_tsc }
  if u64_add e1.n_tokens generate_tokens > u64_mul cpu_freq e1.burst_bits then
    { e1 with n_tokens := u64_mul cpu_freq e1.burst_bits }
  else
    { e1 with n_tokens := u64_add e1.n_tokens generate_tokens }

/-- Full packet size on the line: preamble (8) + Ethernet header (14) + FCS (4)
+ inter-frame gap (12) + IPv4 length + the tags to push. `total_length` is the
IPv4 field as the CPU loads it (network order), hence the byte swap. -/
def packet_size (total_length : Nat) (e : tagging_entry) : Nat :=
  8 + SIZEOF_ETHER_HDR + 4 + 12 + rte_bswap16 total_length + 4 * e.n_tags

/-- The cost of a packet in tokens, `8 * packet_size * cpu_freq`. -/
def packet_cost (cpu_freq packet_size : Nat) : Nat :=
  u64_mul (u64_mul 8 packet_size) cpu_freq

/-- The debit step: the entry after the test on the tokens, and whether the
packet may be sent. -/
def debit (cpu_freq packet_size : Nat) (e : tagging_entry) : tagging_entry × Bool :=
  if e.n_tokens > packet_cost cpu_freq packet_size then
    ({ e with n_tokens := u64_sub e.n_tokens (packet_cost cpu_freq packet_size) }, true)
  else
    (e, false)

/-- One shaper step: refill, then debit. -/
def shaper (cpu_freq current_tsc total_length : Nat) (e : tagging_entry) :
    tagging_entry × Bool :=
  debit cpu_freq (packet_size total_length (refill cpu_freq current_tsc e))
    (refill cpu_freq current_tsc e)

/-- A sequence of shaper steps on one entry; each step comes with its TSC
reading and the IPv4 length field of its packet. -/
def run_shaper (cpu_freq : Nat) : tagging_entry → List (Nat × Nat) → tagging_entry
  | e, [] => e
  | e, s :: rest => run_shaper cpu_freq (shaper cpu_freq s.1 s.2 e).1 rest

/-! ## Classifier and tagger -/

/-- The three comparisons of the matching loop, in the order of the source:
`memcmp` of the 8 bytes of both addresses, `memcmp` of the 4 bytes of both
ports (read right after a 20-byte IPv4 header), then the protocol. -/
def entry_matches (e : tagging_entry) (data : List Nat) : Option Bool :=
  if data.length < SIZEOF_ETHER_HDR + 20 then none
  else if store_le 4 e.src_ip ++ store_le 4 e.dst_ip ≠ bytes_at data (SIZEOF_ETHER_HDR + 12) 8 then
    some false
  else if data.length < SIZEOF_ETHER_HDR + SIZEOF_IPV4_HDR + 4 then none
  else if store_le 2 e.src_port ++ store_le 2 e.dst_port
      ≠ bytes_at data (SIZEOF_ETHER_HDR + SIZEOF_IPV4_HDR) 4 then
    some false
  else if e.protocol ≠ byte_at data (SIZEOF_ETHER_HDR + 9) then some false
  else some true

/-- Memory image of a list of tags. -/
def tags_bytes : List vlan_hdr → List Nat
  | [] => []
  | t :: ts => store_le 2 t.eth_type ++ store_le 2 t.vlan_id ++ tags_bytes ts

/-- What the body of the matching loop yields for the entry that matched. -/
structure match_result where
  ret : Nat
  entry : tagging_entry
  packet : rte_mbuf
  vdev : vhost_dev
deriving DecidableEq

/-- The body of the matching loop once an entry matched: the "nothing to do"
test, shaping, the shared-buffer test, the prepend and the copy of the tags. -/
def tag_matched (cpu_freq do_shape current_tsc : Nat) (e : tagging_entry)
    (packet : rte_mbuf) (vdev : vhost_dev) : Option match_result :=
  if e.n_tags = 0 then some ⟨0, e, packet, vdev⟩
  else
    let sh := if do_shape ≠ 0 then
        shaper cpu_freq current_tsc (load_le packet.data (SIZEOF_ETHER_HDR + 2) 2) e
      else (e, true)
    if sh.2 = false then
      some ⟨0, sh.1, packet,
        { vdev with stats := { vdev.stats with
            tx_dropped := u64_add vdev.stats.tx_dropped 1 } }⟩
    else if packet.direct = false ∨ packet.refcnt > 1 then
      some ⟨0, sh.1, packet, vdev⟩
    else
      match rte_pktmbuf_prepend packet (sh.1.n_tags * SIZEOF_VLAN_HDR) with
      | none => some ⟨0, sh.1, packet, vdev⟩
      | some m =>
        if sh.1.n_tags > N_TAGS then none
        else
          let oh := (m.data.drop (sh.1.n_tags * SIZEOF_VLAN_HDR)).take (2 * RTE_ETHER_ADDR_LEN)
          let moved := write_bytes m.data 0 oh
          let tagged := write_bytes moved (2 * RTE_ETHER_ADDR_LEN)
            (tags_bytes (sh.1.tags.take sh.1.n_tags))
          let flags := Nat.land m.ol_flags
            (Nat.xor (2 ^ 64 - 1) (Nat.lor PKT_RX_VLAN_STRIPPED PKT_TX_VLAN))
          let m1 := { m with data := tagged, ol_flags := flags }
          let m2 := if Nat.land m1.ol_flags PKT_TX_TUNNEL_MASK ≠ 0 then
              { m1 with outer_l2_len := m1.outer_l2_len + sh.1.n_tags * SIZEOF_VLAN_HDR }
            else
              { m1 with l2_len := m1.l2_len + sh.1.n_tags * SIZEOF_VLAN_HDR }
          some ⟨sh.1.n_tags, sh.1, m2, vdev⟩

/-- What `tag_packet` leaves behind: its return value, the buffer, the
matching table and the device (for its statistics). -/
structure tag_result where
  ret : Nat
  packet : rte_mbuf
  table : List tagging_entry
  vdev : vhost_dev
deriving DecidableEq

/-- The matching loop of `tag_packet`, with `n` slots left to look at, the
next one being `entry_id`. -/
def tag_packet_loop (cpu_freq do_shape current_tsc : Nat) (table : List tagging_entry)
    (packet : rte_mbuf) (vdev : vhost_dev) : Nat → Nat → Option tag_result
  | 0, _ => some ⟨0, packet, table, vdev⟩
  | n + 1, entry_id =>
    match table[table_index vdev.vlan_tag entry_id]? with
    | none => none
    | some e =>
      match entry_matches e packet.data with
      | none => none
      | some false =>
        tag_packet_loop cpu_freq do_shape current_tsc table packet vdev n (entry_id + 1)
      | some true =>
        match tag_matched cpu_freq do_shape current_tsc e packet vdev with
        | none => none
        | some r =>
          some ⟨r.ret, r.packet, table.set (table_index vdev.vlan_tag entry_id) r.entry, r.vdev⟩

/-- Tag a packet based on the matching table. Returns the number of tags added. -/
def tag_packet (cpu_freq do_shape current_tsc : Nat) (table : List tagging_entry)
    (packet : rte_mbuf) (vdev : vhost_dev) : Option tag_result :=
  if packet.data.length < SIZEOF_ETHER_HDR then none
  else if load_le packet.data 12 2 = BE_RTE_ETHER_TYPE_IPV4 then
    if packet.data.length < SIZEOF_ETHER_HDR + 10 then none
    else if byte_at packet.data (SIZEOF_ETHER_HDR + 9) = IPPROTO_TCP
        ∨ byte_at packet.data (SIZEOF_ETHER_HDR + 9) = IPPROTO_UDP then
      tag_packet_loop cpu_freq do_shape current_tsc table packet vdev N_ENTRIES_PER_VHOST 0
    else some ⟨0, packet, table, vdev⟩
  else some ⟨0, packet, table, vdev⟩

/-! ## Control channel decoder -/

/-- The `tagging_entry` whose memory image starts at offset `off` of a buffer. -/
def decode_entry (b : List Nat) (off : Nat) : tagging_entry :=
  { protocol := byte_at b off
    src_ip := load_le b (off + 4) 4
    dst_ip := load_le b (off + 8) 4
    src_port := load_le b (off + 12) 2
    dst_port := load_le b (off + 14) 2
    rate_bps := load_le b (off + 16) 8
    burst_bits := load_le b (off + 24) 8
    n_tokens := load_le b (off + 32) 8
    last_tsc := load_le b (off + 40) 8
    n_tags := load_le b (off + 48) 2
    tags := (List.range N_TAGS).map (fun i =>
      ⟨load_le b (off + 50 + 4 * i) 2, load_le b (off + 52 + 4 * i) 2⟩) }

/-- Updates a matching table entry from a control frame; `current_tsc` is the
TSC reading taken by the update. -/
def update_table (cpu_freq current_tsc : Nat) (table : List tagging_entry)
    (packet : rte_mbuf) : Option (List tagging_entry) :=
  if packet.data.length < SIZEOF_ETHER_HDR then none
  else if load_le packet.data 12 2 = CTRL_ETHER_TYPE then
    if packet.data.length < SIZEOF_ETHER_HDR + 2 + SIZEOF_TAGGING_ENTRY then none
    else
      let data0 := byte_at packet.data SIZEOF_ETHER_HDR
      let data1 := byte_at packet.data (SIZEOF_ETHER_HDR + 1)
      if TABLE_SIZE ≤ table_index data0 data1 then none
      else
        let e := decode_entry packet.data (SIZEOF_ETHER_HDR + 2)
        let e1 := { e with last_tsc := current_tsc }
        let e2 := { e1 with n_tokens := u64_mul cpu_freq e1.n_tokens }
        some (table.set (table_index data0 data1) e2)
  else some table

/-- The tables that the control channel can produce: the start-up table and
every table that `update_table` makes of such a table. -/
inductive reachable_table (cpu_freq : Nat) : List tagging_entry → Prop
  | init : reachable_table cpu_freq matching_table_init
  | update (current_tsc : Nat) (table table1 : List tagging_entry) (packet : rte_mbuf) :
      reachable_table cpu_freq table →
      update_table cpu_freq current_tsc table packet = some table1 →
      reachable_table cpu_freq table1

/-! ## Predicates used to state the properties -/

/-- Slot `i` of row `v` holds `e`, `e` is accepted by the three comparisons of
the matching loop, and every slot before `i` is read and rejected. -/
def first_match (table : List tagging_entry) (v : Nat) (data : List Nat) (i : Nat)
    (e : tagging_entry) : Prop :=
  table[table_index v i]? = some e ∧ entry_matches e data = some true ∧
  ∀ j, j < i → ∃ ej, table[table_index v j]? = some ej ∧ entry_matches ej data = some false

/-- The five fields of the entry equal the bytes that the matching loop
compares them with: the protocol with byte 23 of the frame, the addresses
with bytes 26..33 and the ports with bytes 34..37, the four bytes that follow
`sizeof(struct rte_ipv4_hdr)` = 20 bytes of IPv4 header. -/
def compared_fields_equal (e : tagging_entry) (data : List Nat) : Prop :=
  e.protocol = byte_at data 23 ∧
  store_le 4 e.src_ip = bytes_at data 26 4 ∧ store_le 4 e.dst_ip = bytes_at data 30 4 ∧
  store_le 2 e.src_port = bytes_at data 34 2 ∧ store_le 2 e.dst_port = bytes_at data 36 2

/-- The length in bytes of the IPv4 header of a frame: four times its IHL
field, the low half of the first byte of the header. -/
def ipv4_header_length (data : List Nat) : Nat :=
  4 * (byte_at data SIZEOF_ETHER_HDR % 16)

/-- A rule matches in the words of the spec: protocol, src_ip, dst_ip, src_port
and dst_port all equal the fields of the packet, compared byte by byte in their
on-wire representation. The protocol of the packet is byte 23 of the frame and
its addresses are at bytes 26 and 30; its ports are the first four bytes of its
TCP or UDP header, which follows the IPv4 header, options included. -/
def rule_matches (e : tagging_entry) (data : List Nat) : Prop :=
  e.protocol = byte_at data 23 ∧
  store_le 4 e.src_ip = bytes_at data 26 4 ∧ store_le 4 e.dst_ip = bytes_at data 30 4 ∧
  store_le 2 e.src_port = bytes_at data (SIZEOF_ETHER_HDR + ipv4_header_length data) 2 ∧
  store_le 2 e.dst_port = bytes_at data (SIZEOF_ETHER_HDR + ipv4_header_length data + 2) 2

/-- The acceptance predicate in the words of the spec: the outer EtherType is
IPv4 (bytes `08 00` on the wire), the IPv4 next-protocol is TCP or UDP, and a
slot of the row of the guest holds a rule that matches. -/
def acceptance_predicate (table : List tagging_entry) (data : List Nat) (vlan_tag : Nat) : Prop :=
  (byte_at data 12 = 8 ∧ byte_at data 13 = 0) ∧
  (byte_at data 23 = IPPROTO_TCP ∨ byte_at data 23 = IPPROTO_UDP) ∧
  ∃ s, s < N_ENTRIES_PER_VHOST ∧ ∃ e, table[table_index vlan_tag s]? = some e ∧ rule_matches e data

/-! ## Concrete inputs -/

/-- An entry of the scenario B3: rate `2^63`, an empty bucket of one megabit. -/
def b3_entry : tagging_entry :=
  { zero_entry with rate_bps := 2 ^ 63, burst_bits := 1000000, last_tsc := 5, n_tags := 1 }

/-- A rule for TCP 10.0.0.1:1000 → 10.0.0.2:2000 at 1 Gbit/s with the tags
(0x8100, 100) and (0x8100, 200), all in on-wire order as a little-endian CPU
loads them. -/
def five_tuple_entry (burst_bits n_tokens last_tsc n_tags : Nat) : tagging_entry :=
  { protocol := 6, src_ip := 16777226, dst_ip := 33554442, src_port := 59395, dst_port := 53255,
    rate_bps := 1000000000, burst_bits := burst_bits, n_tokens := n_tokens,
    last_tsc := last_tsc, n_tags := n_tags,
    tags := [⟨129, 25600⟩, ⟨129, 51200⟩] ++ List.replicate 8 ⟨0, 0⟩ }

/-- A TCP segment 10.0.0.1:1000 → 10.0.0.2:2000 of IPv4 length 60 in an
Ethernet frame of 74 bytes. -/
def tcp_frame : List Nat :=
  [1, 2, 3, 4, 5, 6, 7, 8, 9, 10, 11, 12, 8, 0]
  ++ [69, 0, 0, 60, 0, 0, 0, 0, 64, 6, 0, 0, 10, 0, 0, 1, 10, 0, 0, 2]
  ++ [3, 232, 7, 208] ++ List.replicate 36 85

/-- A TCP segment 10.0.0.1:80 → 10.0.0.2:443 whose IPv4 header has IHL = 6:
24 bytes of header, the last four being options with the bytes `03 E8 07 D0`,
then the TCP header. IPv4 length 64, a frame of 78 bytes. -/
def options_frame : List Nat :=
  [1, 2, 3, 4, 5, 6, 7, 8, 9, 10, 11, 12, 8, 0]
  ++ [70, 0, 0, 64, 0, 0, 0, 0, 64, 6, 0, 0, 10, 0, 0, 1, 10, 0, 0, 2]
  ++ [3, 232, 7, 208]
  ++ [0, 80, 1, 187] ++ List.replicate 36 85

/-- An ARP frame: its EtherType is not IPv4. -/
def arp_frame : List Nat :=
  [255, 255, 255, 255, 255, 255, 7, 8, 9, 10, 11, 12, 8, 6] ++ List.replicate 46 0

/-- A direct, unshared buffer with 128 bytes of headroom that holds `data`. -/
def fresh_mbuf (data : List Nat) : rte_mbuf :=
  { headroom := List.replicate 128 0, data := data, pkt_len := data.length, refcnt := 1,
    direct := true, ol_flags := 0, l2_len := 14, outer_l2_len := 0 }

/-- A guest in data mode bound to pool 4, hence to row 5 of the table. -/
def data_guest : vhost_dev :=
  { mac_address := [0, 0, 0, 0, 0, 5], pool_id := 4, vmdq_rx_q := 4, vlan_tag := 5,
    tx_coreid := 1, rx_coreid := 2, ready := 1, remove := 0, vid := 0,
    stats := ⟨0, 0, 0, 0, 0, 0⟩ }

/-- The start-up table with one rule in slot `s` of row 5. -/
def table_with (s : Nat) (e : tagging_entry) : List tagging_entry :=
  matching_table_init.set (table_index 5 s) e

/-- What `tag_packet` returns in the scenario used as an example of a tagged
packet: a rule with two tags and a megabit of burst, idle for 2000 cycles. -/
def tagged_result : tag_result :=
  (tag_packet 1000000000 1 2000 (table_with 0 (five_tuple_entry 1000000 0 0 2))
    (fresh_mbuf tcp_frame) data_guest).getD ⟨0, fresh_mbuf [], [], data_guest⟩

/-- A control frame for row `pool`, slot `slot`, that carries the rule
`five_tuple_entry` with the given initial tokens and number of tags. -/
def ctrl_frame (pool slot n_tokens n_tags : Nat) : rte_mbuf :=
  fresh_mbuf (List.replicate 12 0 ++ [190, 190] ++ [pool, slot]
    ++ [6, 0, 0, 0] ++ [10, 0, 0, 1] ++ [10, 0, 0, 2] ++ [3, 232] ++ [7, 208]
    ++ store_le 8 1000000000 ++ store_le 8 1000000 ++ store_le 8 n_tokens ++ store_le 8 0
    ++ store_le 2 n_tags ++ [129, 0, 0, 100] ++ [129, 0, 0, 200] ++ List.replicate 32 0
    ++ List.replicate 6 0)

/-- An entry with a full bucket of one gigabit at 3 GHz and a rate of 10 Gbit/s. -/
def full_bucket_entry : tagging_entry :=
  { zero_entry with
    rate_bps := 10000000000
    burst_bits := 1000000000
    n_tokens := 3000000000000000000
    last_tsc := 0
    n_tags := 1 }

/-- A table whose row 5 holds no rule in slot 0 and the rule of the example
in both slot 1 (with `k1` tags) and slot 2 (with `k2` tags). -/
def two_rules_table (k1 k2 : Nat) : List tagging_entry :=
  (matching_table_init.set (table_index 5 1) (five_tuple_entry 1000000 0 0 k1)).set
    (table_index 5 2) (five_tuple_entry 1000000 0 0 k2)

/-! ## The control frame, as the spec lays it out -/

/-- The memory image of a `tagging_entry`, in the words of the spec: the
fields in declaration order at their natural alignment, multi-byte fields as
the CPU stores them; `pad1` are the 3 bytes of padding after `protocol` and
`pad2` the 6 bytes after `tags`. -/
def entry_image (e : tagging_entry) (pad1 pad2 : List Nat) : List Nat :=
  [e.protocol] ++ pad1 ++ store_le 4 e.src_ip ++ store_le 4 e.dst_ip
  ++ store_le 2 e.src_port ++ store_le 2 e.dst_port
  ++ store_le 8 e.rate_bps ++ store_le 8 e.burst_bits
  ++ store_le 8 e.n_tokens ++ store_le 8 e.last_tsc
  ++ store_le 2 e.n_tags ++ tags_bytes e.tags ++ pad2

/-- A control frame in the words of the spec: a 14-byte Ethernet header with
the addresses `mac` and EtherType bytes `BE BE`, the pool index, the rule
slot, the image of the entry, and whatever follows. -/
def control_frame (mac : List Nat) (p s : Nat) (e : tagging_entry) (pad1 pad2 trailer : List Nat) :
    List Nat :=
  mac ++ [190, 190] ++ [p, s] ++ entry_image e pad1 pad2 ++ trailer

/-- The rule of the example with a megabit of burst, `n_tokens` initial
tokens and two tags; it fits its C type. -/
def example_rule (n_tokens : Nat) : tagging_entry := five_tuple_entry 1000000 n_tokens 0 2

/-! ## Guest lifecycle -/

/-- State of a virtio device: learning the MAC of the VM. -/
def DEVICE_MAC_LEARNING : Nat := 0

/-- State of a virtio device: working, data. -/
def DEVICE_DATA_RX : Nat := 1

/-- State of a virtio device: working, control. -/
def DEVICE_CONTROL : Nat := 2

/-- State of a virtio device: ready to delete. -/
def DEVICE_SAFE_REMOVE : Nat := 3

/-- Value of `dev_removal_flag` that asks a core to acknowledge a removal. -/
def REQUEST_DEV_REMOVAL : Nat := 1

/-- Value of `dev_removal_flag` by which a core acknowledges. -/
def ACK_DEV_REMOVAL : Nat := 0

/-- For each pool ID, VLAN tag to use. -/
def vlan_tags : List Nat :=
  [ 1,  2,  3,  4,  5,  6,  7,  8,
    9, 10, 11, 12, 13, 14, 15, 16,
   17, 18, 19, 20, 21, 22, 23, 24,
   25, 26, 27, 28, 29, 30, 31, 32,
   33, 34, 35, 36, 37, 38, 39, 40,
   41, 42, 43, 44, 45, 46, 47, 48,
   49, 50, 51, 52, 53, 54, 55, 56,
   57, 58, 59, 60, 61, 62, 63, 64]

/-- Which pools are used, at start-up: 64 times `0`. -/
def pools_used_init : List Bool := List.replicate 64 false

/-- Increment of a `uint32_t`. -/
def u32_add (a b : Nat) : Nat := (a + b) % 2 ^ 32

/-- Decrement of a `uint32_t`. -/
def u32_sub (a b : Nat) : Nat := (a + (2 ^ 32 - b % 2 ^ 32)) % 2 ^ 32

/-- The globals that are set once at start-up: the TSC frequency, the two
switches of the command line and the port information. -/
structure switch_conf where
  cpu_freq : Nat
  do_tag : Nat
  do_shape : Nat
  num_virtio_devices : Nat
  queues_per_pool : Nat
  vmdq_queue_base : Nat
deriving DecidableEq

/-- Data core specific information. The two tail queues hold the guests the
core works for; a guest is named by its `vid`, which the guest transport keeps
unique among the guests that are alive. -/
structure lcore_info where
  device_num : Nat
  dev_removal_flag : Nat
  tx_vdev_list : List Int
  rx_vdev_list : List Int
deriving DecidableEq

/-- The macro `GET_POOL_ID`: the last byte of the MAC address modulo the number
of pools plus one, minus one, as the `int` the result is stored in. -/
def GET_POOL_ID (mac_address : List Nat) (num_virtio_devices : Nat) : Int :=
  ((byte_at mac_address 5 % (num_virtio_devices + 1) : Nat) : Int) - 1

/-- The read `pools_used[pool_id]`. For `pool_id = -1` the code reads the byte
that lies in front of the array; `stray` says whether that byte is non-zero.
Any other index outside the array gives `none`. -/
def pools_used_at (pools_used : List Bool) (stray : Bool) (pool_id : Int) : Option Bool :=
  if pool_id = -1 then some stray
  else if pool_id < 0 then none
  else pools_used[pool_id.toNat]?

/-- What `link_vmdq` leaves behind: its return value, the device, and the
globals it writes. -/
structure link_result where
  ret : Int
  vdev : vhost_dev
  pools_used : List Bool
  lcore_info : List lcore_info
  pool_allocation_failure : Nat
deriving DecidableEq

/-- This function learns the MAC address of the device and registers this
along with a vlan tag to a VMDq. `mac_addr_add_ret` is what the NIC answers to
`rte_eth_dev_mac_addr_add`. -/
def link_vmdq (conf : switch_conf) (mac_addr_add_ret : Int) (stray : Bool)
    (pools_used : List Bool) (lcores : List lcore_info) (pool_allocation_failure : Nat)
    (vdev : vhost_dev) (m : rte_mbuf) : Option link_result :=
  if m.data.length < 2 * RTE_ETHER_ADDR_LEN then none
  else
    let vdev1 := { vdev with
      mac_address := bytes_at m.data RTE_ETHER_ADDR_LEN RTE_ETHER_ADDR_LEN }
    let pool_id := GET_POOL_ID vdev1.mac_address conf.num_virtio_devices
    match pools_used_at pools_used stray pool_id with
    | none => none
    | some true =>
      some ⟨-1, vdev1, pools_used, lcores,
        if pool_allocation_failure = 0 then 1 else pool_allocation_failure⟩
    | some false =>
      if pool_id ≠ -1 then
        match vlan_tags[pool_id.toNat]? with
        | none => none
        | some tag =>
          let vdev2 := { vdev1 with
            vlan_tag := tag
            pool_id := pool_id.toNat % 2 ^ 16
            vmdq_rx_q :=
              (pool_id.toNat * conf.queues_per_pool + conf.vmdq_queue_base) % 2 ^ 16 }
          if mac_addr_add_ret ≠ 0 then
            some ⟨-1, vdev2, pools_used, lcores, pool_allocation_failure⟩
          else
            some ⟨0, { vdev2 with ready := DEVICE_DATA_RX },
              pools_used.set pool_id.toNat true, lcores, pool_allocation_failure⟩
      else
        match lcores[vdev1.rx_coreid]? with
        | none => none
        | some lc =>
          if vdev1.vid ∈ lc.rx_vdev_list then
            some ⟨0, { vdev1 with rx_coreid := 0, ready := DEVICE_CONTROL }, pools_used,
              lcores.set vdev1.rx_coreid { lc with
                device_num := u32_sub lc.device_num 1
                rx_vdev_list := lc.rx_vdev_list.erase vdev1.vid },
              pool_allocation_failure⟩
          else none

/-- Removes MAC address and VLAN tag from VMDq. The loop that frees what is
left in the RX queue of the pool touches nothing of the state kept here. -/
def unlink_vmdq (conf : switch_conf) (pools_used : List Bool) (vdev : vhost_dev) :
    Option (vhost_dev × List Bool) :=
  if vdev.ready = DEVICE_DATA_RX ∨ vdev.ready = DEVICE_CONTROL then
    let pool_id := GET_POOL_ID vdev.mac_address conf.num_virtio_devices
    let vdev1 := { vdev with
      mac_address := List.replicate RTE_ETHER_ADDR_LEN 0, vlan_tag := 0, pool_id := 0 }
    if pool_id ≠ -1 then
      if pool_id.toNat < pools_used.length then
        some ({ vdev1 with ready := DEVICE_MAC_LEARNING }, pools_used.set pool_id.toNat false)
      else none
    else some ({ vdev1 with ready := DEVICE_MAC_LEARNING }, pools_used)
  else some (vdev, pools_used)

/-! ## Data-plane worker -/

/-- Used for queueing bursts of TX packets. `m_table` holds the `len` buffers
that are pending, so `len` is its length; the array of the source has
`MAX_PKT_BURST` slots. -/
structure mbuf_table where
  txq_id : Nat
  m_table : List rte_mbuf
deriving DecidableEq

/-- What the environment answers during one call of `drain_virtio_tx`: the
NIC to `rte_eth_dev_mac_addr_add`, the byte in front of `pools_used`, the TSC
reading taken while packet `i` of the burst is handled, and the number of
packets the NIC takes at its `k`-th `rte_eth_tx_burst` when offered `n`. -/
structure tx_env where
  mac_addr_add_ret : Int
  stray : Bool
  tsc : Nat → Nat
  tx_burst : Nat → Nat → Nat

/-- What a TX worker works on: the device, the globals it reads and writes,
its batch, and a record of what it hands to the outside: the buffers given to
`rte_pktmbuf_free` (`freed`), the buffers offered to `rte_eth_tx_burst`
(`offered`) and the number of such offers (`flushes`). -/
structure tx_state where
  vdev : vhost_dev
  matching_table : List tagging_entry
  tx_q : mbuf_table
  pools_used : List Bool
  lcore_info : List lcore_info
  pool_allocation_failure : Nat
  freed : List rte_mbuf
  offered : List rte_mbuf
  flushes : Nat
deriving DecidableEq

/-- Sends the batch to the NIC and frees what the NIC refuses; `count` is the
number of packets the NIC reports as sent. Returns that number. -/
def do_drain_mbuf_table (count : Nat) (s : tx_state) : Nat × tx_state :=
  (count, { s with
    tx_q := { s.tx_q with m_table := [] }
    freed := s.freed ++ (s.tx_q.m_table.drop count).reverse
    offered := s.offered ++ s.tx_q.m_table
    flushes := s.flushes + 1 })

/-- The statement `vdev->stats.tx_success += do_drain_mbuf_table(tx_q)`. -/
def flush_tx_q (env : tx_env) (s : tx_state) : tx_state :=
  let r := do_drain_mbuf_table (env.tx_burst s.flushes s.tx_q.m_table.length) s
  { r.2 with vdev := { r.2.vdev with stats := { r.2.vdev.stats with
      tx_success := u64_add r.2.vdev.stats.tx_success r.1 } } }

/-- Gets a burst from the NIC queue of the guest and sends it to the guest:
`rx_count` packets came from the NIC, `enqueue_count` went to the guest. -/
def drain_eth_rx (rx_count enqueue_count : Nat) (vdev : vhost_dev) : vhost_dev :=
  if rx_count = 0 then vdev
  else { vdev with stats := { vdev.stats with
    rx_total_atomic := u64_add vdev.stats.rx_total_atomic rx_count
    rx_success_atomic := u64_add vdev.stats.rx_success_atomic enqueue_count } }

/-- Control processing of `drain_virtio_tx`: every packet is counted, decoded
and freed; `i` is the position of the first packet of the list in the burst. -/
def control_loop (conf : switch_conf) (env : tx_env) :
    List rte_mbuf → Nat → tx_state → Option tx_state
  | [], _, s => some s
  | pkt :: rest, i, s =>
    match update_table conf.cpu_freq (env.tsc i) s.matching_table pkt with
    | none => none
    | some table =>
      control_loop conf env rest (i + 1) { s with
        vdev := { s.vdev with stats := { s.vdev.stats with
          tx_total := u64_add s.vdev.stats.tx_total 1
          tx_tagged := u64_add s.vdev.stats.tx_tagged 1 } }
        matching_table := table
        freed := s.freed ++ [pkt] }

/-- Adds a packet to the TX queue of the core and counts it as tagged. -/
def enqueue_tagged (s : tx_state) (pkt : rte_mbuf) : Option tx_state :=
  if MAX_PKT_BURST ≤ s.tx_q.m_table.length then none
  else some { s with
    tx_q := { s.tx_q with m_table := s.tx_q.m_table ++ [pkt] }
    vdev := { s.vdev with stats := { s.vdev.stats with
      tx_tagged := u64_add s.vdev.stats.tx_tagged 1 } } }

/-- Fully send the buffer if it is full. -/
def flush_if_full (env : tx_env) (s : tx_state) : tx_state :=
  if s.tx_q.m_table.length = MAX_PKT_BURST then flush_tx_q env s else s

/-- Data processing of `drain_virtio_tx`, the loop over the burst; `i` is the
position of the first packet of the list in the burst. -/
def data_loop (conf : switch_conf) (env : tx_env) :
    List rte_mbuf → Nat → tx_state → Option tx_state
  | [], _, s => some s
  | pkt :: rest, i, s =>
    let s1 := { s with vdev := { s.vdev with stats := { s.vdev.stats with
      tx_total := u64_add s.vdev.stats.tx_total 1 } } }
    if conf.do_tag ≠ 0 then
      match tag_packet conf.cpu_freq conf.do_shape (env.tsc i) s1.matching_table pkt s1.vdev with
      | none => none
      | some r =>
        let s2 := { s1 with vdev := r.vdev, matching_table := r.table }
        if r.ret % 2 ^ 8 ≠ 0 then
          match enqueue_tagged s2 r.packet with
          | none => none
          | some s3 => data_loop conf env rest (i + 1) (flush_if_full env s3)
        else
          data_loop conf env rest (i + 1)
            (flush_if_full env { s2 with freed := s2.freed ++ [r.packet] })
    else
      match enqueue_tagged s1 pkt with
      | none => none
      | some s3 => data_loop conf env rest (i + 1) (flush_if_full env s3)

/-- The MAC learning step of `drain_virtio_tx`: on the first packet of a guest
that still learns its MAC, link it, and free the burst if the guest is marked
for removal or the link fails. -/
def learn_mac (conf : switch_conf) (env : tx_env) (s : tx_state) (pkts : List rte_mbuf) :
    Option tx_state :=
  match pkts with
  | [] => some s
  | m :: _ =>
    if s.vdev.ready = DEVICE_MAC_LEARNING then
      if s.vdev.remove ≠ 0 then some { s with freed := s.freed ++ pkts.reverse }
      else
        match link_vmdq conf env.mac_addr_add_ret env.stray s.pools_used s.lcore_info
            s.pool_allocation_failure s.vdev m with
        | none => none
        | some r =>
          let s1 := { s with
            vdev := r.vdev
            pools_used := r.pools_used
            lcore_info := r.lcore_info
            pool_allocation_failure := r.pool_allocation_failure }
          if r.ret = -1 then some { s1 with freed := s1.freed ++ pkts.reverse }
          else some s1
    else some s

/-- Drains the TX queue of a guest: `pkts` is the burst that
`rte_vhost_dequeue_burst` returned. -/
def drain_virtio_tx (conf : switch_conf) (env : tx_env) (s : tx_state) (pkts : List rte_mbuf) :
    Option tx_state :=
  match learn_mac conf env s pkts with
  | none => none
  | some s1 =>
    if s1.vdev.ready = DEVICE_CONTROL then control_loop conf env pkts 0 s1
    else if s1.vdev.ready = DEVICE_DATA_RX then
      match data_loop conf env pkts 0 s1 with
      | none => none
      | some s2 => if s2.tx_q.m_table.length > 0 then some (flush_tx_q env s2) else some s2
    else some s1

/-- The body of the RX loop of `switch_worker` for one guest. -/
def switch_worker_rx_body (conf : switch_conf) (rx_count enqueue_count : Nat)
    (pools_used : List Bool) (vdev : vhost_dev) : Option (vhost_dev × List Bool) :=
  if vdev.remove ≠ 0 then unlink_vmdq conf pools_used vdev
  else if vdev.ready = DEVICE_DATA_RX then
    some (drain_eth_rx rx_count enqueue_count vdev, pools_used)
  else some (vdev, pools_used)

/-- The body of the TX loop of `switch_worker` for one guest. -/
def switch_worker_tx_body (conf : switch_conf) (env : tx_env) (s : tx_state)
    (pkts : List rte_mbuf) : Option tx_state :=
  match drain_virtio_tx conf env s pkts with
  | none => none
  | some s1 =>
    if s1.vdev.remove ≠ 0 then
      some { s1 with vdev := { s1.vdev with ready := DEVICE_SAFE_REMOVE } }
    else some s1

/-! ## Lifecycle coordinator -/

/-- The process-wide state the coordinator and the workers share. -/
structure switch_state where
  vhost_dev_list : List vhost_dev
  lcore_info : List lcore_info
  pools_used : List Bool
  pool_allocation_failure : Nat
  matching_table : List tagging_entry
deriving DecidableEq

/-- The state at start-up, with `n` entries in `lcore_info`. -/
def switch_state_init (n : Nat) : switch_state :=
  { vhost_dev_list := []
    lcore_info := List.replicate n ⟨0, 0, [], []⟩
    pools_used := pools_used_init
    pool_allocation_failure := 0
    matching_table := matching_table_init }

/-- A device as `rte_zmalloc` returns it, with its `vid` set. -/
def zeroed_vhost_dev (vid : Int) : vhost_dev :=
  { mac_address := List.replicate RTE_ETHER_ADDR_LEN 0, pool_id := 0, vmdq_rx_q := 0,
    vlan_tag := 0, tx_coreid := 0, rx_coreid := 0, ready := 0, remove := 0, vid := vid,
    stats := ⟨0, 0, 0, 0, 0, 0⟩ }

/-- The second loop of `new_device` over the worker cores: it skips the TX
core and keeps the first core whose `device_num` is below the minimum so far.
Returns `device_num_min` and `core_add`. -/
def rx_core_loop (lcores : List lcore_info) (tx_coreid : Nat) :
    List Nat → Nat → Nat → Option (Nat × Nat)
  | [], device_num_min, core_add => some (device_num_min, core_add)
  | lcore :: rest, device_num_min, core_add =>
    if lcore = tx_coreid then rx_core_loop lcores tx_coreid rest device_num_min core_add
    else
      match lcores[lcore]? with
      | none => none
      | some lc =>
        if lc.device_num < device_num_min then
          rx_core_loop lcores tx_coreid rest lc.device_num lcore
        else rx_core_loop lcores tx_coreid rest device_num_min core_add

/-- A new device is added to a data core. `workers` are the worker cores in
the order `RTE_LCORE_FOREACH_SLAVE` visits them, `alloc_ok` says whether the
allocation of the device succeeded. Returns the return value and the state. -/
def new_device (conf : switch_conf) (workers : List Nat) (alloc_ok : Bool) (vid : Int)
    (s : switch_state) : Option (Int × switch_state) :=
  if alloc_ok = false then some (-1, s)
  else
    let vdev := { zeroed_vhost_dev vid with ready := DEVICE_MAC_LEARNING, remove := 0 }
    let core_add := workers.headD 0
    let vdev1 := { vdev with tx_coreid := core_add % 2 ^ 16 }
    match s.lcore_info[vdev1.tx_coreid]? with
    | none => none
    | some lc_tx =>
      let lcores1 := s.lcore_info.set vdev1.tx_coreid { lc_tx with
        device_num := u32_add lc_tx.device_num 1
        tx_vdev_list := lc_tx.tx_vdev_list ++ [vid] }
      match rx_core_loop lcores1 vdev1.tx_coreid workers conf.num_virtio_devices core_add with
      | none => none
      | some (_, core_add1) =>
        let vdev2 := { vdev1 with rx_coreid := core_add1 % 2 ^ 16 }
        match lcores1[vdev2.rx_coreid]? with
        | none => none
        | some lc_rx =>
          some (0, { s with
            vhost_dev_list := s.vhost_dev_list ++ [vdev2]
            lcore_info := lcores1.set vdev2.rx_coreid { lc_rx with
              device_num := u32_add lc_rx.device_num 1
              rx_vdev_list := lc_rx.rx_vdev_list ++ [vid] } })

/-- The states that start-up, `new_device`, `drain_virtio_tx` (and with it
`link_vmdq`) and `unlink_vmdq` can produce, one call after the other. The
guest a worker handles is the `k`-th of `vhost_dev_list`. -/
inductive reachable_state (conf : switch_conf) (workers : List Nat) :
    switch_state → Prop
  | init (n : Nat) : reachable_state conf workers (switch_state_init n)
  | new_device (s s1 : switch_state) (alloc_ok : Bool) (vid ret : Int) :
      reachable_state conf workers s →
      new_device conf workers alloc_ok vid s = some (ret, s1) →
      reachable_state conf workers s1
  | drain_virtio_tx (s : switch_state) (k : Nat) (vdev : vhost_dev) (env : tx_env)
      (tx_q : mbuf_table) (pkts : List rte_mbuf) (r : tx_state) :
      reachable_state conf workers s →
      s.vhost_dev_list[k]? = some vdev →
      drain_virtio_tx conf env
        ⟨vdev, s.matching_table, tx_q, s.pools_used, s.lcore_info,
          s.pool_allocation_failure, [], [], 0⟩ pkts = some r →
      reachable_state conf workers
        { vhost_dev_list := s.vhost_dev_list.set k r.vdev
          lcore_info := r.lcore_info
          pools_used := r.pools_used
          pool_allocation_failure := r.pool_allocation_failure
          matching_table := r.matching_table }
  | unlink_vmdq (s : switch_state) (k : Nat) (vdev vdev1 : vhost_dev)
      (pools_used1 : List Bool) :
      reachable_state conf workers s →
      s.vhost_dev_list[k]? = some vdev →
      unlink_vmdq conf s.pools_used vdev = some (vdev1, pools_used1) →
      reachable_state conf workers
        { s with vhost_dev_list := s.vhost_dev_list.set k vdev1, pools_used := pools_used1 }

/-- A call of a worker on a guest: `drain_eth_rx` with what the NIC and the
guest answer, or `drain_virtio_tx` with its environment and its burst. -/
inductive worker_call where
  | rx (rx_count enqueue_count : Nat) : worker_call
  | tx (env : tx_env) (pkts : List rte_mbuf) : worker_call

/-- A sequence of calls of the workers on one guest. -/
def run_calls (conf : switch_conf) : tx_state → List worker_call → Option tx_state
  | s, [] => some s
  | s, worker_call.rx rx_count enqueue_count :: rest =>
    run_calls conf { s with vdev := drain_eth_rx rx_count enqueue_count s.vdev } rest
  | s, worker_call.tx env pkts :: rest =>
    match drain_virtio_tx conf env s pkts with
    | none => none
    | some s1 => run_calls conf s1 rest

/-- What the environment may answer in a call: the NIC returns at most
`MAX_PKT_BURST` packets and the guest takes no more than it is offered; the
guest hands over at most `MAX_PKT_BURST` packets and the NIC reports no more
packets sent than it was offered. -/
def worker_call.fair : worker_call → Prop
  | worker_call.rx rx_count enqueue_count =>
    enqueue_count ≤ rx_count ∧ rx_count ≤ MAX_PKT_BURST
  | worker_call.tx env pkts =>
    pkts.length ≤ MAX_PKT_BURST ∧ ∀ k n, env.tx_burst k n ≤ n

/-- The configuration of the examples: 1 GHz, tagging and shaping on, 8 pools
of one queue each, the first VMDq queue being queue 0. -/
def example_conf : switch_conf :=
  { cpu_freq := 1000000000, do_tag := 1, do_shape := 1, num_virtio_devices := 8,
    queues_per_pool := 1, vmdq_queue_base := 0 }

/-- A frame whose source MAC address ends in `last`. -/
def frame_from (last : Nat) : rte_mbuf :=
  fresh_mbuf ([255, 255, 255, 255, 255, 255, 0, 0, 0, 0, 0, last, 8, 6] ++ List.replicate 46 0)

/-- The state after `new_device` ran for `vids` in turn, with worker cores 1
and 2 in an `lcore_info` of 4 entries. -/
def after_new_devices (vids : List Int) : Option switch_state :=
  vids.foldl (fun s vid => s.bind (fun s1 =>
    (new_device example_conf [1, 2] true vid s1).map (fun r => r.2)))
    (some (switch_state_init 4))

/-- A guest as `new_device` makes it with worker cores 1 and 2. -/
def new_guest : vhost_dev :=
  { zeroed_vhost_dev 0 with tx_coreid := 1, rx_coreid := 2 }

/-- The cores after `new_device` made `new_guest`. -/
def new_guest_lcores : List lcore_info :=
  [⟨0, 0, [], []⟩, ⟨1, 0, [0], []⟩, ⟨1, 0, [], [0]⟩, ⟨0, 0, [], []⟩]

/-- An environment in which the NIC takes the MAC and every packet, the byte
in front of `pools_used` is `stray`, and the TSC reads `1000 * (i + 1)` at
packet `i`. -/
def example_env (stray : Bool) : tx_env :=
  { mac_addr_add_ret := 0, stray := stray, tsc := fun i => 1000 * (i + 1),
    tx_burst := fun _ n => n }

/-- The working state of the TX worker on `vdev`, with an empty batch. -/
def tx_state_of (vdev : vhost_dev) (pools_used : List Bool) (lcores : List lcore_info) :
    tx_state :=
  ⟨vdev, matching_table_init, ⟨0, []⟩, pools_used, lcores, 0, [], [], 0⟩

/-! ## Predicates on the lifecycle -/

/-- The device `b` is the device `a` but for its statistics. -/
def same_but_stats (a b : vhost_dev) : Prop := b = { a with stats := b.stats }

/-- Between `s` and `r` the worker changed nothing of the lifecycle: the device
but for its statistics, the pool bits, the cores and the collision flag are
the same. -/
def same_lifecycle (s r : tx_state) : Prop :=
  same_but_stats s.vdev r.vdev ∧ r.pools_used = s.pools_used
  ∧ r.lcore_info = s.lcore_info ∧ r.pool_allocation_failure = s.pool_allocation_failure

/-- The working state after the guest of the examples sent its first burst, a
single ARP frame from a MAC address ending in `05`. -/
def linked_state : tx_state :=
  (drain_virtio_tx example_conf (example_env false)
    (tx_state_of new_guest pools_used_init new_guest_lcores) [frame_from 5]).getD
    (tx_state_of new_guest pools_used_init new_guest_lcores)

/-- The invariant behind the pool allocation: a guest in DataRx holds the pool
that its MAC address maps to, and the bit of that pool is set; the MAC address
of a guest in Control maps to -1; two guests in DataRx hold different pools. -/
def pool_invariant (num_virtio_devices : Nat) (guests : List vhost_dev)
    (pools_used : List Bool) : Prop :=
  (∀ (k : Nat) (g : vhost_dev), guests[k]? = some g → g.ready = DEVICE_DATA_RX →
    GET_POOL_ID g.mac_address num_virtio_devices = (g.pool_id : Int)
    ∧ pools_used[g.pool_id]? = some true)
  ∧ (∀ (k : Nat) (g : vhost_dev), guests[k]? = some g → g.ready = DEVICE_CONTROL →
    GET_POOL_ID g.mac_address num_virtio_devices = -1)
  ∧ (∀ (i j : Nat) (gi gj : vhost_dev), i ≠ j → guests[i]? = some gi → guests[j]? = some gj →
    gi.ready = DEVICE_DATA_RX → gj.ready = DEVICE_DATA_RX → gi.pool_id ≠ gj.pool_id)

/-- The state of the switch after `new_device` made the guest of the examples
and the guest sent its first burst. -/
def linked_switch_state : switch_state :=
  { vhost_dev_list := [new_guest].set 0 linked_state.vdev
    lcore_info := linked_state.lcore_info
    pools_used := linked_state.pools_used
    pool_allocation_failure := linked_state.pool_allocation_failure
    matching_table := linked_state.matching_table }

/-! ## Predicates and inputs on the counters -/

/-- The counters of the guest of `s` are consistent and at most `bound`, with
the packets that wait in the batch counted as tagged and not yet sent. -/
def counters_ok (bound : Nat) (s : tx_state) : Prop :=
  bound < 2 ^ 64
  ∧ s.vdev.stats.tx_total ≤ bound
  ∧ s.vdev.stats.rx_total_atomic ≤ bound
  ∧ s.vdev.stats.tx_tagged + s.vdev.stats.tx_dropped ≤ s.vdev.stats.tx_total
  ∧ s.vdev.stats.tx_success + s.tx_q.m_table.length ≤ s.vdev.stats.tx_tagged
  ∧ s.vdev.stats.rx_success_atomic ≤ s.vdev.stats.rx_total_atomic

/-- The working state of the TX worker on the data guest of the examples, with
zeroed counters, an empty batch and one rule in row 5 of the table. -/
def counting_state : tx_state :=
  { tx_state_of data_guest pools_used_init new_guest_lcores with
    matching_table := table_with 0 (five_tuple_entry 1000000 0 0 2) }

/-- Two calls on that guest: a burst of a TCP segment that the rule tags and
an ARP frame that nothing matches, then three packets from the NIC of which
the guest takes two. -/
def counting_calls : List worker_call :=
  [worker_call.tx (example_env false) [fresh_mbuf tcp_frame, fresh_mbuf arp_frame],
   worker_call.rx 3 2]

/-- The state after `counting_calls`. -/
def counted_state : tx_state :=
  (run_calls example_conf counting_state counting_calls).getD counting_state

/-- The state after the data guest of the examples sent a burst of a TCP
segment that its rule tags and an ARP frame that nothing matches. -/
def drained_state : tx_state :=
  (drain_virtio_tx example_conf (example_env false) counting_state
    [fresh_mbuf tcp_frame, fresh_mbuf arp_frame]).getD counting_state

/-! ## Tail queues, as `sys/queue.h` keeps them in memory

The lists of guests are `TAILQ`s. As long as `TAILQ_REMOVE` is given an
element of the list it is given, a list of guests describes them, which is how
`lcore_info` above holds them. `destroy_device` does not keep to that, so this
part holds the links themselves: the macros are written from `sys/queue.h`,
statement by statement. A guest is named by its address, the number of the
allocation that made it. The memory of a guest given to `rte_free` stays
mapped: its cell is kept as it was and its address is recorded in `rte_freed`. -/

/-- The address of a `tqh_first` or of a `tqe_next`: what `tqh_last` and
`tqe_prev` point to. Heads are numbered (by core, for the queues of
`lcore_info`), elements are named by their address. -/
inductive tailq_slot where
  | tqh_first (head : Nat) : tailq_slot
  | tqe_next (elm : Nat) : tailq_slot
deriving DecidableEq

/-- The struct that `TAILQ_HEAD` declares; `none` is `NULL`. -/
structure tailq_head where
  tqh_first : Option Nat
  tqh_last : Option tailq_slot
deriving DecidableEq

/-- The struct that `TAILQ_ENTRY` declares; `none` is `NULL`. -/
structure tailq_entry where
  tqe_next : Option Nat
  tqe_prev : Option tailq_slot
deriving DecidableEq

/-- The memory of the tail queues of one field (`global_vdev_entry`,
`tx_lcore_vdev_entry` or `rx_lcore_vdev_entry`): the heads, and the entry of
every guest for that field, by address. -/
structure tailq where
  heads : List tailq_head
  entries : List tailq_entry
deriving DecidableEq

/-- The store `*slot = v`. -/
def tailq_store (q : tailq) (slot : tailq_slot) (v : Option Nat) : Option tailq :=
  match slot with
  | tailq_slot.tqh_first h =>
    match q.heads[h]? with
    | none => none
    | some hd => some { q with heads := q.heads.set h { hd with tqh_first := v } }
  | tailq_slot.tqe_next e =>
    match q.entries[e]? with
    | none => none
    | some en => some { q with entries := q.entries.set e { en with tqe_next := v } }

/-- `TAILQ_INIT` on each of `n` heads, no element allocated yet. -/
def TAILQ_INIT (n : Nat) : tailq :=
  { heads := (List.range n).map (fun h => ⟨none, some (tailq_slot.tqh_first h)⟩)
    entries := [] }

/-- `TAILQ_INSERT_TAIL(head, elm, field)`: `elm->tqe_next = NULL`,
`elm->tqe_prev = head->tqh_last`, `*head->tqh_last = elm`,
`head->tqh_last = &elm->tqe_next`. -/
def TAILQ_INSERT_TAIL (q : tailq) (head elm : Nat) : Option tailq :=
  match q.heads[head]?, q.entries[elm]? with
  | some hd, some _ =>
    let q1 := { q with entries := q.entries.set elm ⟨none, hd.tqh_last⟩ }
    match hd.tqh_last with
    | none => none
    | some last =>
      match tailq_store q1 last (some elm) with
      | none => none
      | some q2 =>
        match q2.heads[head]? with
        | none => none
        | some hd2 =>
          some { q2 with
            heads := q2.heads.set head { hd2 with tqh_last := some (tailq_slot.tqe_next elm) } }
  | _, _ => none

/-- `TAILQ_REMOVE(head, elm, field)`: if `elm->tqe_next != NULL` then
`elm->tqe_next->tqe_prev = elm->tqe_prev` else `head->tqh_last = elm->tqe_prev`;
then `*elm->tqe_prev = elm->tqe_next`. Nothing here looks whether `elm` is in
the list of `head`. -/
def TAILQ_REMOVE (q : tailq) (head elm : Nat) : Option tailq :=
  match q.entries[elm]? with
  | none => none
  | some e =>
    let q1 :=
      match e.tqe_next with
      | some n =>
        match q.entries[n]? with
        | none => none
        | some en => some { q with entries := q.entries.set n { en with tqe_prev := e.tqe_prev } }
      | none =>
        match q.heads[head]? with
        | none => none
        | some hd => some { q with heads := q.heads.set head { hd with tqh_last := e.tqe_prev } }
    match q1 with
    | none => none
    | some q2 =>
      match q2.entries[elm]? with
      | none => none
      | some e2 =>
        match e2.tqe_prev with
        | none => none
        | some p => tailq_store q2 p e2.tqe_next

/-- The elements that a `TAILQ_FOREACH` visits from `var` on, with `fuel`
steps left; `none` if the walk does not end within them. -/
def tailq_walk (q : tailq) : Nat → Option Nat → Option (List Nat)
  | _, none => some []
  | 0, some _ => none
  | fuel + 1, some a =>
    match q.entries[a]? with
    | none => none
    | some e => (tailq_walk q fuel e.tqe_next).map (fun l => a :: l)

/-- The elements that `TAILQ_FOREACH(var, head, field)` visits. A walk that
takes more steps than there are elements never ends. -/
def TAILQ_FOREACH (q : tailq) (head : Nat) : Option (List Nat) :=
  match q.heads[head]? with
  | none => none
  | some hd => tailq_walk q q.entries.length hd.tqh_first

/-! ## The switch in memory -/

/-- The process-wide state with the tail queues as the links in memory. The
guests are the cells `rte_zmalloc` returned, by address; the fields of
`lcore_info` are kept per core in `device_num`, `dev_removal_flag` and the
heads of `tx_vdev_list` and `rx_vdev_list`; `lcore_tx_queue` is the batch of
each core. `freed`, `offered` and `flushes` record what the workers hand to the
buffer pool and the NIC. -/
structure switch_mem where
  vdev : List vhost_dev
  rte_freed : List Nat
  vhost_dev_list : tailq
  tx_vdev_list : tailq
  rx_vdev_list : tailq
  device_num : List Nat
  dev_removal_flag : List Nat
  pools_used : List Bool
  pool_allocation_failure : Nat
  matching_table : List tagging_entry
  lcore_tx_queue : List mbuf_table
  freed : List rte_mbuf
  offered : List rte_mbuf
  flushes : Nat
deriving DecidableEq

/-- The state at start-up, with `n` entries in `lcore_info`. -/
def switch_mem_init (n : Nat) : switch_mem :=
  { vdev := []
    rte_freed := []
    vhost_dev_list := TAILQ_INIT 1
    tx_vdev_list := TAILQ_INIT n
    rx_vdev_list := TAILQ_INIT n
    device_num := List.replicate n 0
    dev_removal_flag := List.replicate n 0
    pools_used := pools_used_init
    pool_allocation_failure := 0
    matching_table := matching_table_init
    lcore_tx_queue := List.replicate n ⟨0, []⟩
    freed := []
    offered := []
    flushes := 0 }

/-- What the environment answers to a worker in one iteration of its loop:
the burst each guest hands over and what the NIC and the guest take, by the
address of the guest. -/
structure worker_env where
  tx : tx_env
  burst : Nat → List rte_mbuf
  rx_count : Nat → Nat
  enqueue_count : Nat → Nat

namespace Mem

/-- A new device is added to a data core, with the three `TAILQ_INSERT_TAIL`
on the links. `workers` are the worker cores in the order
`RTE_LCORE_FOREACH_SLAVE` visits them, `alloc_ok` says whether the allocation
succeeded. -/
def new_device (conf : switch_conf) (workers : List Nat) (alloc_ok : Bool) (vid : Int)
    (st : switch_mem) : Option (Int × switch_mem) :=
  if alloc_ok = false then some (-1, st)
  else
    let a := st.vdev.length
    let vdev := { zeroed_vhost_dev vid with ready := DEVICE_MAC_LEARNING, remove := 0 }
    let gl := { st.vhost_dev_list with entries := st.vhost_dev_list.entries ++ [⟨none, none⟩] }
    let tx := { st.tx_vdev_list with entries := st.tx_vdev_list.entries ++ [⟨none, none⟩] }
    let rx := { st.rx_vdev_list with entries := st.rx_vdev_list.entries ++ [⟨none, none⟩] }
    match TAILQ_INSERT_TAIL gl 0 a with
    | none => none
    | some gl1 =>
      let core_add := workers.headD 0
      let vdev1 := { vdev with tx_coreid := core_add % 2 ^ 16 }
      match st.device_num[vdev1.tx_coreid]?, TAILQ_INSERT_TAIL tx vdev1.tx_coreid a with
      | some n_tx, some tx1 =>
        let device_num1 := st.device_num.set vdev1.tx_coreid (u32_add n_tx 1)
        match rx_core_loop (device_num1.map (fun n => ⟨n, 0, [], []⟩)) vdev1.tx_coreid workers
            conf.num_virtio_devices core_add with
        | none => none
        | some (_, core_add1) =>
          let vdev2 := { vdev1 with rx_coreid := core_add1 % 2 ^ 16 }
          match device_num1[vdev2.rx_coreid]?, TAILQ_INSERT_TAIL rx vdev2.rx_coreid a with
          | some n_rx, some rx1 =>
            some (0, { st with
              vdev := st.vdev ++ [vdev2]
              vhost_dev_list := gl1
              tx_vdev_list := tx1
              rx_vdev_list := rx1
              device_num := device_num1.set vdev2.rx_coreid (u32_add n_rx 1) })
          | _, _ => none
      | _, _ => none

/-- This function learns the MAC address of the device at address `a` and
registers this along with a vlan tag to a VMDq; for the control guest it gives
up the RX core, with `TAILQ_REMOVE` on the links. -/
def link_vmdq (conf : switch_conf) (mac_addr_add_ret : Int) (stray : Bool) (a : Nat)
    (m : rte_mbuf) (st : switch_mem) : Option (Int × switch_mem) :=
  match st.vdev[a]? with
  | none => none
  | some vdev =>
    if m.data.length < 2 * RTE_ETHER_ADDR_LEN then none
    else
      let vdev1 := { vdev with
        mac_address := bytes_at m.data RTE_ETHER_ADDR_LEN RTE_ETHER_ADDR_LEN }
      let pool_id := GET_POOL_ID vdev1.mac_address conf.num_virtio_devices
      match pools_used_at st.pools_used stray pool_id with
      | none => none
      | some true =>
        some (-1, { st with
          vdev := st.vdev.set a vdev1
          pool_allocation_failure :=
            if st.pool_allocation_failure = 0 then 1 else st.pool_allocation_failure })
      | some false =>
        if pool_id ≠ -1 then
          match vlan_tags[pool_id.toNat]? with
          | none => none
          | some tag =>
            let vdev2 := { vdev1 with
              vlan_tag := tag
              pool_id := pool_id.toNat % 2 ^ 16
              vmdq_rx_q :=
                (pool_id.toNat * conf.queues_per_pool + conf.vmdq_queue_base) % 2 ^ 16 }
            if mac_addr_add_ret ≠ 0 then some (-1, { st with vdev := st.vdev.set a vdev2 })
            else
              some (0, { st with
                vdev := st.vdev.set a { vdev2 with ready := DEVICE_DATA_RX }
                pools_used := st.pools_used.set pool_id.toNat true })
        else
          match st.device_num[vdev1.rx_coreid]?,
              TAILQ_REMOVE st.rx_vdev_list vdev1.rx_coreid a with
          | some n, some rx =>
            some (0, { st with
              vdev := st.vdev.set a { vdev1 with rx_coreid := 0, ready := DEVICE_CONTROL }
              device_num := st.device_num.set vdev1.rx_coreid (u32_sub n 1)
              rx_vdev_list := rx })
          | _, _ => none

/-- The MAC learning step of `drain_virtio_tx` for the guest at address `a`. -/
def learn_mac (conf : switch_conf) (env : tx_env) (a : Nat) (pkts : List rte_mbuf)
    (st : switch_mem) : Option switch_mem :=
  match st.vdev[a]?, pkts with
  | none, _ => none
  | some _, [] => some st
  | some vdev, m :: _ =>
    if vdev.ready = DEVICE_MAC_LEARNING then
      if vdev.remove ≠ 0 then some { st with freed := st.freed ++ pkts.reverse }
      else
        match link_vmdq conf env.mac_addr_add_ret env.stray a m st with
        | none => none
        | some (ret, st1) =>
          if ret = -1 then some { st1 with freed := st1.freed ++ pkts.reverse }
          else some st1
    else some st

/-- Drains the TX queue of the guest at address `a` on core `lcore_id`: the
MAC learning step on the links, then the control or data processing of the
burst, which touches the guest, the table and the batch of the core only. -/
def drain_virtio_tx (conf : switch_conf) (env : tx_env) (lcore_id a : Nat)
    (pkts : List rte_mbuf) (st : switch_mem) : Option switch_mem :=
  match learn_mac conf env a pkts st with
  | none => none
  | some st1 =>
    match st1.vdev[a]?, st1.lcore_tx_queue[lcore_id]? with
    | some vdev, some tx_q =>
      let s : tx_state :=
        ⟨vdev, st1.matching_table, tx_q, st1.pools_used, [], st1.pool_allocation_failure,
          st1.freed, st1.offered, st1.flushes⟩
      let r :=
        if vdev.ready = DEVICE_CONTROL then control_loop conf env pkts 0 s
        else if vdev.ready = DEVICE_DATA_RX then
          match data_loop conf env pkts 0 s with
          | none => none
          | some s2 => if s2.tx_q.m_table.length > 0 then some (flush_tx_q env s2) else some s2
        else some s
      match r with
      | none => none
      | some s3 =>
        some { st1 with
          vdev := st1.vdev.set a s3.vdev
          matching_table := s3.matching_table
          lcore_tx_queue := st1.lcore_tx_queue.set lcore_id s3.tx_q
          freed := s3.freed
          offered := s3.offered
          flushes := s3.flushes }
    | _, _ => none

/-- The loop "Process each RX vhost device" of `switch_worker`, from `var` on,
with `fuel` steps left. -/
def switch_worker_rx_loop (conf : switch_conf) (env : worker_env) :
    Nat → Option Nat → switch_mem → Option switch_mem
  | _, none, st => some st
  | 0, some _, _ => none
  | fuel + 1, some a, st =>
    match st.vdev[a]?, st.rx_vdev_list.entries[a]? with
    | some vdev, some e =>
      match switch_worker_rx_body conf (env.rx_count a) (env.enqueue_count a) st.pools_used
          vdev with
      | none => none
      | some (vdev1, pools_used1) =>
        switch_worker_rx_loop conf env fuel e.tqe_next
          { st with vdev := st.vdev.set a vdev1, pools_used := pools_used1 }
    | _, _ => none

/-- The loop "Process each TX vhost device" of `switch_worker` on core
`lcore_id`, from `var` on, with `fuel` steps left. -/
def switch_worker_tx_loop (conf : switch_conf) (env : worker_env) (lcore_id : Nat) :
    Nat → Option Nat → switch_mem → Option switch_mem
  | _, none, st => some st
  | 0, some _, _ => none
  | fuel + 1, some a, st =>
    match drain_virtio_tx conf env.tx lcore_id a (env.burst a) st with
    | none => none
    | some st1 =>
      match st1.vdev[a]?, st1.tx_vdev_list.entries[a]? with
      | some vdev, some e =>
        switch_worker_tx_loop conf env lcore_id fuel e.tqe_next
          (if vdev.remove ≠ 0 then
            { st1 with vdev := st1.vdev.set a { vdev with ready := DEVICE_SAFE_REMOVE } }
          else st1)
      | _, _ => none

/-- One iteration of the loop of `switch_worker` on core `lcore_id`: the
acknowledgement of a removal request, the RX guests, the TX guests. A walk
that takes more steps than there are guests never ends. -/
def switch_worker (conf : switch_conf) (env : worker_env) (lcore_id : Nat) (st : switch_mem) :
    Option switch_mem :=
  match st.dev_removal_flag[lcore_id]?, st.rx_vdev_list.heads[lcore_id]? with
  | some flag, some rx_head =>
    let st1 :=
      if flag = REQUEST_DEV_REMOVAL then
        { st with dev_removal_flag := st.dev_removal_flag.set lcore_id ACK_DEV_REMOVAL }
      else st
    match switch_worker_rx_loop conf env st1.vdev.length rx_head.tqh_first st1 with
    | none => none
    | some st2 =>
      match st2.tx_vdev_list.heads[lcore_id]? with
      | none => none
      | some tx_head => switch_worker_tx_loop conf env lcore_id st2.vdev.length tx_head.tqh_first st2
  | _, _ => none

/-- Remove a device from the specific data core linked list and from the main
linked list. `while_waiting_ready` is what the workers do while the function
waits for `ready == DEVICE_SAFE_REMOVE`, `while_waiting_ack` what they do while
it waits for `ACK_DEV_REMOVAL` from each of them; `none` also stands for a wait
that these do not end. -/
def destroy_device (workers : List Nat) (vid : Int)
    (while_waiting_ready while_waiting_ack : switch_mem → Option switch_mem)
    (st : switch_mem) : Option switch_mem :=
  match TAILQ_FOREACH st.vhost_dev_list 0 with
  | none => none
  | some guests =>
    match guests.find? (fun a => (st.vdev[a]?).map (fun v => v.vid) = some vid) with
    | none => some st
    | some a =>
      match st.vdev[a]? with
      | none => none
      | some vdev =>
        match while_waiting_ready { st with vdev := st.vdev.set a { vdev with remove := 1 } } with
        | none => none
        | some st1 =>
          match st1.vdev[a]? with
          | none => none
          | some vdev1 =>
            if vdev1.ready ≠ DEVICE_SAFE_REMOVE then none
            else
              match TAILQ_REMOVE st1.tx_vdev_list vdev1.tx_coreid a,
                  TAILQ_REMOVE st1.rx_vdev_list vdev1.rx_coreid a,
                  TAILQ_REMOVE st1.vhost_dev_list 0 a with
              | some tx, some rx, some gl =>
                match while_waiting_ack { st1 with
                    tx_vdev_list := tx
                    rx_vdev_list := rx
                    vhost_dev_list := gl
                    dev_removal_flag := workers.foldl
                      (fun flags lcore => flags.set lcore REQUEST_DEV_REMOVAL)
                      st1.dev_removal_flag } with
                | none => none
                | some st2 =>
                  if workers.any (fun lcore => st2.dev_removal_flag[lcore]? ≠ some ACK_DEV_REMOVAL)
                  then none
                  else
                    match st2.vdev[a]? with
                    | none => none
                    | some vdev2 =>
                      match st2.device_num[vdev2.tx_coreid]? with
                      | none => none
                      | some n_tx =>
                        let device_num1 := st2.device_num.set vdev2.tx_coreid (u32_sub n_tx 1)
                        match device_num1[vdev2.rx_coreid]? with
                        | none => none
                        | some n_rx =>
                          some { st2 with
                            device_num := device_num1.set vdev2.rx_coreid (u32_sub n_rx 1)
                            rte_freed := st2.rte_freed ++ [a] }
              | _, _, _ => none

end Mem

/-! ## Inputs for the removal of guests -/

/-- An iteration in which every guest is idle: no burst from a guest, nothing
from the NIC. -/
def idle_env : worker_env :=
  { tx := example_env false, burst := fun _ => [], rx_count := fun _ => 0,
    enqueue_count := fun _ => 0 }

/-- An iteration in which the guest at address 0 hands over one frame from a
MAC address ending in `00`, the mark of the control guest. -/
def control_burst_env : worker_env :=
  { tx := example_env false, burst := fun a => if a = 0 then [frame_from 0] else [],
    rx_count := fun _ => 0, enqueue_count := fun _ => 0 }

/-- The workers of the examples, cores 2 and 1, run one iteration of their
loop each. -/
def workers_run (env : worker_env) (st : switch_mem) : Option switch_mem :=
  (Mem.switch_worker example_conf env 2 st).bind (Mem.switch_worker example_conf env 1)

/-- Start-up with four cores, then `new_device` for vid 0 with the worker
cores 1 and 2. -/
def one_guest_mem : Option switch_mem :=
  (Mem.new_device example_conf [1, 2] true 0 (switch_mem_init 4)).map (fun r => r.2)

/-- The guest sends its first frame and becomes the control guest. -/
def control_guest_mem : Option switch_mem :=
  one_guest_mem.bind (workers_run control_burst_env)

/-- The control guest is destroyed, the workers running one iteration each
during each of the two waits. -/
def control_guest_destroyed_mem : Option switch_mem :=
  control_guest_mem.bind
    (Mem.destroy_device [1, 2] 0 (workers_run idle_env) (workers_run idle_env))

/-- Start-up with four cores, `new_device` for vid 0 and for vid 1 (the
guests at addresses 0 and 1), then the first frame of guest 0, which makes it
the control guest. -/
def two_guests_mem : Option switch_mem :=
  (one_guest_mem.bind (fun st =>
    (Mem.new_device example_conf [1, 2] true 1 st).map (fun r => r.2))).bind
    (workers_run control_burst_env)

/-- Guest 1 is destroyed. -/
def second_guest_destroyed_mem : Option switch_mem :=
  two_guests_mem.bind
    (Mem.destroy_device [1, 2] 1 (workers_run idle_env) (workers_run idle_env))

/-- Then the control guest is destroyed. -/
def both_guests_destroyed_mem : Option switch_mem :=
  second_guest_destroyed_mem.bind
    (Mem.destroy_device [1, 2] 0 (workers_run idle_env) (workers_run idle_env))

/-- An iteration in which the guest at address 0 hands over one frame from a
MAC address ending in `05`, which binds it to pool 4. -/
def data_burst_env : worker_env :=
  { tx := example_env false, burst := fun a => if a = 0 then [frame_from 5] else [],
    rx_count := fun _ => 0, enqueue_count := fun _ => 0 }

/-- The guest of `one_guest_mem` sends its first frame, becomes a data guest,
and is destroyed. -/
def data_guest_destroyed_mem : Option switch_mem :=
  (one_guest_mem.bind (workers_run data_burst_env)).bind
    (Mem.destroy_device [1, 2] 0 (workers_run idle_env) (workers_run idle_env))

/-- A queue of three elements on head 0, made by `TAILQ_INSERT_TAIL`. -/
def three_elements_tailq : Option tailq :=
  ((TAILQ_INSERT_TAIL { TAILQ_INIT 1 with entries := List.replicate 3 ⟨none, none⟩ } 0 0).bind
    (fun q => TAILQ_INSERT_TAIL q 0 1)).bind (fun q => TAILQ_INSERT_TAIL q 0 2)

/-! ## Theorems -/

/-! ### Machine arithmetic and the token bucket -/

theorem u64_mul_lt (a b : Nat) : u64_mul a b < 2 ^ 64 := by
  unfold u64_mul; exact Nat.mod_lt _ (by norm_num)

theorem u64_add_lt (a b : Nat) : u64_add a b < 2 ^ 64 := by
  unfold u64_add; exact Nat.mod_lt _ (by norm_num)

theorem u64_mul_le (a b : Nat) : u64_mul a b ≤ a * b := by
  unfold u64_mul; exact Nat.mod_le _ _

theorem u64_sub_of_le (a b : Nat) (ha : a < 2 ^ 64) (hb : b ≤ a) : u64_sub a b = a - b := by
  unfold u64_sub
  have hb2 : b % 2 ^ 64 = b := Nat.mod_eq_of_lt (by omega)
  rw [hb2]
  have h : a + (2 ^ 64 - b) = (a - b) + 2 ^ 64 := by omega
  rw [h, Nat.add_mod_right]
  exact Nat.mod_eq_of_lt (by omega)

theorem refill_burst_bits (cpu_freq current_tsc : Nat) (e : tagging_entry) :
    (refill cpu_freq current_tsc e).burst_bits = e.burst_bits := by
  unfold refill; simp only []; split <;> rfl

theorem refill_n_tokens_le (cpu_freq current_tsc : Nat) (e : tagging_entry) :
    (refill cpu_freq current_tsc e).n_tokens ≤ u64_mul cpu_freq e.burst_bits := by
  unfold refill; simp only []; split
  · exact Nat.le_refl _
  · rename_i h; exact Nat.le_of_not_lt h

theorem debit_burst_bits (cpu_freq ps : Nat) (e : tagging_entry) :
    (debit cpu_freq ps e).1.burst_bits = e.burst_bits := by
  unfold debit; split <;> rfl

theorem debit_n_tokens_le (cpu_freq ps : Nat) (e : tagging_entry) (h : e.n_tokens < 2 ^ 64) :
    (debit cpu_freq ps e).1.n_tokens ≤ e.n_tokens := by
  unfold debit; split
  · rename_i hc
    simp only []
    rw [u64_sub_of_le _ _ h (Nat.le_of_lt hc)]
    exact Nat.sub_le _ _
  · exact Nat.le_refl _

theorem shaper_burst_bits (cpu_freq current_tsc total_length : Nat) (e : tagging_entry) :
    (shaper cpu_freq current_tsc total_length e).1.burst_bits = e.burst_bits := by
  unfold shaper; rw [debit_burst_bits, refill_burst_bits]

theorem shaper_n_tokens_le (cpu_freq current_tsc total_length : Nat) (e : tagging_entry) :
    (shaper cpu_freq current_tsc total_length e).1.n_tokens ≤ u64_mul cpu_freq e.burst_bits := by
  unfold shaper
  have h1 := refill_n_tokens_le cpu_freq current_tsc e
  have h2 := u64_mul_lt cpu_freq e.burst_bits
  exact Nat.le_trans (debit_n_tokens_le _ _ _ (by omega)) h1

theorem run_shaper_burst_bits (cpu_freq : Nat) (steps : List (Nat × Nat)) :
    ∀ e : tagging_entry, (run_shaper cpu_freq e steps).burst_bits = e.burst_bits := by
  induction steps with
  | nil => intro e; rfl
  | cons s rest ih => intro e; simp only [run_shaper]; rw [ih, shaper_burst_bits]

theorem run_shaper_append (cpu_freq : Nat) (steps more : List (Nat × Nat)) :
    ∀ e : tagging_entry, run_shaper cpu_freq e (steps ++ more)
      = run_shaper cpu_freq (run_shaper cpu_freq e steps) more := by
  induction steps with
  | nil => intro e; rfl
  | cons s rest ih => intro e; exact ih _

/-- C1: after each step of any sequence of shaper steps, started from any
entry and taken at any TSC readings, the tokens of the entry are at most
`cpu_freq * burst_bits`, both as the 64-bit product the code computes and as
the exact product. -/
theorem shaper_tokens_at_most_bucket (cpu_freq : Nat) (e : tagging_entry)
    (steps : List (Nat × Nat)) (s : Nat × Nat) :
    (run_shaper cpu_freq e (steps ++ [s])).n_tokens ≤ u64_mul cpu_freq e.burst_bits
    ∧ (run_shaper cpu_freq e (steps ++ [s])).n_tokens ≤ cpu_freq * e.burst_bits := by
  have h : (run_shaper cpu_freq e (steps ++ [s])).n_tokens ≤ u64_mul cpu_freq e.burst_bits := by
    rw [run_shaper_append]
    simp only [run_shaper]
    have := shaper_n_tokens_le cpu_freq s.1 s.2 (run_shaper cpu_freq e steps)
    rw [run_shaper_burst_bits] at this
    exact this
  exact ⟨h, Nat.le_trans h (u64_mul_le _ _)⟩

theorem generate_tokens_of_overflow (cpu_freq current_tsc : Nat) (e : tagging_entry)
    (h : 2 ^ 64 ≤ u64_sub current_tsc e.last_tsc * e.rate_bps) :
    generate_tokens cpu_freq current_tsc e = u64_mul cpu_freq e.burst_bits := by
  unfold generate_tokens
  simp only []
  have hd : u64_sub current_tsc e.last_tsc ≠ 0 := by
    intro h0; rw [h0] at h; simp at h
  have hlt : u64_mul (u64_sub current_tsc e.last_tsc) e.rate_bps
      / u64_sub current_tsc e.last_tsc < e.rate_bps := by
    rw [Nat.div_lt_iff_lt_mul (Nat.pos_of_ne_zero hd)]
    have := u64_mul_lt (u64_sub current_tsc e.last_tsc) e.rate_bps
    rw [Nat.mul_comm] at h
    omega
  rw [if_pos ⟨hd, Nat.ne_of_lt hlt⟩]

theorem generate_tokens_of_fit (cpu_freq current_tsc : Nat) (e : tagging_entry)
    (h : u64_sub current_tsc e.last_tsc * e.rate_bps < 2 ^ 64) :
    generate_tokens cpu_freq current_tsc e = u64_sub current_tsc e.last_tsc * e.rate_bps := by
  unfold generate_tokens
  simp only []
  have hm : u64_mul (u64_sub current_tsc e.last_tsc) e.rate_bps
      = u64_sub current_tsc e.last_tsc * e.rate_bps := by
    unfold u64_mul; exact Nat.mod_eq_of_lt h
  rw [hm]
  by_cases hd : u64_sub current_tsc e.last_tsc = 0
  · rw [if_neg (by intro hc; exact hc.1 hd)]
  · have hq : u64_sub current_tsc e.last_tsc * e.rate_bps / u64_sub current_tsc e.last_tsc
        = e.rate_bps := Nat.mul_div_cancel_left _ (Nat.pos_of_ne_zero hd)
    rw [if_neg (by intro hc; exact hc.2 hq)]

/-- C7: the overflow test of the shaper is exact. With `delta` the 64-bit
difference `current_tsc - last_tsc`, the refill is the bucket size
`cpu_freq * burst_bits` (the 64-bit product the code computes) whenever the
exact product `delta * rate_bps` does not fit in 64 bits, and is `delta * rate_bps`
whenever it fits; with `rate_bps = 2^63` and `delta = 2` the overflow branch
is taken and, from `n_tokens = 0`, the refill step leaves the bucket at
`cpu_freq * burst_bits`. -/
theorem overflow_test_exact (cpu_freq current_tsc : Nat) (e : tagging_entry) :
    (2 ^ 64 ≤ u64_sub current_tsc e.last_tsc * e.rate_bps →
      generate_tokens cpu_freq current_tsc e = u64_mul cpu_freq e.burst_bits)
    ∧ (u64_sub current_tsc e.last_tsc * e.rate_bps < 2 ^ 64 →
      generate_tokens cpu_freq current_tsc e = u64_sub current_tsc e.last_tsc * e.rate_bps)
    ∧ (e.rate_bps = 2 ^ 63 → u64_sub current_tsc e.last_tsc = 2 → e.n_tokens = 0 →
      generate_tokens cpu_freq current_tsc e = u64_mul cpu_freq e.burst_bits
      ∧ (refill cpu_freq current_tsc e).n_tokens = u64_mul cpu_freq e.burst_bits) := by
  refine ⟨generate_tokens_of_overflow cpu_freq current_tsc e,
    generate_tokens_of_fit cpu_freq current_tsc e, ?_⟩
  intro hr hd hn
  have hg : generate_tokens cpu_freq current_tsc e = u64_mul cpu_freq e.burst_bits := by
    apply generate_tokens_of_overflow
    rw [hr, hd]; norm_num
  refine ⟨hg, ?_⟩
  unfold refill
  simp only []
  rw [hg, hn]
  have hlt := u64_mul_lt cpu_freq e.burst_bits
  have ha : u64_add 0 (u64_mul cpu_freq e.burst_bits) = u64_mul cpu_freq e.burst_bits := by
    unfold u64_add; rw [Nat.zero_add]; exact Nat.mod_eq_of_lt hlt
  rw [ha, if_neg (Nat.lt_irrefl _)]

/-- Witness of C7 at `cpu_freq = 10^9`, `delta = 7 - 5 = 2`, `rate_bps = 2^63`. -/
theorem overflow_test_exact_witness :
    b3_entry.rate_bps = 2 ^ 63 ∧ u64_sub 7 b3_entry.last_tsc = 2 ∧ b3_entry.n_tokens = 0
    ∧ generate_tokens 1000000000 7 b3_entry = u64_mul 1000000000 b3_entry.burst_bits
    ∧ (refill 1000000000 7 b3_entry).n_tokens = 1000000000000000 :=
  ⟨rfl, by decide, rfl,
    ((overflow_test_exact 1000000000 7 b3_entry).2.2 rfl (by decide) rfl).1,
    ((overflow_test_exact 1000000000 7 b3_entry).2.2 rfl (by decide) rfl).2.trans (by decide)⟩

/-! ### The matching loop -/

theorem byte_at_lt (l : List Nat) (i : Nat) : byte_at l i < 256 := by
  unfold byte_at; exact Nat.mod_lt _ (by norm_num)

theorem load_le_two (l : List Nat) (off : Nat) :
    load_le l off 2 = byte_at l off + 256 * byte_at l (off + 1) := by
  simp [load_le]

theorem ether_type_ipv4_iff (data : List Nat) :
    load_le data 12 2 = BE_RTE_ETHER_TYPE_IPV4 ↔ (byte_at data 12 = 8 ∧ byte_at data 13 = 0) := by
  rw [load_le_two]
  have h1 := byte_at_lt data 12
  have h2 := byte_at_lt data 13
  unfold BE_RTE_ETHER_TYPE_IPV4
  norm_num
  constructor
  · intro h; omega
  · intro h; omega

theorem entry_matches_true_iff (e : tagging_entry) (data : List Nat) :
    entry_matches e data = some true ↔ (38 ≤ data.length ∧ compared_fields_equal e data) := by
  unfold entry_matches compared_fields_equal
  simp only [SIZEOF_ETHER_HDR, SIZEOF_IPV4_HDR, bytes_at, store_le, List.range_succ, List.range_zero,
    List.map_append, List.map_cons, List.map_nil, List.nil_append, List.cons_append,
    List.cons.injEq, and_true]
  split_ifs with h1 h2 h3 h4 h5
  · simp; omega
  · refine ⟨fun h => by simp at h, fun h => ?_⟩
    exfalso; apply h2; simp_all
  · simp; omega
  · refine ⟨fun h => by simp at h, fun h => ?_⟩
    exfalso; apply h4; simp_all
  · refine ⟨fun h => by simp at h, fun h => ?_⟩
    exact absurd h.2.1 h5
  · simp only [true_iff]
    simp only [ne_eq, not_not, not_lt] at h1 h2 h3 h4 h5
    refine ⟨by omega, h5, ?_, ?_, ?_, ?_⟩ <;> simp_all

theorem entry_matches_defined (e : tagging_entry) (data : List Nat) (h : 38 ≤ data.length) :
    entry_matches e data = some true ∨ entry_matches e data = some false := by
  unfold entry_matches
  simp only [SIZEOF_ETHER_HDR, SIZEOF_IPV4_HDR]
  split_ifs <;> first | omega | simp

theorem entry_matches_false_of_not_rule (e : tagging_entry) (data : List Nat)
    (h : 38 ≤ data.length) (hr : ¬ compared_fields_equal e data) :
    entry_matches e data = some false := by
  rcases entry_matches_defined e data h with ht | hf
  · exact absurd ((entry_matches_true_iff e data).1 ht).2 hr
  · exact hf

/-- The table after the loop body ran on slot `i` with outcome `r`. -/
theorem tag_packet_loop_first (cpu_freq do_shape current_tsc : Nat) (table : List tagging_entry)
    (packet : rte_mbuf) (vdev : vhost_dev) (e : tagging_entry) :
    ∀ n start i, start ≤ i → i < start + n →
      table[table_index vdev.vlan_tag i]? = some e →
      entry_matches e packet.data = some true →
      (∀ j, start ≤ j → j < i → ∃ ej, table[table_index vdev.vlan_tag j]? = some ej
        ∧ entry_matches ej packet.data = some false) →
      tag_packet_loop cpu_freq do_shape current_tsc table packet vdev n start
        = (tag_matched cpu_freq do_shape current_tsc e packet vdev).map
            (fun r => ⟨r.ret, r.packet, table.set (table_index vdev.vlan_tag i) r.entry, r.vdev⟩) := by
  intro n
  induction n with
  | zero => intro start i h1 h2; omega
  | succ n ih =>
    intro start i h1 h2 he hm hprev
    by_cases hs : start = i
    · subst hs
      simp only [tag_packet_loop, he, hm]
      cases tag_matched cpu_freq do_shape current_tsc e packet vdev <;> rfl
    · obtain ⟨ej, hej, hmj⟩ := hprev start (Nat.le_refl _) (by omega)
      simp only [tag_packet_loop, hej, hmj]
      exact ih (start + 1) i (by omega) (by omega) he hm
        (fun j hj1 hj2 => hprev j (by omega) hj2)

theorem tag_packet_loop_no_match (cpu_freq do_shape current_tsc : Nat) (table : List tagging_entry)
    (packet : rte_mbuf) (vdev : vhost_dev) :
    ∀ n start,
      (∀ j, start ≤ j → j < start + n → ∃ ej, table[table_index vdev.vlan_tag j]? = some ej
        ∧ entry_matches ej packet.data = some false) →
      tag_packet_loop cpu_freq do_shape current_tsc table packet vdev n start
        = some ⟨0, packet, table, vdev⟩ := by
  intro n
  induction n with
  | zero => intro start _; rfl
  | succ n ih =>
    intro start hall
    obtain ⟨ej, hej, hmj⟩ := hall start (Nat.le_refl _) (by omega)
    simp only [tag_packet_loop, hej, hmj]
    exact ih (start + 1) (fun j hj1 hj2 => hall j (by omega) (by omega))

theorem tag_packet_loop_some (cpu_freq do_shape current_tsc : Nat) (table : List tagging_entry)
    (packet : rte_mbuf) (vdev : vhost_dev) :
    ∀ n start r, tag_packet_loop cpu_freq do_shape current_tsc table packet vdev n start = some r →
      (r = ⟨0, packet, table, vdev⟩ ∧
        ∀ j, start ≤ j → j < start + n → ∃ ej, table[table_index vdev.vlan_tag j]? = some ej
          ∧ entry_matches ej packet.data = some false)
      ∨ ∃ i e mr, start ≤ i ∧ i < start + n ∧
          table[table_index vdev.vlan_tag i]? = some e ∧
          entry_matches e packet.data = some true ∧
          (∀ j, start ≤ j → j < i → ∃ ej, table[table_index vdev.vlan_tag j]? = some ej
            ∧ entry_matches ej packet.data = some false) ∧
          tag_matched cpu_freq do_shape current_tsc e packet vdev = some mr ∧
          r = ⟨mr.ret, mr.packet, table.set (table_index vdev.vlan_tag i) mr.entry, mr.vdev⟩ := by
  intro n
  induction n with
  | zero =>
    intro start r h
    simp only [tag_packet_loop, Option.some.injEq] at h
    exact Or.inl ⟨h.symm, fun j h1 h2 => by omega⟩
  | succ n ih =>
    intro start r h
    simp only [tag_packet_loop] at h
    cases he : table[table_index vdev.vlan_tag start]? with
    | none => rw [he] at h; simp at h
    | some e =>
      rw [he] at h
      simp only [] at h
      cases hm : entry_matches e packet.data with
      | none => rw [hm] at h; simp at h
      | some b =>
        rw [hm] at h
        cases b with
        | false =>
          simp only [] at h
          rcases ih (start + 1) r h with ⟨hr, hall⟩ | ⟨i, e1, mr, h1, h2, h3, h4, h5, h6, h7⟩
          · refine Or.inl ⟨hr, fun j hj1 hj2 => ?_⟩
            by_cases hj : j = start
            · subst hj; exact ⟨e, he, hm⟩
            · exact hall j (by omega) (by omega)
          · refine Or.inr ⟨i, e1, mr, by omega, by omega, h3, h4, fun j hj1 hj2 => ?_, h6, h7⟩
            by_cases hj : j = start
            · subst hj; exact ⟨e, he, hm⟩
            · exact h5 j (by omega) hj2
        | true =>
          simp only [] at h
          cases ht : tag_matched cpu_freq do_shape current_tsc e packet vdev with
          | none => rw [ht] at h; simp at h
          | some mr =>
            rw [ht] at h
            simp only [Option.some.injEq] at h
            exact Or.inr ⟨start, e, mr, Nat.le_refl _, by omega, he, hm,
              fun j hj1 hj2 => by omega, ht, h.symm⟩

/-! ### The body of the loop -/

theorem refill_n_tags (cpu_freq current_tsc : Nat) (e : tagging_entry) :
    (refill cpu_freq current_tsc e).n_tags = e.n_tags := by
  unfold refill; simp only []; split <;> rfl

theorem refill_tags (cpu_freq current_tsc : Nat) (e : tagging_entry) :
    (refill cpu_freq current_tsc e).tags = e.tags := by
  unfold refill; simp only []; split <;> rfl

theorem debit_n_tags (cpu_freq ps : Nat) (e : tagging_entry) :
    (debit cpu_freq ps e).1.n_tags = e.n_tags := by
  unfold debit; split <;> rfl

theorem debit_tags (cpu_freq ps : Nat) (e : tagging_entry) :
    (debit cpu_freq ps e).1.tags = e.tags := by
  unfold debit; split <;> rfl

theorem shaper_n_tags (cpu_freq current_tsc total_length : Nat) (e : tagging_entry) :
    (shaper cpu_freq current_tsc total_length e).1.n_tags = e.n_tags := by
  unfold shaper; rw [debit_n_tags, refill_n_tags]

theorem shaper_tags (cpu_freq current_tsc total_length : Nat) (e : tagging_entry) :
    (shaper cpu_freq current_tsc total_length e).1.tags = e.tags := by
  unfold shaper; rw [debit_tags, refill_tags]

theorem store_le_length (n : Nat) : ∀ v, (store_le n v).length = n := by
  induction n with
  | zero => intro v; rfl
  | succ n ih => intro v; simp [store_le, ih]

theorem tags_bytes_length (l : List vlan_hdr) : (tags_bytes l).length = 4 * l.length := by
  induction l with
  | nil => rfl
  | cons t ts ih => simp [tags_bytes, store_le_length, ih]; omega

/-- The two copies of the tagger, `memmove` of the MAC addresses and `rte_memcpy`
of the tags, on a frame that got `k` bytes `hr` of headroom in front. -/
theorem push_tags_bytes (hr data tb : List Nat) (k : Nat) (hhr : hr.length = k)
    (htb : tb.length = k) (hd : 12 ≤ data.length) :
    write_bytes (write_bytes (hr ++ data) 0 (((hr ++ data).drop k).take 12)) 12 tb
      = data.take 12 ++ tb ++ data.drop 12 := by
  subst hhr
  have h1 : (hr ++ data).drop hr.length = data := List.drop_left _ _
  have h2 : (data.take 12).length = 12 := by simp; omega
  rw [h1]
  unfold write_bytes
  simp only [List.take_zero, List.nil_append, Nat.zero_add, h2]
  have h3 : (data.take 12 ++ (hr ++ data).drop 12).take 12 = data.take 12 := by
    rw [List.take_append_of_le_length (by omega)]
    rw [List.take_take]; simp
  have h4 : (data.take 12 ++ (hr ++ data).drop 12).drop (12 + tb.length) = data.drop 12 := by
    rw [List.drop_append_eq_append_drop]
    have h5 : (data.take 12).drop (12 + tb.length) = [] := by
      apply List.drop_eq_nil_of_le; omega
    rw [h5, h2, List.nil_append, List.drop_drop]
    have h6 : 12 + (12 + tb.length - 12) = hr.length + 12 := by omega
    rw [h6, ← List.drop_drop, h1]
  rw [h3, h4]

theorem shaped_n_tags (cpu_freq do_shape current_tsc total_length : Nat) (e : tagging_entry) :
    (if do_shape ≠ 0 then shaper cpu_freq current_tsc total_length e else (e, true)).1.n_tags
      = e.n_tags := by
  split
  · exact shaper_n_tags _ _ _ _
  · rfl

theorem shaped_tags (cpu_freq do_shape current_tsc total_length : Nat) (e : tagging_entry) :
    (if do_shape ≠ 0 then shaper cpu_freq current_tsc total_length e else (e, true)).1.tags
      = e.tags := by
  split
  · exact shaper_tags _ _ _ _
  · rfl

theorem tag_matched_no_tags (cpu_freq do_shape current_tsc : Nat) (e : tagging_entry)
    (packet : rte_mbuf) (vdev : vhost_dev) (h : e.n_tags = 0) :
    tag_matched cpu_freq do_shape current_tsc e packet vdev = some ⟨0, e, packet, vdev⟩ := by
  unfold tag_matched; rw [if_pos h]

theorem tag_matched_cannot_tag (cpu_freq do_shape current_tsc : Nat) (e : tagging_entry)
    (packet : rte_mbuf) (vdev : vhost_dev)
    (h : packet.direct = false ∨ packet.refcnt > 1 ∨ packet.headroom.length < 4 * e.n_tags) :
    ∃ e1 vdev1, tag_matched cpu_freq do_shape current_tsc e packet vdev
      = some ⟨0, e1, packet, vdev1⟩ := by
  unfold tag_matched
  by_cases h0 : e.n_tags = 0
  · rw [if_pos h0]; exact ⟨_, _, rfl⟩
  · rw [if_neg h0]
    simp only []
    have hsn := shaped_n_tags cpu_freq do_shape current_tsc
      (load_le packet.data (SIZEOF_ETHER_HDR + 2) 2) e
    generalize (if do_shape ≠ 0 then
      shaper cpu_freq current_tsc (load_le packet.data (SIZEOF_ETHER_HDR + 2) 2) e
      else (e, true)) = sh at hsn ⊢
    split
    · exact ⟨_, _, rfl⟩
    · split
      · exact ⟨_, _, rfl⟩
      · rename_i h1 h2
        have h3 : packet.headroom.length < 4 * e.n_tags := by
          rcases h with h | h | h
          · exact absurd (Or.inl h) h2
          · exact absurd (Or.inr h) h2
          · exact h
        have h4 : rte_pktmbuf_prepend packet (sh.1.n_tags * SIZEOF_VLAN_HDR) = none := by
          unfold rte_pktmbuf_prepend SIZEOF_VLAN_HDR
          rw [if_pos (by omega)]
        rw [h4]
        exact ⟨_, _, rfl⟩

theorem tag_matched_pushed (cpu_freq do_shape current_tsc : Nat) (e : tagging_entry)
    (packet : rte_mbuf) (vdev : vhost_dev) (mr : match_result)
    (h : tag_matched cpu_freq do_shape current_tsc e packet vdev = some mr)
    (hne : mr.ret ≠ 0) (hd : 12 ≤ packet.data.length) (ht : N_TAGS ≤ e.tags.length) :
    mr.ret = e.n_tags ∧ e.n_tags ≤ N_TAGS
    ∧ mr.packet.data = packet.data.take 12 ++ tags_bytes (e.tags.take e.n_tags)
        ++ packet.data.drop 12
    ∧ mr.packet.pkt_len = packet.pkt_len + 4 * e.n_tags
    ∧ mr.packet.headroom.length + 4 * e.n_tags = packet.headroom.length
    ∧ mr.vdev = vdev := by
  unfold tag_matched at h
  by_cases h0 : e.n_tags = 0
  · rw [if_pos h0] at h
    simp only [Option.some.injEq] at h
    rw [← h] at hne; exact absurd rfl hne
  · rw [if_neg h0] at h
    simp only [] at h
    have hsn := shaped_n_tags cpu_freq do_shape current_tsc
      (load_le packet.data (SIZEOF_ETHER_HDR + 2) 2) e
    have hst := shaped_tags cpu_freq do_shape current_tsc
      (load_le packet.data (SIZEOF_ETHER_HDR + 2) 2) e
    generalize (if do_shape ≠ 0 then
      shaper cpu_freq current_tsc (load_le packet.data (SIZEOF_ETHER_HDR + 2) 2) e
      else (e, true)) = sh at hsn hst h
    split at h
    · simp only [Option.some.injEq] at h
      rw [← h] at hne; exact absurd rfl hne
    · split at h
      · simp only [Option.some.injEq] at h
        rw [← h] at hne; exact absurd rfl hne
      · cases hp : rte_pktmbuf_prepend packet (sh.1.n_tags * SIZEOF_VLAN_HDR) with
        | none =>
          rw [hp] at h
          simp only [Option.some.injEq] at h
          rw [← h] at hne; exact absurd rfl hne
        | some m =>
          rw [hp] at h
          simp only [] at h
          unfold rte_pktmbuf_prepend at hp
          split at hp
          · simp at hp
          · rename_i h3
            simp only [Option.some.injEq] at hp
            split at h
            · simp at h
            · rename_i h4
              simp only [Option.some.injEq] at h
              rw [hsn, hst] at h
              rw [hsn] at h3 h4 hp
              simp only [SIZEOF_VLAN_HDR, RTE_ETHER_ADDR_LEN] at h h3 hp
              have hk : (packet.headroom.drop (packet.headroom.length - e.n_tags * 4)).length
                  = e.n_tags * 4 := by
                rw [List.length_drop]; omega
              have htb : (tags_bytes (e.tags.take e.n_tags)).length = e.n_tags * 4 := by
                rw [tags_bytes_length, List.length_take]; omega
              have hpush := push_tags_bytes _ packet.data _ (e.n_tags * 4) hk htb hd
              subst hp
              subst h
              refine ⟨rfl, by omega, ?_, ?_, ?_, rfl⟩
              · split <;> exact hpush
              · split <;> simp <;> omega
              · split <;> simp [List.length_take] <;> omega

/-! ### `tag_packet` as a whole -/

theorem list_set_self (l : List tagging_entry) (i : Nat) (a : tagging_entry)
    (h : l[i]? = some a) : l.set i a = l := by
  apply List.ext_getElem?
  intro n
  by_cases hn : i = n
  · subst hn
    rw [List.getElem?_set_self (by
      rcases Nat.lt_or_ge i l.length with hlt | hge
      · exact hlt
      · rw [List.getElem?_eq_none hge] at h; simp at h), h]
  · rw [List.getElem?_set_ne hn]

theorem first_match_length (table : List tagging_entry) (v : Nat) (data : List Nat) (i : Nat)
    (e : tagging_entry) (h : first_match table v data i e) : 38 ≤ data.length :=
  ((entry_matches_true_iff e data).1 h.2.1).1

theorem tag_packet_of_first_match (cpu_freq do_shape current_tsc : Nat)
    (table : List tagging_entry) (packet : rte_mbuf) (vdev : vhost_dev) (i : Nat)
    (e : tagging_entry)
    (hip : load_le packet.data 12 2 = BE_RTE_ETHER_TYPE_IPV4)
    (hproto : byte_at packet.data 23 = IPPROTO_TCP ∨ byte_at packet.data 23 = IPPROTO_UDP)
    (hi : i < N_ENTRIES_PER_VHOST)
    (hfm : first_match table vdev.vlan_tag packet.data i e) :
    tag_packet cpu_freq do_shape current_tsc table packet vdev
      = (tag_matched cpu_freq do_shape current_tsc e packet vdev).map
          (fun mr => ⟨mr.ret, mr.packet, table.set (table_index vdev.vlan_tag i) mr.entry,
            mr.vdev⟩) := by
  have hlen := first_match_length _ _ _ _ _ hfm
  unfold tag_packet
  simp only [SIZEOF_ETHER_HDR]
  rw [if_neg (by omega), if_pos hip, if_neg (by omega), if_pos hproto]
  exact tag_packet_loop_first cpu_freq do_shape current_tsc table packet vdev e
    N_ENTRIES_PER_VHOST 0 i (Nat.zero_le _) (by omega) hfm.1 hfm.2.1
    (fun j _ hj => hfm.2.2 j hj)

theorem tag_packet_ne_zero (cpu_freq do_shape current_tsc : Nat)
    (table : List tagging_entry) (packet : rte_mbuf) (vdev : vhost_dev) (r : tag_result)
    (h : tag_packet cpu_freq do_shape current_tsc table packet vdev = some r)
    (hne : r.ret ≠ 0) :
    load_le packet.data 12 2 = BE_RTE_ETHER_TYPE_IPV4
    ∧ (byte_at packet.data 23 = IPPROTO_TCP ∨ byte_at packet.data 23 = IPPROTO_UDP)
    ∧ ∃ i e mr, i < N_ENTRIES_PER_VHOST ∧ first_match table vdev.vlan_tag packet.data i e
        ∧ tag_matched cpu_freq do_shape current_tsc e packet vdev = some mr
        ∧ r = ⟨mr.ret, mr.packet, table.set (table_index vdev.vlan_tag i) mr.entry, mr.vdev⟩ := by
  unfold tag_packet at h
  simp only [SIZEOF_ETHER_HDR] at h
  split at h
  · simp at h
  · split at h
    · rename_i hip
      split at h
      · simp at h
      · split at h
        · rename_i hproto
          rcases tag_packet_loop_some _ _ _ _ _ _ _ _ _ h with ⟨hr, _⟩ | ⟨i, e, mr, _, h2, h3, h4, h5, h6, h7⟩
          · rw [hr] at hne; exact absurd rfl hne
          · exact ⟨hip, hproto, i, e, mr, by omega, ⟨h3, h4, fun j hj => h5 j (Nat.zero_le _) hj⟩,
              h6, h7⟩
        · simp only [Option.some.injEq] at h
          rw [← h] at hne; exact absurd rfl hne
    · simp only [Option.some.injEq] at h
      rw [← h] at hne; exact absurd rfl hne

/-! ### The claims on `tag_packet` -/

/-- C2: whenever `tag_packet` returns a non-zero value, this value is the
number of tags `k` of the first entry that matches, and the frame is then
exactly the original 12 bytes of both MAC addresses, the first `k` tags of the
entry (2 bytes of eth_type, 2 bytes of vlan_id, as stored), and the original
frame from byte 12 on, so that the original EtherType and all that follows sit
at offset `12 + 4k`; both the data length and the packet length grow by `4k`. -/
theorem tag_packet_frame_layout (cpu_freq do_shape current_tsc : Nat)
    (table : List tagging_entry) (packet : rte_mbuf) (vdev : vhost_dev) (r : tag_result)
    (hwf : ∀ e ∈ table, e.tags.length = N_TAGS)
    (h : tag_packet cpu_freq do_shape current_tsc table packet vdev = some r)
    (hne : r.ret ≠ 0) :
    ∃ i e, i < N_ENTRIES_PER_VHOST ∧ first_match table vdev.vlan_tag packet.data i e
      ∧ r.ret = e.n_tags
      ∧ r.packet.data = packet.data.take 12 ++ tags_bytes (e.tags.take e.n_tags)
          ++ packet.data.drop 12
      ∧ (tags_bytes (e.tags.take e.n_tags)).length = 4 * e.n_tags
      ∧ r.packet.data.drop (12 + 4 * e.n_tags) = packet.data.drop 12
      ∧ r.packet.data.length = packet.data.length + 4 * e.n_tags
      ∧ r.packet.pkt_len = packet.pkt_len + 4 * e.n_tags := by
  obtain ⟨_, _, i, e, mr, hi, hfm, hmr, hr⟩ := tag_packet_ne_zero _ _ _ _ _ _ _ h hne
  have hlen := first_match_length _ _ _ _ _ hfm
  have htl := hwf e (List.getElem?_mem hfm.1)
  have hne2 : mr.ret ≠ 0 := by rw [hr] at hne; exact hne
  obtain ⟨h1, h2, h3, h4, _, _⟩ :=
    tag_matched_pushed _ _ _ _ _ _ _ hmr hne2 (by omega) (by omega)
  have htb : (tags_bytes (e.tags.take e.n_tags)).length = 4 * e.n_tags := by
    rw [tags_bytes_length, List.length_take]; omega
  have h12 : (packet.data.take 12).length = 12 := by rw [List.length_take]; omega
  subst hr
  refine ⟨i, e, hi, hfm, h1, h3, htb, ?_, ?_, h4⟩
  · show mr.packet.data.drop (12 + 4 * e.n_tags) = _
    rw [h3, List.append_assoc, List.drop_append_eq_append_drop,
      List.drop_eq_nil_of_le (by omega), List.nil_append, h12,
      List.drop_append_eq_append_drop, List.drop_eq_nil_of_le (by omega), List.nil_append]
    have : 12 + 4 * e.n_tags - 12 - (tags_bytes (e.tags.take e.n_tags)).length = 0 := by omega
    rw [this, List.drop_zero]
  · show mr.packet.data.length = _
    rw [h3]; simp only [List.length_append, List.length_take, List.length_drop]
    rw [tags_bytes_length, List.length_take]; omega

set_option maxRecDepth 100000 in
/-- Witness of C2: the TCP segment of the example, sent by the guest of row 5
after 2000 idle cycles, comes back with 2 tags, the EtherType at offset 20. -/
theorem tag_packet_frame_layout_witness :
    tagged_result.ret = 2
    ∧ ∃ i e, i < N_ENTRIES_PER_VHOST
      ∧ first_match (table_with 0 (five_tuple_entry 1000000 0 0 2)) data_guest.vlan_tag
          (fresh_mbuf tcp_frame).data i e
      ∧ tagged_result.ret = e.n_tags
      ∧ tagged_result.packet.data = (fresh_mbuf tcp_frame).data.take 12
          ++ tags_bytes (e.tags.take e.n_tags) ++ (fresh_mbuf tcp_frame).data.drop 12
      ∧ (tags_bytes (e.tags.take e.n_tags)).length = 4 * e.n_tags
      ∧ tagged_result.packet.data.drop (12 + 4 * e.n_tags) = (fresh_mbuf tcp_frame).data.drop 12
      ∧ tagged_result.packet.data.length = (fresh_mbuf tcp_frame).data.length + 4 * e.n_tags
      ∧ tagged_result.packet.pkt_len = (fresh_mbuf tcp_frame).pkt_len + 4 * e.n_tags :=
  ⟨by decide,
    tag_packet_frame_layout 1000000000 1 2000 (table_with 0 (five_tuple_entry 1000000 0 0 2))
      (fresh_mbuf tcp_frame) data_guest tagged_result (by decide) (by decide) (by decide)⟩

theorem rule_matches_of_plain_header (e : tagging_entry) (data : List Nat)
    (h : byte_at data 14 % 16 = 5) : rule_matches e data ↔ compared_fields_equal e data := by
  unfold rule_matches compared_fields_equal ipv4_header_length
  simp only [SIZEOF_ETHER_HDR, h]

/-- On a frame whose IPv4 header has no options (IHL = 5) the code does what
C3 says: `tag_packet` returns a non-zero value only if the acceptance predicate
holds, and in every other case (on a frame long enough to hold the five-tuple
and a row inside the table) it returns 0 and touches neither the buffer, the
table nor the device. -/
theorem tag_packet_acceptance_plain_header (cpu_freq do_shape current_tsc : Nat)
    (table : List tagging_entry) (packet : rte_mbuf) (vdev : vhost_dev)
    (hihl : byte_at packet.data 14 % 16 = 5) :
    (∀ r, tag_packet cpu_freq do_shape current_tsc table packet vdev = some r → r.ret ≠ 0 →
      acceptance_predicate table packet.data vdev.vlan_tag)
    ∧ (38 ≤ packet.data.length → table.length = TABLE_SIZE →
        vdev.vlan_tag ≤ MAX_VIRTIO_DEVICES →
        ¬ acceptance_predicate table packet.data vdev.vlan_tag →
        tag_packet cpu_freq do_shape current_tsc table packet vdev
          = some ⟨0, packet, table, vdev⟩) := by
  constructor
  · intro r h hne
    obtain ⟨hip, hproto, i, e, _, hi, hfm, _, _⟩ := tag_packet_ne_zero _ _ _ _ _ _ _ h hne
    exact ⟨(ether_type_ipv4_iff _).1 hip, hproto, i, hi, e, hfm.1,
      (rule_matches_of_plain_header e packet.data hihl).2
        ((entry_matches_true_iff e packet.data).1 hfm.2.1).2⟩
  · intro hlen htl hv hna
    unfold tag_packet
    simp only [SIZEOF_ETHER_HDR]
    rw [if_neg (by omega)]
    split
    · rename_i hip
      rw [if_neg (by omega)]
      split
      · rename_i hproto
        apply tag_packet_loop_no_match
        intro j _ hj
        have hidx : table_index vdev.vlan_tag j < table.length := by
          rw [htl]; unfold table_index TABLE_SIZE MAX_VIRTIO_DEVICES N_ENTRIES_PER_VHOST at *
          omega
        refine ⟨table[table_index vdev.vlan_tag j], List.getElem?_eq_getElem hidx, ?_⟩
        apply entry_matches_false_of_not_rule _ _ hlen
        intro hrm
        exact hna ⟨(ether_type_ipv4_iff _).1 hip, hproto, j, by omega, _,
          List.getElem?_eq_getElem hidx,
          (rule_matches_of_plain_header _ packet.data hihl).2 hrm⟩
      · rfl
    · rfl

set_option maxRecDepth 100000 in
/-- The tagged TCP segment of the examples, whose IPv4 header has no options,
satisfies the acceptance predicate, and an ARP frame, which does not, makes
`tag_packet` return 0. -/
theorem tag_packet_acceptance_plain_header_example :
    acceptance_predicate (table_with 0 (five_tuple_entry 1000000 0 0 2))
      (fresh_mbuf tcp_frame).data data_guest.vlan_tag
    ∧ tag_packet 1000000000 1 2000 (table_with 0 (five_tuple_entry 1000000 0 0 2))
        (fresh_mbuf arp_frame) data_guest
      = some ⟨0, fresh_mbuf arp_frame, table_with 0 (five_tuple_entry 1000000 0 0 2),
          data_guest⟩ :=
  ⟨(tag_packet_acceptance_plain_header 1000000000 1 2000
      (table_with 0 (five_tuple_entry 1000000 0 0 2))
      (fresh_mbuf tcp_frame) data_guest (by decide)).1 tagged_result (by decide) (by decide),
    by decide⟩

set_option maxRecDepth 100000 in
/-- C3, the code at a failing input: a TCP segment from port 80 to port 443
whose IPv4 header carries four bytes of options (IHL = 6), the options being
the bytes `03 E8 07 D0`. `tag_packet` takes the ports from the four bytes that
follow 20 bytes of IPv4 header, finds the rule for ports 1000 and 2000 there,
and returns 2, although no slot of the row holds a rule with the ports of the
packet: the acceptance predicate does not hold. -/
theorem options_frame_tagged_on_other_ports :
    ipv4_header_length options_frame = 24
    ∧ bytes_at options_frame (SIZEOF_ETHER_HDR + ipv4_header_length options_frame) 4
      = [0, 80, 1, 187]
    ∧ store_le 2 (five_tuple_entry 1000000 0 0 2).src_port
        ++ store_le 2 (five_tuple_entry 1000000 0 0 2).dst_port = [3, 232, 7, 208]
    ∧ (tag_packet 1000000000 1 2000 (table_with 0 (five_tuple_entry 1000000 0 0 2))
        (fresh_mbuf options_frame) data_guest).map (fun r => r.ret) = some 2
    ∧ ¬ acceptance_predicate (table_with 0 (five_tuple_entry 1000000 0 0 2))
        (fresh_mbuf options_frame).data data_guest.vlan_tag := by
  refine ⟨by decide, by decide, by decide, by decide, ?_⟩
  rintro ⟨_, _, s, hs, e, he, hm⟩
  have hs3 : s = 0 ∨ s = 1 ∨ s = 2 := by
    unfold N_ENTRIES_PER_VHOST at hs; omega
  rcases hs3 with h | h | h
  · subst h
    have h0 : (table_with 0 (five_tuple_entry 1000000 0 0 2))[table_index data_guest.vlan_tag 0]?
        = some (five_tuple_entry 1000000 0 0 2) := by decide
    rw [h0] at he
    have he1 := Option.some.inj he
    subst he1
    exact absurd hm.2.2.2.1 (by decide)
  · subst h
    have h0 : (table_with 0 (five_tuple_entry 1000000 0 0 2))[table_index data_guest.vlan_tag 1]?
        = some zero_entry := by decide
    rw [h0] at he
    have he1 := Option.some.inj he
    subst he1
    exact absurd hm.1 (by decide)
  · subst h
    have h0 : (table_with 0 (five_tuple_entry 1000000 0 0 2))[table_index data_guest.vlan_tag 2]?
        = some zero_entry := by decide
    rw [h0] at he
    have he1 := Option.some.inj he
    subst he1
    exact absurd hm.1 (by decide)

/-- C4: first match wins. When slot `i` is the lowest slot of the row of the
guest whose entry `e` matches the packet, the whole result of `tag_packet` is
what the body of the loop makes of `e` alone, written back to slot `i`: the
return value, the buffer and the shaping decision do not depend on any other
slot (two tables with the same first matching entry give the same result),
and every other element of the table is left as it was, whatever the outcome
(tagged, nothing to do, or dropped by the shaper). -/
theorem first_match_wins (cpu_freq do_shape current_tsc : Nat)
    (table : List tagging_entry) (packet : rte_mbuf) (vdev : vhost_dev) (i : Nat)
    (e : tagging_entry)
    (hip : load_le packet.data 12 2 = BE_RTE_ETHER_TYPE_IPV4)
    (hproto : byte_at packet.data 23 = IPPROTO_TCP ∨ byte_at packet.data 23 = IPPROTO_UDP)
    (hi : i < N_ENTRIES_PER_VHOST)
    (hfm : first_match table vdev.vlan_tag packet.data i e) :
    tag_packet cpu_freq do_shape current_tsc table packet vdev
      = (tag_matched cpu_freq do_shape current_tsc e packet vdev).map
          (fun mr => ⟨mr.ret, mr.packet, table.set (table_index vdev.vlan_tag i) mr.entry,
            mr.vdev⟩)
    ∧ (∀ r, tag_packet cpu_freq do_shape current_tsc table packet vdev = some r →
        ∀ k, k ≠ table_index vdev.vlan_tag i → r.table[k]? = table[k]?)
    ∧ (∀ table2 i2, i2 < N_ENTRIES_PER_VHOST →
        first_match table2 vdev.vlan_tag packet.data i2 e →
        (tag_packet cpu_freq do_shape current_tsc table2 packet vdev).map
            (fun r => (r.ret, r.packet, r.vdev, r.table[table_index vdev.vlan_tag i2]?))
          = (tag_packet cpu_freq do_shape current_tsc table packet vdev).map
            (fun r => (r.ret, r.packet, r.vdev, r.table[table_index vdev.vlan_tag i]?))) := by
  have heq := tag_packet_of_first_match cpu_freq do_shape current_tsc table packet vdev i e
    hip hproto hi hfm
  refine ⟨heq, ?_, ?_⟩
  · intro r hr k hk
    rw [heq] at hr
    cases hm : tag_matched cpu_freq do_shape current_tsc e packet vdev with
    | none => rw [hm] at hr; simp at hr
    | some mr =>
      rw [hm] at hr
      simp only [Option.map_some', Option.some.injEq] at hr
      rw [← hr]
      exact List.getElem?_set_ne (Ne.symm hk)
  · intro table2 i2 hi2 hfm2
    have heq2 := tag_packet_of_first_match cpu_freq do_shape current_tsc table2 packet vdev i2 e
      hip hproto hi2 hfm2
    have hlt : table_index vdev.vlan_tag i < table.length := by
      rcases Nat.lt_or_ge (table_index vdev.vlan_tag i) table.length with h | h
      · exact h
      · have := hfm.1; rw [List.getElem?_eq_none h] at this; simp at this
    have hlt2 : table_index vdev.vlan_tag i2 < table2.length := by
      rcases Nat.lt_or_ge (table_index vdev.vlan_tag i2) table2.length with h | h
      · exact h
      · have := hfm2.1; rw [List.getElem?_eq_none h] at this; simp at this
    rw [heq, heq2]
    cases tag_matched cpu_freq do_shape current_tsc e packet vdev with
    | none => rfl
    | some mr =>
      simp only [Option.map_some', Option.some.injEq, Prod.mk.injEq, true_and]
      rw [List.getElem?_set_self hlt, List.getElem?_set_self hlt2]

set_option maxRecDepth 100000 in
/-- Witness of C4: with the rule in slots 1 and 2 of row 5, carrying 2 and 1
tags, the result is the one of slot 1. -/
theorem first_match_wins_witness :
    tag_packet 1000000000 1 2000 (two_rules_table 2 1) (fresh_mbuf tcp_frame) data_guest
      = (tag_matched 1000000000 1 2000 (five_tuple_entry 1000000 0 0 2) (fresh_mbuf tcp_frame)
          data_guest).map
          (fun mr => ⟨mr.ret, mr.packet,
            (two_rules_table 2 1).set (table_index data_guest.vlan_tag 1) mr.entry, mr.vdev⟩) :=
  (first_match_wins 1000000000 1 2000 (two_rules_table 2 1) (fresh_mbuf tcp_frame) data_guest 1
    (five_tuple_entry 1000000 0 0 2) (by decide) (by decide) (by decide)
    ⟨by decide, by decide, fun j hj => ⟨zero_entry, by
      have hj0 : j = 0 := by omega
      subst hj0; decide⟩⟩).1

/-- C8: when the first slot that matches an IPv4 TCP/UDP packet has
`n_tags = 0`, `tag_packet` returns 0 (and changes nothing), although protocol,
both addresses and both ports match. -/
theorem no_tags_returns_zero (cpu_freq do_shape current_tsc : Nat)
    (table : List tagging_entry) (packet : rte_mbuf) (vdev : vhost_dev) (i : Nat)
    (e : tagging_entry)
    (hip : load_le packet.data 12 2 = BE_RTE_ETHER_TYPE_IPV4)
    (hproto : byte_at packet.data 23 = IPPROTO_TCP ∨ byte_at packet.data 23 = IPPROTO_UDP)
    (hi : i < N_ENTRIES_PER_VHOST)
    (hfm : first_match table vdev.vlan_tag packet.data i e)
    (h0 : e.n_tags = 0) :
    compared_fields_equal e packet.data
    ∧ tag_packet cpu_freq do_shape current_tsc table packet vdev
      = some ⟨0, packet, table, vdev⟩ := by
  refine ⟨((entry_matches_true_iff e packet.data).1 hfm.2.1).2, ?_⟩
  rw [tag_packet_of_first_match cpu_freq do_shape current_tsc table packet vdev i e
    hip hproto hi hfm, tag_matched_no_tags _ _ _ _ _ _ h0]
  simp only [Option.map_some', list_set_self _ _ _ hfm.1]

set_option maxRecDepth 100000 in
/-- Witness of C8: the rule of the example with no tag, in slot 0 of row 5. -/
theorem no_tags_returns_zero_witness :
    compared_fields_equal (five_tuple_entry 1000000 0 0 0) (fresh_mbuf tcp_frame).data
    ∧ tag_packet 1000000000 1 2000 (table_with 0 (five_tuple_entry 1000000 0 0 0))
        (fresh_mbuf tcp_frame) data_guest
      = some ⟨0, fresh_mbuf tcp_frame, table_with 0 (five_tuple_entry 1000000 0 0 0),
          data_guest⟩ :=
  no_tags_returns_zero 1000000000 1 2000 (table_with 0 (five_tuple_entry 1000000 0 0 0))
    (fresh_mbuf tcp_frame) data_guest 0 (five_tuple_entry 1000000 0 0 0)
    (by decide) (by decide) (by decide)
    ⟨by decide, by decide, fun j hj => absurd hj (Nat.not_lt_zero j)⟩ rfl

/-- C10: when the first entry that matches cannot be pushed because the
buffer is indirect, has a reference count above 1, or has less than
`4 * n_tags` bytes of headroom, `tag_packet` returns 0 and the buffer it
leaves is the buffer it got: same bytes, lengths, offload flags and l2 lengths. -/
theorem cannot_tag_returns_zero (cpu_freq do_shape current_tsc : Nat)
    (table : List tagging_entry) (packet : rte_mbuf) (vdev : vhost_dev) (i : Nat)
    (e : tagging_entry)
    (hip : load_le packet.data 12 2 = BE_RTE_ETHER_TYPE_IPV4)
    (hproto : byte_at packet.data 23 = IPPROTO_TCP ∨ byte_at packet.data 23 = IPPROTO_UDP)
    (hi : i < N_ENTRIES_PER_VHOST)
    (hfm : first_match table vdev.vlan_tag packet.data i e)
    (hc : packet.direct = false ∨ packet.refcnt > 1
      ∨ packet.headroom.length < 4 * e.n_tags) :
    ∃ r, tag_packet cpu_freq do_shape current_tsc table packet vdev = some r
      ∧ r.ret = 0 ∧ r.packet = packet := by
  obtain ⟨e1, vdev1, hm⟩ := tag_matched_cannot_tag cpu_freq do_shape current_tsc e packet vdev hc
  rw [tag_packet_of_first_match cpu_freq do_shape current_tsc table packet vdev i e
    hip hproto hi hfm, hm]
  exact ⟨_, rfl, rfl, rfl⟩

set_option maxRecDepth 100000 in
/-- Witness of C10: the TCP segment of the example in a buffer shared by two
owners. -/
theorem cannot_tag_returns_zero_witness :
    ∃ r, tag_packet 1000000000 1 2000 (table_with 0 (five_tuple_entry 1000000 0 0 2))
        { fresh_mbuf tcp_frame with refcnt := 2 } data_guest = some r
      ∧ r.ret = 0 ∧ r.packet = { fresh_mbuf tcp_frame with refcnt := 2 } :=
  cannot_tag_returns_zero 1000000000 1 2000 (table_with 0 (five_tuple_entry 1000000 0 0 2))
    { fresh_mbuf tcp_frame with refcnt := 2 } data_guest 0 (five_tuple_entry 1000000 0 0 2)
    (by decide) (by decide) (by decide)
    ⟨by decide, by decide, fun j hj => absurd hj (Nat.not_lt_zero j)⟩
    (Or.inr (Or.inl (by decide)))

/-! ### Where the code departs from the claims -/

/-- C6, the code at a failing input: at 3 GHz, an entry with a full bucket of
one gigabit (`n_tokens = cpu_freq * burst_bits < 2^64`) and a rate of
10 Gbit/s is refilled after 1.6e9 idle cycles. The refill `1.6e19` fits in
64 bits, so the overflow test does not fire, but the sum `n_tokens + refill`
wraps, and the refill step leaves 553255926290448384 tokens where
`min (n_tokens + refill) (cpu_freq * burst_bits)` is the full bucket. -/
theorem refill_wraps_on_addition :
    full_bucket_entry.n_tokens ≤ 3000000000 * full_bucket_entry.burst_bits
    ∧ 3000000000 * full_bucket_entry.burst_bits < 2 ^ 64
    ∧ generate_tokens 3000000000 1600000000 full_bucket_entry = 16000000000000000000
    ∧ (refill 3000000000 1600000000 full_bucket_entry).last_tsc = 1600000000
    ∧ (refill 3000000000 1600000000 full_bucket_entry).n_tokens = 553255926290448384
    ∧ min (full_bucket_entry.n_tokens + generate_tokens 3000000000 1600000000 full_bucket_entry)
        (3000000000 * full_bucket_entry.burst_bits) = 3000000000000000000 := by
  decide

/-- The refill step does what C6 says as long as the sum of the old tokens
and the refill fits in 64 bits. -/
theorem refill_of_no_wrap (cpu_freq current_tsc : Nat) (e : tagging_entry)
    (hcap : cpu_freq * e.burst_bits < 2 ^ 64)
    (hsum : e.n_tokens + generate_tokens cpu_freq current_tsc e < 2 ^ 64) :
    (refill cpu_freq current_tsc e).n_tokens
      = min (e.n_tokens + generate_tokens cpu_freq current_tsc e) (cpu_freq * e.burst_bits)
    ∧ (refill cpu_freq current_tsc e).last_tsc = current_tsc := by
  unfold refill
  simp only []
  have h1 : u64_mul cpu_freq e.burst_bits = cpu_freq * e.burst_bits := by
    unfold u64_mul; exact Nat.mod_eq_of_lt hcap
  have h2 : u64_add e.n_tokens (generate_tokens cpu_freq current_tsc e)
      = e.n_tokens + generate_tokens cpu_freq current_tsc e := by
    unfold u64_add; exact Nat.mod_eq_of_lt hsum
  rw [h1, h2]
  split
  · rename_i h; exact ⟨by simp only []; omega, rfl⟩
  · rename_i h; exact ⟨by simp only []; omega, rfl⟩

set_option maxRecDepth 100000 in
/-- C5, the code at a failing input: at 1 GHz the packet of the example with
2 tags costs `8 * 10^9 * 106` tokens; the bucket of the rule (a burst of 848
bits, full, idle for 4000 cycles) holds exactly that many after the refill,
yet `tag_packet` counts the packet in `tx_dropped` and returns 0. -/
theorem exact_cost_is_dropped :
    packet_cost 1000000000
        (packet_size (load_le tcp_frame 16 2) (five_tuple_entry 848 848000000000 1000 2))
      = 8 * 1000000000 * (8 + 14 + 4 + 12 + 60 + 4 * 2)
    ∧ (refill 1000000000 5000 (five_tuple_entry 848 848000000000 1000 2)).n_tokens
      = 8 * 1000000000 * (8 + 14 + 4 + 12 + 60 + 4 * 2)
    ∧ tag_packet 1000000000 1 5000 (table_with 0 (five_tuple_entry 848 848000000000 1000 2))
        (fresh_mbuf tcp_frame) data_guest
      = some ⟨0, fresh_mbuf tcp_frame,
          table_with 0 (five_tuple_entry 848 848000000000 5000 2),
          { data_guest with stats := ⟨0, 0, 1, 0, 0, 0⟩ }⟩ := by
  decide

/-- The debit test of the code is strict: the packet passes, and is debited
of exactly its cost, when the tokens exceed the cost, and is refused, with no
debit, when they do not. -/
theorem debit_strict (cpu_freq ps : Nat) (e : tagging_entry) (hn : e.n_tokens < 2 ^ 64) :
    (packet_cost cpu_freq ps < e.n_tokens →
      debit cpu_freq ps e
        = ({ e with n_tokens := e.n_tokens - packet_cost cpu_freq ps }, true))
    ∧ (e.n_tokens ≤ packet_cost cpu_freq ps → debit cpu_freq ps e = (e, false)) := by
  unfold debit
  constructor
  · intro h
    rw [if_pos h, u64_sub_of_le _ _ hn (Nat.le_of_lt h)]
  · intro h
    rw [if_neg (by omega)]

set_option maxRecDepth 100000 in
/-- C9, the code at a failing input: a control frame for row 5, slot 0, whose
`n_tags` field is 11 is applied to the start-up table as it is; the table it
leaves is reachable, holds an entry with 11 tags, and `tag_packet` on a packet
that matches this entry reads past the 10 elements of `tags`. -/
theorem eleven_tags_reachable :
    ∃ table, update_table 1000000000 0 matching_table_init (ctrl_frame 5 0 1000000 11)
        = some table
      ∧ reachable_table 1000000000 table
      ∧ (table[table_index 5 0]?).map (fun e => e.n_tags) = some 11
      ∧ N_TAGS < 11
      ∧ tag_packet 1000000000 1 100 table (fresh_mbuf tcp_frame) data_guest = none := by
  refine ⟨(update_table 1000000000 0 matching_table_init (ctrl_frame 5 0 1000000 11)).getD [],
    by decide, ?_, by decide, by decide, by decide⟩
  exact reachable_table.update 0 matching_table_init _ (ctrl_frame 5 0 1000000 11)
    reachable_table.init (by decide)

/-! ### The control channel -/

theorem byte_at_append_right (a b : List Nat) (k : Nat) :
    byte_at (a ++ b) (a.length + k) = byte_at b k := by
  unfold byte_at
  rw [List.getD_eq_getElem?_getD, List.getD_eq_getElem?_getD,
    List.getElem?_append_right (by omega)]
  simp

theorem load_le_append_right (a b : List Nat) (n : Nat) :
    ∀ k, load_le (a ++ b) (a.length + k) n = load_le b k n := by
  induction n with
  | zero => intro k; rfl
  | succ n ih =>
    intro k
    simp only [load_le]
    rw [byte_at_append_right, Nat.add_assoc, ih]

theorem load_le_cons_succ (x : Nat) (l : List Nat) (n k : Nat) :
    load_le (x :: l) (k + 1) n = load_le l k n := by
  have h := load_le_append_right [x] l n k
  simpa [Nat.add_comm] using h

theorem load_le_store_le (n : Nat) : ∀ (v : Nat) (rest : List Nat),
    load_le (store_le n v ++ rest) 0 n = v % 256 ^ n := by
  induction n with
  | zero => intro v rest; simp [load_le, Nat.mod_one]
  | succ n ih =>
    intro v rest
    simp only [load_le, store_le, List.cons_append]
    rw [load_le_cons_succ, ih]
    have hb : byte_at (v % 256 :: (store_le n (v / 256) ++ rest)) 0 = v % 256 := by
      simp [byte_at]
    rw [hb, Nat.pow_succ, Nat.mul_comm (256 ^ n) 256, Nat.mod_mul]

theorem load_le_field (pre rest : List Nat) (n v off : Nat) (hoff : pre.length = off)
    (hv : v < 256 ^ n) : load_le (pre ++ (store_le n v ++ rest)) off n = v := by
  have h := load_le_append_right pre (store_le n v ++ rest) n 0
  rw [Nat.add_zero, hoff] at h
  rw [h, load_le_store_le, Nat.mod_eq_of_lt hv]

theorem decode_tags (l : List vlan_hdr) :
    ∀ (pre rest : List Nat) (base : Nat), pre.length = base →
      (∀ t ∈ l, t.eth_type < 2 ^ 16 ∧ t.vlan_id < 2 ^ 16) →
      (List.range l.length).map (fun i =>
        (⟨load_le (pre ++ (tags_bytes l ++ rest)) (base + 4 * i) 2,
          load_le (pre ++ (tags_bytes l ++ rest)) (base + 2 + 4 * i) 2⟩ : vlan_hdr)) = l := by
  induction l with
  | nil => intro pre rest base _ _; rfl
  | cons t ts ih =>
    intro pre rest base hpre hwf
    have ht := hwf t (List.mem_cons_self _ _)
    have hts : ∀ u ∈ ts, u.eth_type < 2 ^ 16 ∧ u.vlan_id < 2 ^ 16 :=
      fun u hu => hwf u (List.mem_cons_of_mem _ hu)
    rw [List.length_cons, List.range_succ_eq_map, List.map_cons, List.map_map]
    have e1 : pre ++ (tags_bytes (t :: ts) ++ rest)
        = pre ++ (store_le 2 t.eth_type ++ (store_le 2 t.vlan_id ++ (tags_bytes ts ++ rest))) := by
      simp [tags_bytes, List.append_assoc]
    have e2 : pre ++ (tags_bytes (t :: ts) ++ rest)
        = (pre ++ store_le 2 t.eth_type) ++ (store_le 2 t.vlan_id ++ (tags_bytes ts ++ rest)) := by
      simp [tags_bytes, List.append_assoc]
    have e3 : pre ++ (tags_bytes (t :: ts) ++ rest)
        = (pre ++ store_le 2 t.eth_type ++ store_le 2 t.vlan_id) ++ (tags_bytes ts ++ rest) := by
      simp [tags_bytes, List.append_assoc]
    have h1 : load_le (pre ++ (tags_bytes (t :: ts) ++ rest)) (base + 4 * 0) 2 = t.eth_type := by
      rw [e1]; exact load_le_field _ _ 2 _ _ (by omega) (by norm_num; exact ht.1)
    have h2 : load_le (pre ++ (tags_bytes (t :: ts) ++ rest)) (base + 2 + 4 * 0) 2 = t.vlan_id := by
      rw [e2]
      exact load_le_field _ _ 2 _ _ (by simp [store_le_length]; omega) (by norm_num; exact ht.2)
    rw [h1, h2]
    congr 1
    have hih := ih (pre ++ store_le 2 t.eth_type ++ store_le 2 t.vlan_id) rest (base + 4)
      (by simp [store_le_length]; omega) hts
    rw [← e3] at hih
    refine Eq.trans ?_ hih
    apply List.map_congr_left
    intro i _
    simp only [Function.comp, Nat.succ_eq_add_one]
    have a1 : base + 4 * (i + 1) = base + 4 + 4 * i := by omega
    have a2 : base + 2 + 4 * (i + 1) = base + 4 + 2 + 4 * i := by omega
    rw [a1, a2]

theorem decode_entry_image (E : tagging_entry) (pre pad1 pad2 trailer : List Nat) (off : Nat)
    (hpre : pre.length = off) (hE : E.wf) (hpad1 : pad1.length = 3) :
    decode_entry (pre ++ (entry_image E pad1 pad2 ++ trailer)) off = E := by
  obtain ⟨h1, h2, h3, h4, h5, h6, h7, h8, h9, h10, h11, h12⟩ := hE
  rcases E with ⟨proto, src, dst, sp, dp, rate, burst, ntok, tsc, ntags, tags⟩
  simp only at h1 h2 h3 h4 h5 h6 h7 h8 h9 h10 h11 h12
  unfold decode_entry
  simp only [tagging_entry.mk.injEq]
  refine ⟨?_, ?_, ?_, ?_, ?_, ?_, ?_, ?_, ?_, ?_, ?_⟩
  · have h := byte_at_append_right pre (entry_image ⟨proto, src, dst, sp, dp, rate, burst, ntok,
      tsc, ntags, tags⟩ pad1 pad2 ++ trailer) 0
    rw [Nat.add_zero, hpre] at h
    rw [h]
    simp only [entry_image, List.append_assoc, List.singleton_append, List.cons_append, byte_at,
      List.getD_cons_zero]
    exact Nat.mod_eq_of_lt (by omega)
  · have e : pre ++ (entry_image ⟨proto, src, dst, sp, dp, rate, burst, ntok, tsc, ntags, tags⟩
        pad1 pad2 ++ trailer)
        = (pre ++ [proto] ++ pad1) ++ (store_le 4 src ++ (store_le 4 dst ++ store_le 2 sp
          ++ store_le 2 dp ++ store_le 8 rate ++ store_le 8 burst ++ store_le 8 ntok
          ++ store_le 8 tsc ++ store_le 2 ntags ++ tags_bytes tags ++ pad2 ++ trailer)) := by
      simp [entry_image, List.append_assoc]
    rw [e]
    exact load_le_field _ _ 4 _ _ (by simp [hpre, hpad1]) (by norm_num; omega)
  · have e : pre ++ (entry_image ⟨proto, src, dst, sp, dp, rate, burst, ntok, tsc, ntags, tags⟩
        pad1 pad2 ++ trailer)
        = (pre ++ [proto] ++ pad1 ++ store_le 4 src) ++ (store_le 4 dst ++ (store_le 2 sp
          ++ store_le 2 dp ++ store_le 8 rate ++ store_le 8 burst ++ store_le 8 ntok
          ++ store_le 8 tsc ++ store_le 2 ntags ++ tags_bytes tags ++ pad2 ++ trailer)) := by
      simp [entry_image, List.append_assoc]
    rw [e]
    exact load_le_field _ _ 4 _ _ (by simp [hpre, hpad1, store_le_length]) (by norm_num; omega)
  · have e : pre ++ (entry_image ⟨proto, src, dst, sp, dp, rate, burst, ntok, tsc, ntags, tags⟩
        pad1 pad2 ++ trailer)
        = (pre ++ [proto] ++ pad1 ++ store_le 4 src ++ store_le 4 dst) ++ (store_le 2 sp
          ++ (store_le 2 dp ++ store_le 8 rate ++ store_le 8 burst ++ store_le 8 ntok
          ++ store_le 8 tsc ++ store_le 2 ntags ++ tags_bytes tags ++ pad2 ++ trailer)) := by
      simp [entry_image, List.append_assoc]
    rw [e]
    exact load_le_field _ _ 2 _ _ (by simp [hpre, hpad1, store_le_length]) (by norm_num; omega)
  · have e : pre ++ (entry_image ⟨proto, src, dst, sp, dp, rate, burst, ntok, tsc, ntags, tags⟩
        pad1 pad2 ++ trailer)
        = (pre ++ [proto] ++ pad1 ++ store_le 4 src ++ store_le 4 dst ++ store_le 2 sp)
          ++ (store_le 2 dp ++ (store_le 8 rate ++ store_le 8 burst ++ store_le 8 ntok
          ++ store_le 8 tsc ++ store_le 2 ntags ++ tags_bytes tags ++ pad2 ++ trailer)) := by
      simp [entry_image, List.append_assoc]
    rw [e]
    exact load_le_field _ _ 2 _ _ (by simp [hpre, hpad1, store_le_length]) (by norm_num; omega)
  · have e : pre ++ (entry_image ⟨proto, src, dst, sp, dp, rate, burst, ntok, tsc, ntags, tags⟩
        pad1 pad2 ++ trailer)
        = (pre ++ [proto] ++ pad1 ++ store_le 4 src ++ store_le 4 dst ++ store_le 2 sp
          ++ store_le 2 dp) ++ (store_le 8 rate ++ (store_le 8 burst ++ store_le 8 ntok
          ++ store_le 8 tsc ++ store_le 2 ntags ++ tags_bytes tags ++ pad2 ++ trailer)) := by
      simp [entry_image, List.append_assoc]
    rw [e]
    exact load_le_field _ _ 8 _ _ (by simp [hpre, hpad1, store_le_length]) (by norm_num; omega)
  · have e : pre ++ (entry_image ⟨proto, src, dst, sp, dp, rate, burst, ntok, tsc, ntags, tags⟩
        pad1 pad2 ++ trailer)
        = (pre ++ [proto] ++ pad1 ++ store_le 4 src ++ store_le 4 dst ++ store_le 2 sp
          ++ store_le 2 dp ++ store_le 8 rate) ++ (store_le 8 burst ++ (store_le 8 ntok
          ++ store_le 8 tsc ++ store_le 2 ntags ++ tags_bytes tags ++ pad2 ++ trailer)) := by
      simp [entry_image, List.append_assoc]
    rw [e]
    exact load_le_field _ _ 8 _ _ (by simp [hpre, hpad1, store_le_length]) (by norm_num; omega)
  · have e : pre ++ (entry_image ⟨proto, src, dst, sp, dp, rate, burst, ntok, tsc, ntags, tags⟩
        pad1 pad2 ++ trailer)
        = (pre ++ [proto] ++ pad1 ++ store_le 4 src ++ store_le 4 dst ++ store_le 2 sp
          ++ store_le 2 dp ++ store_le 8 rate ++ store_le 8 burst) ++ (store_le 8 ntok
          ++ (store_le 8 tsc ++ store_le 2 ntags ++ tags_bytes tags ++ pad2 ++ trailer)) := by
      simp [entry_image, List.append_assoc]
    rw [e]
    exact load_le_field _ _ 8 _ _ (by simp [hpre, hpad1, store_le_length]) (by norm_num; omega)
  · have e : pre ++ (entry_image ⟨proto, src, dst, sp, dp, rate, burst, ntok, tsc, ntags, tags⟩
        pad1 pad2 ++ trailer)
        = (pre ++ [proto] ++ pad1 ++ store_le 4 src ++ store_le 4 dst ++ store_le 2 sp
          ++ store_le 2 dp ++ store_le 8 rate ++ store_le 8 burst ++ store_le 8 ntok)
          ++ (store_le 8 tsc ++ (store_le 2 ntags ++ tags_bytes tags ++ pad2 ++ trailer)) := by
      simp [entry_image, List.append_assoc]
    rw [e]
    exact load_le_field _ _ 8 _ _ (by simp [hpre, hpad1, store_le_length]) (by norm_num; omega)
  · have e : pre ++ (entry_image ⟨proto, src, dst, sp, dp, rate, burst, ntok, tsc, ntags, tags⟩
        pad1 pad2 ++ trailer)
        = (pre ++ [proto] ++ pad1 ++ store_le 4 src ++ store_le 4 dst ++ store_le 2 sp
          ++ store_le 2 dp ++ store_le 8 rate ++ store_le 8 burst ++ store_le 8 ntok
          ++ store_le 8 tsc) ++ (store_le 2 ntags ++ (tags_bytes tags ++ pad2 ++ trailer)) := by
      simp [entry_image, List.append_assoc]
    rw [e]
    exact load_le_field _ _ 2 _ _ (by simp [hpre, hpad1, store_le_length]) (by norm_num; omega)
  · have e : pre ++ (entry_image ⟨proto, src, dst, sp, dp, rate, burst, ntok, tsc, ntags, tags⟩
        pad1 pad2 ++ trailer)
        = (pre ++ [proto] ++ pad1 ++ store_le 4 src ++ store_le 4 dst ++ store_le 2 sp
          ++ store_le 2 dp ++ store_le 8 rate ++ store_le 8 burst ++ store_le 8 ntok
          ++ store_le 8 tsc ++ store_le 2 ntags) ++ (tags_bytes tags ++ (pad2 ++ trailer)) := by
      simp [entry_image, List.append_assoc]
    rw [e, ← h11]
    refine Eq.trans ?_ (decode_tags tags (pre ++ [proto] ++ pad1 ++ store_le 4 src
      ++ store_le 4 dst ++ store_le 2 sp ++ store_le 2 dp ++ store_le 8 rate ++ store_le 8 burst
      ++ store_le 8 ntok ++ store_le 8 tsc ++ store_le 2 ntags) (pad2 ++ trailer) (off + 50)
      (by simp [hpre, hpad1, store_le_length]) h12)
    apply List.map_congr_left
    intro i _
    have a : off + 52 + 4 * i = off + 50 + 2 + 4 * i := by omega
    rw [a]

theorem entry_image_length (E : tagging_entry) (pad1 pad2 : List Nat)
    (ht : E.tags.length = N_TAGS) (hpad1 : pad1.length = 3) (hpad2 : pad2.length = 6) :
    (entry_image E pad1 pad2).length = SIZEOF_TAGGING_ENTRY := by
  simp [entry_image, store_le_length, tags_bytes_length, ht, hpad1, hpad2, N_TAGS,
    SIZEOF_TAGGING_ENTRY]

/-- What `update_table` does with a well-formed control frame for a slot of
the table. -/
theorem update_table_control_frame (cpu_freq current_tsc : Nat) (table : List tagging_entry)
    (packet : rte_mbuf) (E : tagging_entry) (p s : Nat) (mac pad1 pad2 trailer : List Nat)
    (hE : E.wf) (hidx : table_index p s < TABLE_SIZE) (hp : p < 256) (hs : s < 256)
    (hmac : mac.length = 12) (hpad1 : pad1.length = 3) (hpad2 : pad2.length = 6)
    (hdata : packet.data = control_frame mac p s E pad1 pad2 trailer) :
    update_table cpu_freq current_tsc table packet
      = some (table.set (table_index p s)
          { E with last_tsc := current_tsc, n_tokens := u64_mul cpu_freq E.n_tokens }) := by
  have himg := entry_image_length E pad1 pad2 hE.2.2.2.2.2.2.2.2.2.2.1 hpad1 hpad2
  have hlen : packet.data.length = 16 + SIZEOF_TAGGING_ENTRY + trailer.length := by
    rw [hdata]; simp [control_frame, hmac, himg]; omega
  have hty : load_le packet.data 12 2 = CTRL_ETHER_TYPE := by
    have e : packet.data = mac ++ (store_le 2 48830 ++ ([p, s] ++ entry_image E pad1 pad2
        ++ trailer)) := by
      rw [hdata]; simp [control_frame, store_le, List.append_assoc]
    rw [e]
    exact load_le_field _ _ 2 _ _ hmac (by norm_num)
  have h14 : byte_at packet.data 14 = p := by
    have e : packet.data = (mac ++ [190, 190]) ++ (p :: s :: (entry_image E pad1 pad2
        ++ trailer)) := by
      rw [hdata]; simp [control_frame, List.append_assoc]
    have h := byte_at_append_right (mac ++ [190, 190]) (p :: s :: (entry_image E pad1 pad2
        ++ trailer)) 0
    rw [← e] at h
    simp only [List.length_append, hmac, List.length_cons, List.length_nil] at h
    rw [h]; simp only [byte_at, List.getD_cons_zero]; exact Nat.mod_eq_of_lt hp
  have h15 : byte_at packet.data 15 = s := by
    have e : packet.data = (mac ++ [190, 190] ++ [p]) ++ (s :: (entry_image E pad1 pad2
        ++ trailer)) := by
      rw [hdata]; simp [control_frame, List.append_assoc]
    have h := byte_at_append_right (mac ++ [190, 190] ++ [p]) (s :: (entry_image E pad1 pad2
        ++ trailer)) 0
    rw [← e] at h
    simp only [List.length_append, hmac, List.length_cons, List.length_nil] at h
    rw [h]; simp only [byte_at, List.getD_cons_zero]; exact Nat.mod_eq_of_lt hs
  have hdec : decode_entry packet.data 16 = E := by
    have e : packet.data = (mac ++ [190, 190] ++ [p, s]) ++ (entry_image E pad1 pad2
        ++ trailer) := by
      rw [hdata]; simp [control_frame, List.append_assoc]
    rw [e]
    exact decode_entry_image E _ pad1 pad2 trailer 16 (by simp [hmac]) hE hpad1
  unfold update_table
  simp only [SIZEOF_ETHER_HDR]
  rw [if_neg (by omega), if_pos hty, if_neg (by omega)]
  simp only [h14, h15, hdec]
  rw [if_neg (by omega)]

/-- C11: control round trip. For every entry `E` that fits its C type, every
pool index `p ≤ 64` and slot `s < 3`, `update_table` at TSC reading
`current_tsc` on the frame made of a 14-byte Ethernet header with EtherType
bytes `BE BE`, the byte `p`, the byte `s` and the memory image of `E` leaves
`matching_table[p][s]` equal to `E` in every field but `last_tsc`, which is
the TSC reading, and `n_tokens`, which is `cpu_freq * E.n_tokens` modulo
`2^64`; every other element of the table is unchanged. -/
theorem control_round_trip (cpu_freq current_tsc : Nat) (table : List tagging_entry)
    (packet : rte_mbuf) (E : tagging_entry) (p s : Nat) (mac pad1 pad2 trailer : List Nat)
    (hE : E.wf) (hp : p ≤ MAX_VIRTIO_DEVICES) (hs : s < N_ENTRIES_PER_VHOST)
    (hlen : table.length = TABLE_SIZE)
    (hmac : mac.length = 12) (hpad1 : pad1.length = 3) (hpad2 : pad2.length = 6)
    (hdata : packet.data = control_frame mac p s E pad1 pad2 trailer) :
    ∃ table1, update_table cpu_freq current_tsc table packet = some table1
      ∧ table1[table_index p s]?
        = some { E with last_tsc := current_tsc, n_tokens := (cpu_freq * E.n_tokens) % 2 ^ 64 }
      ∧ (∀ k, k ≠ table_index p s → table1[k]? = table[k]?)
      ∧ table1.length = table.length := by
  have hidx : table_index p s < TABLE_SIZE := by
    unfold table_index TABLE_SIZE MAX_VIRTIO_DEVICES N_ENTRIES_PER_VHOST at *; omega
  refine ⟨_, update_table_control_frame cpu_freq current_tsc table packet E p s mac pad1 pad2
    trailer hE hidx (by unfold MAX_VIRTIO_DEVICES at hp; omega)
    (by unfold N_ENTRIES_PER_VHOST at hs; omega) hmac hpad1 hpad2 hdata, ?_, ?_, ?_⟩
  · rw [List.getElem?_set_self (by omega)]; rfl
  · intro k hk; exact List.getElem?_set_ne (Ne.symm hk)
  · exact List.length_set _ _ _

set_option maxRecDepth 100000 in
/-- Witness of C11: the rule of the example, sent for row 5, slot 0, at TSC
reading 77 with `cpu_freq = 10^9`. -/
theorem control_round_trip_witness :
    ∃ table1, update_table 1000000000 77 matching_table_init
        (fresh_mbuf (control_frame (List.replicate 12 0) 5 0 (example_rule 1000000)
          [0, 0, 0] [0, 0, 0, 0, 0, 0] [])) = some table1
      ∧ table1[table_index 5 0]?
        = some { example_rule 1000000 with
            last_tsc := 77, n_tokens := (1000000000 * (example_rule 1000000).n_tokens) % 2 ^ 64 }
      ∧ (∀ k, k ≠ table_index 5 0 → table1[k]? = matching_table_init[k]?)
      ∧ table1.length = matching_table_init.length :=
  control_round_trip 1000000000 77 matching_table_init _ (example_rule 1000000) 5 0
    (List.replicate 12 0) [0, 0, 0] [0, 0, 0, 0, 0, 0] []
    (by unfold tagging_entry.wf; decide) (by decide) (by decide) (by decide) rfl rfl rfl rfl

/-- A frame of the control guest whose EtherType is not the sentinel leaves
the table as it is. -/
theorem update_table_other_ether_type (cpu_freq current_tsc : Nat) (table : List tagging_entry)
    (packet : rte_mbuf) (hlen : SIZEOF_ETHER_HDR ≤ packet.data.length)
    (hty : load_le packet.data 12 2 ≠ CTRL_ETHER_TYPE) :
    update_table cpu_freq current_tsc table packet = some table := by
  unfold update_table
  rw [if_neg (by omega), if_neg hty]

set_option maxRecDepth 100000 in
/-- C12, the code at failing inputs: `update_table` has no test on the two
index bytes. A control frame with pool index 0 and rule slot 3 (not below
`N_ENTRIES_PER_VHOST`) is not dropped: it overwrites element `0 * 3 + 3` of
the array, which is `matching_table[1][0]`. A frame with pool index 65, or
with pool index 64 and slot 3, writes past the end of the array. -/
theorem out_of_range_indices_not_dropped :
    matching_table_init[table_index 1 0]? = some zero_entry
    ∧ (update_table 1000000000 0 matching_table_init (ctrl_frame 0 3 1000000 2)).map
        (fun t => t[table_index 1 0]?)
      = some (some (five_tuple_entry 1000000 1000000000000000 0 2))
    ∧ update_table 1000000000 0 matching_table_init (ctrl_frame 0 3 1000000 2)
      ≠ some matching_table_init
    ∧ update_table 1000000000 0 matching_table_init (ctrl_frame 65 0 1000000 2) = none
    ∧ update_table 1000000000 0 matching_table_init (ctrl_frame 64 3 1000000 2) = none := by
  decide

theorem refill_eq_iff (cpu_freq current_tsc : Nat) (e e1 : tagging_entry)
    (h : e1 = { e with last_tsc := current_tsc, n_tokens := e1.n_tokens }) :
    e1 = refill cpu_freq current_tsc e
      ↔ (refill cpu_freq current_tsc e).n_tokens = e1.n_tokens := by
  constructor
  · intro heq; rw [← heq]
  · intro hn
    rw [h, ← hn]
    unfold refill
    simp only []
    split <;> rfl

set_option maxRecDepth 100000 in
/-- C13 fails as stated: with `cpu_freq = 10^9`, the rule of the example
loaded with no initial tokens at TSC reading 0 and loaded again at reading 1000
has no tokens, whereas loading it once and running the refill step at reading
1000 leaves `1000 * 10^9` tokens. -/
theorem reapply_is_not_refill :
    ((update_table 1000000000 0 matching_table_init (ctrl_frame 5 0 0 2)).bind
        (fun t => update_table 1000000000 1000 t (ctrl_frame 5 0 0 2))).map
        (fun t => (t[table_index 5 0]?).map (fun e => e.n_tokens)) = some (some 0)
    ∧ (update_table 1000000000 0 matching_table_init (ctrl_frame 5 0 0 2)).map
        (fun t => (t[table_index 5 0]?).map (fun e => (refill 1000000000 1000 e).n_tokens))
      = some (some 1000000000000)
    ∧ ((update_table 1000000000 0 matching_table_init (ctrl_frame 5 0 0 2)).bind
        (fun t => update_table 1000000000 1000 t (ctrl_frame 5 0 0 2))).map
        (fun t => t[table_index 5 0]?)
      ≠ (update_table 1000000000 0 matching_table_init (ctrl_frame 5 0 0 2)).map
        (fun t => (t[table_index 5 0]?).map (refill 1000000000 1000)) := by
  decide

/-- C13 as amended: for every valid control frame and TSC readings `t1`, `t2`,
applying `update_table` at `t1` and again at `t2` gives the table that
applying it once at `t2` gives: the entry is reloaded, with `last_tsc = t2` and
`n_tokens = cpu_freq * E.n_tokens` modulo `2^64`. This entry is the one that a
single application at `t1` followed by the refill step at `t2` leaves exactly
when that refill step leaves `n_tokens` at `cpu_freq * E.n_tokens`. -/
theorem reapply_reloads_entry (cpu_freq t1 t2 : Nat) (table : List tagging_entry)
    (packet : rte_mbuf) (E : tagging_entry) (p s : Nat) (mac pad1 pad2 trailer : List Nat)
    (hE : E.wf) (hp : p ≤ MAX_VIRTIO_DEVICES) (hs : s < N_ENTRIES_PER_VHOST)
    (hmac : mac.length = 12) (hpad1 : pad1.length = 3) (hpad2 : pad2.length = 6)
    (hdata : packet.data = control_frame mac p s E pad1 pad2 trailer) :
    (update_table cpu_freq t1 table packet).bind
        (fun table1 => update_table cpu_freq t2 table1 packet)
      = update_table cpu_freq t2 table packet
    ∧ update_table cpu_freq t2 table packet
      = some (table.set (table_index p s)
          { E with last_tsc := t2, n_tokens := u64_mul cpu_freq E.n_tokens })
    ∧ (({ E with last_tsc := t2, n_tokens := u64_mul cpu_freq E.n_tokens } : tagging_entry)
          = refill cpu_freq t2 { E with last_tsc := t1, n_tokens := u64_mul cpu_freq E.n_tokens }
        ↔ (refill cpu_freq t2
            { E with last_tsc := t1, n_tokens := u64_mul cpu_freq E.n_tokens }).n_tokens
          = u64_mul cpu_freq E.n_tokens) := by
  have hidx : table_index p s < TABLE_SIZE := by
    unfold table_index TABLE_SIZE MAX_VIRTIO_DEVICES N_ENTRIES_PER_VHOST at *; omega
  have hp2 : p < 256 := by unfold MAX_VIRTIO_DEVICES at hp; omega
  have hs2 : s < 256 := by unfold N_ENTRIES_PER_VHOST at hs; omega
  have h1 := update_table_control_frame cpu_freq t1 table packet E p s mac pad1 pad2 trailer
    hE hidx hp2 hs2 hmac hpad1 hpad2 hdata
  have h2 := update_table_control_frame cpu_freq t2 table packet E p s mac pad1 pad2 trailer
    hE hidx hp2 hs2 hmac hpad1 hpad2 hdata
  refine ⟨?_, h2, ?_⟩
  · rw [h1, h2, Option.some_bind,
      update_table_control_frame cpu_freq t2 _ packet E p s mac pad1 pad2 trailer
        hE hidx hp2 hs2 hmac hpad1 hpad2 hdata, List.set_set]
  · exact refill_eq_iff cpu_freq t2 _ _ rfl

set_option maxRecDepth 100000 in
/-- Witness of C13 as amended: the rule of the example for row 5, slot 0,
loaded at TSC readings 0 and 1000. -/
theorem reapply_reloads_entry_witness :
    update_table 1000000000 1000 matching_table_init
        (fresh_mbuf (control_frame (List.replicate 12 0) 5 0 (example_rule 0)
          [0, 0, 0] [0, 0, 0, 0, 0, 0] []))
      = some (matching_table_init.set (table_index 5 0)
          { example_rule 0 with
            last_tsc := 1000, n_tokens := u64_mul 1000000000 (example_rule 0).n_tokens }) :=
  (reapply_reloads_entry 1000000000 0 1000 matching_table_init _ (example_rule 0) 5 0
    (List.replicate 12 0) [0, 0, 0] [0, 0, 0, 0, 0, 0] []
    (by unfold tagging_entry.wf; decide) (by decide) (by decide) rfl rfl rfl rfl).2.1

/-! ### MAC learning -/

theorem byte_at_mod (l : List Nat) (i : Nat) : byte_at l i % 256 = byte_at l i := by
  unfold byte_at; exact Nat.mod_mod _ _

theorem learned_mac_last_byte (data : List Nat) :
    byte_at (bytes_at data RTE_ETHER_ADDR_LEN RTE_ETHER_ADDR_LEN) 5 = byte_at data 11 := by
  simp only [bytes_at, RTE_ETHER_ADDR_LEN, List.range_succ, List.range_zero, List.nil_append,
    List.map_append, List.map_cons, List.map_nil, List.cons_append]
  have h : byte_at [byte_at data (6 + 0), byte_at data (6 + 1), byte_at data (6 + 2),
      byte_at data (6 + 3), byte_at data (6 + 4), byte_at data (6 + 5)] 5
      = byte_at data (6 + 5) % 256 := by
    simp [byte_at]
  rw [h, byte_at_mod]

theorem vlan_tags_at (p : Nat) (hp : p < 64) : vlan_tags[p]? = some (p + 1) := by
  have h : vlan_tags = (List.range 64).map (fun i => i + 1) := by decide
  rw [h, List.getElem?_map, List.getElem?_range hp]
  rfl

theorem get_pool_id_of_rem (mac : List Nat) (n p : Nat) (h : byte_at mac 5 % (n + 1) = p + 1) :
    GET_POOL_ID mac n = (p : Int) := by
  unfold GET_POOL_ID; rw [h]; push_cast; omega

theorem get_pool_id_of_rem_zero (mac : List Nat) (n : Nat) (h : byte_at mac 5 % (n + 1) = 0) :
    GET_POOL_ID mac n = -1 := by
  unfold GET_POOL_ID; rw [h]; rfl

/-- C14: a guest whose first TX packet has source MAC `m` with
`p = (m[5] mod (num_pools + 1)) - 1 ≥ 0`, pool `p` free and the NIC accepting
the MAC: `link_vmdq` returns 0 and leaves the guest with `mac = m`,
`pool_id = p`, `vlan_tag = vlan_tags[p] = p + 1`,
`vmdq_rx_q = p * queues_per_pool + vmdq_queue_base`, state DataRx, pool bit `p`
set and every other pool bit unchanged. -/
theorem link_vmdq_binds_pool (conf : switch_conf) (stray : Bool) (pools_used : List Bool)
    (lcores : List lcore_info) (pool_allocation_failure : Nat) (vdev : vhost_dev)
    (m : rte_mbuf) (p : Nat)
    (hlen : 12 ≤ m.data.length)
    (hp : byte_at m.data 11 % (conf.num_virtio_devices + 1) = p + 1)
    (hsize : pools_used.length = 64)
    (hfree : pools_used[p]? = some false)
    (hq : p * conf.queues_per_pool + conf.vmdq_queue_base < 2 ^ 16) :
    link_vmdq conf 0 stray pools_used lcores pool_allocation_failure vdev m
      = some ⟨0, { vdev with
            mac_address := bytes_at m.data 6 6
            pool_id := p
            vlan_tag := p + 1
            vmdq_rx_q := p * conf.queues_per_pool + conf.vmdq_queue_base
            ready := DEVICE_DATA_RX },
          pools_used.set p true, lcores, pool_allocation_failure⟩
    ∧ vlan_tags[p]? = some (p + 1)
    ∧ (pools_used.set p true)[p]? = some true
    ∧ ∀ k, k ≠ p → (pools_used.set p true)[k]? = pools_used[k]? := by
  have hp64 : p < 64 := by
    rcases Nat.lt_or_ge p pools_used.length with h | h
    · omega
    · rw [List.getElem?_eq_none h] at hfree; simp at hfree
  have hid : GET_POOL_ID (bytes_at m.data RTE_ETHER_ADDR_LEN RTE_ETHER_ADDR_LEN)
      conf.num_virtio_devices = (p : Int) :=
    get_pool_id_of_rem _ _ _ (by rw [learned_mac_last_byte]; exact hp)
  refine ⟨?_, vlan_tags_at p hp64, List.getElem?_set_self (by omega),
    fun k hk => List.getElem?_set_ne (Ne.symm hk)⟩
  unfold link_vmdq
  simp only [RTE_ETHER_ADDR_LEN]
  rw [if_neg (by omega)]
  simp only [RTE_ETHER_ADDR_LEN] at hid
  simp only [hid, pools_used_at]
  have h1 : ¬ ((p : Int) = -1) := by omega
  have h2 : ¬ ((p : Int) < 0) := by omega
  simp only [h1, h2, if_false, Int.toNat_ofNat, hfree, ne_eq, not_false_eq_true, if_true,
    vlan_tags_at p hp64, not_true_eq_false]
  rw [Nat.mod_eq_of_lt hq, Nat.mod_eq_of_lt (by omega : p < 2 ^ 16)]

set_option maxRecDepth 100000 in
/-- Witness of C14: a MAC address ending in `05` with 8 pools binds pool 4
with VLAN tag 5. -/
theorem link_vmdq_binds_pool_witness :
    link_vmdq example_conf 0 false pools_used_init new_guest_lcores 0 new_guest (frame_from 5)
      = some ⟨0, { new_guest with
            mac_address := [0, 0, 0, 0, 0, 5], pool_id := 4, vlan_tag := 5, vmdq_rx_q := 4,
            ready := DEVICE_DATA_RX },
          pools_used_init.set 4 true, new_guest_lcores, 0⟩ :=
  (link_vmdq_binds_pool example_conf false pools_used_init new_guest_lcores 0 new_guest
    (frame_from 5) 4 (by decide) (by decide) (by decide) (by decide) (by decide)).1

/-- What `link_vmdq` does for a MAC address that maps to -1 when the byte in
front of `pools_used` is zero: the guest becomes the control guest. -/
theorem link_vmdq_control_of_clean_byte (conf : switch_conf) (mac_addr_add_ret : Int)
    (pools_used : List Bool) (lcores : List lcore_info) (pool_allocation_failure : Nat)
    (vdev : vhost_dev) (m : rte_mbuf) (lc : lcore_info)
    (hlen : 12 ≤ m.data.length)
    (hp : byte_at m.data 11 % (conf.num_virtio_devices + 1) = 0)
    (hlc : lcores[vdev.rx_coreid]? = some lc) (hmem : vdev.vid ∈ lc.rx_vdev_list) :
    link_vmdq conf mac_addr_add_ret false pools_used lcores pool_allocation_failure vdev m
      = some ⟨0, { vdev with
            mac_address := bytes_at m.data 6 6, rx_coreid := 0, ready := DEVICE_CONTROL },
          pools_used,
          lcores.set vdev.rx_coreid { lc with
            device_num := u32_sub lc.device_num 1
            rx_vdev_list := lc.rx_vdev_list.erase vdev.vid },
          pool_allocation_failure⟩ := by
  have hid : GET_POOL_ID (bytes_at m.data RTE_ETHER_ADDR_LEN RTE_ETHER_ADDR_LEN)
      conf.num_virtio_devices = -1 :=
    get_pool_id_of_rem_zero _ _ (by rw [learned_mac_last_byte]; exact hp)
  unfold link_vmdq
  simp only [RTE_ETHER_ADDR_LEN] at hid ⊢
  rw [if_neg (by omega)]
  simp only [hid, pools_used_at, if_true, ne_eq, not_true_eq_false, if_false, hlc, hmem]

/-- What `link_vmdq` does for a MAC address that maps to -1 when the byte in
front of `pools_used` is not zero: it reports a collision. -/
theorem link_vmdq_control_of_stray_byte (conf : switch_conf) (mac_addr_add_ret : Int)
    (pools_used : List Bool) (lcores : List lcore_info) (pool_allocation_failure : Nat)
    (vdev : vhost_dev) (m : rte_mbuf)
    (hlen : 12 ≤ m.data.length)
    (hp : byte_at m.data 11 % (conf.num_virtio_devices + 1) = 0) :
    link_vmdq conf mac_addr_add_ret true pools_used lcores pool_allocation_failure vdev m
      = some ⟨-1, { vdev with mac_address := bytes_at m.data 6 6 }, pools_used, lcores,
          if pool_allocation_failure = 0 then 1 else pool_allocation_failure⟩ := by
  have hid : GET_POOL_ID (bytes_at m.data RTE_ETHER_ADDR_LEN RTE_ETHER_ADDR_LEN)
      conf.num_virtio_devices = -1 :=
    get_pool_id_of_rem_zero _ _ (by rw [learned_mac_last_byte]; exact hp)
  unfold link_vmdq
  simp only [RTE_ETHER_ADDR_LEN] at hid ⊢
  rw [if_neg (by omega)]
  simp only [hid, pools_used_at, if_true]

set_option maxRecDepth 100000 in
/-- C15, the code at a failing input: for the guest that `new_device` made,
a first packet from a MAC address ending in `00` gives `pool_id = -1`, and
`link_vmdq` reads `pools_used[-1]`, the byte in front of the array, before it
tests `pool_id != -1`. If that byte is not zero it returns -1 and the guest
stays in MacLearning, on its RX core; only if it is zero does the guest enter
Control. -/
theorem control_mac_reads_in_front_of_pools_used :
    GET_POOL_ID (bytes_at (frame_from 0).data 6 6) example_conf.num_virtio_devices = -1
    ∧ (∀ stray, pools_used_at pools_used_init stray (-1) = some stray)
    ∧ link_vmdq example_conf 0 true pools_used_init new_guest_lcores 0 new_guest (frame_from 0)
      = some ⟨-1, new_guest, pools_used_init, new_guest_lcores, 1⟩
    ∧ new_guest.ready = DEVICE_MAC_LEARNING
    ∧ link_vmdq example_conf 0 false pools_used_init new_guest_lcores 0 new_guest (frame_from 0)
      = some ⟨0, { new_guest with rx_coreid := 0, ready := DEVICE_CONTROL }, pools_used_init,
          [⟨0, 0, [], []⟩, ⟨1, 0, [0], []⟩, ⟨0, 0, [], []⟩, ⟨0, 0, [], []⟩], 0⟩ := by
  refine ⟨by decide, fun stray => rfl, by decide, by decide, by decide⟩

theorem link_vmdq_collision (conf : switch_conf) (mac_addr_add_ret : Int) (stray : Bool)
    (pools_used : List Bool) (lcores : List lcore_info) (pool_allocation_failure : Nat)
    (vdev : vhost_dev) (m : rte_mbuf) (p : Nat)
    (hlen : 12 ≤ m.data.length)
    (hp : byte_at m.data 11 % (conf.num_virtio_devices + 1) = p + 1)
    (hused : pools_used[p]? = some true) :
    link_vmdq conf mac_addr_add_ret stray pools_used lcores pool_allocation_failure vdev m
      = some ⟨-1, { vdev with mac_address := bytes_at m.data 6 6 }, pools_used, lcores,
          if pool_allocation_failure = 0 then 1 else pool_allocation_failure⟩ := by
  have hid : GET_POOL_ID (bytes_at m.data RTE_ETHER_ADDR_LEN RTE_ETHER_ADDR_LEN)
      conf.num_virtio_devices = (p : Int) :=
    get_pool_id_of_rem _ _ _ (by rw [learned_mac_last_byte]; exact hp)
  unfold link_vmdq
  simp only [RTE_ETHER_ADDR_LEN] at hid ⊢
  rw [if_neg (by omega)]
  have h1 : ¬ ((p : Int) = -1) := by omega
  have h2 : ¬ ((p : Int) < 0) := by omega
  simp only [hid, pools_used_at, h1, h2, if_false, Int.toNat_ofNat, hused]

/-- C16: for a guest in MacLearning whose derived pool `p` is already marked
used, `link_vmdq` returns -1, the guest stays in MacLearning and the pool bits
are unchanged; `drain_virtio_tx` then frees every packet of the burst, offers
none to the NIC, queues none, and decodes none (table and counters are
unchanged). -/
theorem pool_collision_frees_burst (conf : switch_conf) (env : tx_env) (s : tx_state)
    (m : rte_mbuf) (rest : List rte_mbuf) (p : Nat)
    (hstate : s.vdev.ready = DEVICE_MAC_LEARNING)
    (hlen : 12 ≤ m.data.length)
    (hp : byte_at m.data 11 % (conf.num_virtio_devices + 1) = p + 1)
    (hused : s.pools_used[p]? = some true) :
    (∃ lr, link_vmdq conf env.mac_addr_add_ret env.stray s.pools_used s.lcore_info
        s.pool_allocation_failure s.vdev m = some lr
      ∧ lr.ret = -1 ∧ lr.vdev.ready = DEVICE_MAC_LEARNING ∧ lr.pools_used = s.pools_used)
    ∧ ∃ r, drain_virtio_tx conf env s (m :: rest) = some r
      ∧ r.vdev.ready = DEVICE_MAC_LEARNING
      ∧ r.pools_used = s.pools_used
      ∧ r.freed = s.freed ++ (m :: rest).reverse
      ∧ r.offered = s.offered ∧ r.flushes = s.flushes ∧ r.tx_q = s.tx_q
      ∧ r.matching_table = s.matching_table ∧ r.vdev.stats = s.vdev.stats := by
  have hl := link_vmdq_collision conf env.mac_addr_add_ret env.stray s.pools_used s.lcore_info
    s.pool_allocation_failure s.vdev m p hlen hp hused
  refine ⟨⟨_, hl, rfl, hstate, rfl⟩, ?_⟩
  have hne : ¬ (DEVICE_MAC_LEARNING = DEVICE_CONTROL) := by decide
  have hne2 : ¬ (DEVICE_MAC_LEARNING = DEVICE_DATA_RX) := by decide
  unfold drain_virtio_tx learn_mac
  simp only [hstate, if_true]
  by_cases hr : s.vdev.remove ≠ 0
  · rw [if_pos hr]
    simp only [hstate, hne, hne2, if_false]
    exact ⟨_, rfl, hstate, rfl, rfl, rfl, rfl, rfl, rfl, rfl⟩
  · rw [if_neg hr, hl]
    simp only [if_true, hstate, hne, hne2, if_false]
    exact ⟨_, rfl, rfl, rfl, rfl, rfl, rfl, rfl, rfl, rfl⟩

set_option maxRecDepth 100000 in
/-- Witness of C16: pool 4 is taken and a second guest sends a burst of two
frames from a MAC address ending in `05`. -/
theorem pool_collision_frees_burst_witness :
    ∃ r, drain_virtio_tx example_conf (example_env false)
        (tx_state_of new_guest (pools_used_init.set 4 true) new_guest_lcores)
        [frame_from 5, frame_from 5] = some r
      ∧ r.vdev.ready = DEVICE_MAC_LEARNING
      ∧ r.pools_used = pools_used_init.set 4 true
      ∧ r.freed = [] ++ [frame_from 5, frame_from 5].reverse
      ∧ r.offered = [] ∧ r.flushes = 0 ∧ r.tx_q = ⟨0, []⟩
      ∧ r.matching_table = matching_table_init ∧ r.vdev.stats = new_guest.stats :=
  (pool_collision_frees_burst example_conf (example_env false)
    (tx_state_of new_guest (pools_used_init.set 4 true) new_guest_lcores)
    (frame_from 5) [frame_from 5] 4 (by decide) (by decide) (by decide) (by decide)).2

/-! ### What the TX worker leaves of the lifecycle -/

theorem tag_matched_vdev (cpu_freq do_shape current_tsc : Nat) (e : tagging_entry)
    (packet : rte_mbuf) (vdev : vhost_dev) (mr : match_result)
    (h : tag_matched cpu_freq do_shape current_tsc e packet vdev = some mr) :
    mr.vdev = vdev
    ∨ (mr.ret = 0 ∧ mr.vdev = { vdev with stats := { vdev.stats with
        tx_dropped := u64_add vdev.stats.tx_dropped 1 } }) := by
  unfold tag_matched at h
  by_cases h0 : e.n_tags = 0
  · rw [if_pos h0] at h
    simp only [Option.some.injEq] at h; subst h; exact Or.inl rfl
  · rw [if_neg h0] at h
    simp only [] at h
    generalize (if do_shape ≠ 0 then
      shaper cpu_freq current_tsc (load_le packet.data (SIZEOF_ETHER_HDR + 2) 2) e
      else (e, true)) = sh at h
    split at h
    · simp only [Option.some.injEq] at h; subst h; exact Or.inr ⟨rfl, rfl⟩
    · split at h
      · simp only [Option.some.injEq] at h; subst h; exact Or.inl rfl
      · split at h
        · simp only [Option.some.injEq] at h; subst h; exact Or.inl rfl
        · split at h
          · simp at h
          · simp only [Option.some.injEq] at h; subst h
            split <;> exact Or.inl rfl

theorem tag_packet_loop_vdev (cpu_freq do_shape current_tsc : Nat) (table : List tagging_entry)
    (packet : rte_mbuf) (vdev : vhost_dev) (n start : Nat) (r : tag_result)
    (h : tag_packet_loop cpu_freq do_shape current_tsc table packet vdev n start = some r) :
    r.vdev = vdev
    ∨ (r.ret = 0 ∧ r.vdev = { vdev with stats := { vdev.stats with
        tx_dropped := u64_add vdev.stats.tx_dropped 1 } }) := by
  rcases tag_packet_loop_some _ _ _ _ _ _ _ _ _ h with ⟨hr, _⟩ | ⟨i, e, mr, _, _, _, _, _, hm, hr⟩
  · subst hr; exact Or.inl rfl
  · subst hr; exact tag_matched_vdev _ _ _ _ _ _ _ hm

theorem tag_packet_vdev (cpu_freq do_shape current_tsc : Nat) (table : List tagging_entry)
    (packet : rte_mbuf) (vdev : vhost_dev) (r : tag_result)
    (h : tag_packet cpu_freq do_shape current_tsc table packet vdev = some r) :
    r.vdev = vdev
    ∨ (r.ret = 0 ∧ r.vdev = { vdev with stats := { vdev.stats with
        tx_dropped := u64_add vdev.stats.tx_dropped 1 } }) := by
  unfold tag_packet at h
  split at h
  · simp at h
  · split at h
    · split at h
      · simp at h
      · split at h
        · exact tag_packet_loop_vdev _ _ _ _ _ _ _ _ _ h
        · simp only [Option.some.injEq] at h; subst h; exact Or.inl rfl
    · simp only [Option.some.injEq] at h; subst h; exact Or.inl rfl

theorem same_lifecycle_refl (s : tx_state) : same_lifecycle s s :=
  ⟨rfl, rfl, rfl, rfl⟩

theorem same_lifecycle_trans (a b c : tx_state) (h1 : same_lifecycle a b)
    (h2 : same_lifecycle b c) : same_lifecycle a c := by
  obtain ⟨h11, h12, h13, h14⟩ := h1
  obtain ⟨h21, h22, h23, h24⟩ := h2
  refine ⟨?_, by rw [h22, h12], by rw [h23, h13], by rw [h24, h14]⟩
  unfold same_but_stats at *
  rw [h21, h11]

theorem flush_tx_q_same_lifecycle (env : tx_env) (s : tx_state) :
    same_lifecycle s (flush_tx_q env s) :=
  ⟨rfl, rfl, rfl, rfl⟩

theorem flush_if_full_same_lifecycle (env : tx_env) (s : tx_state) :
    same_lifecycle s (flush_if_full env s) := by
  unfold flush_if_full
  split
  · exact flush_tx_q_same_lifecycle env s
  · exact same_lifecycle_refl s

theorem enqueue_tagged_same_lifecycle (s s1 : tx_state) (pkt : rte_mbuf)
    (h : enqueue_tagged s pkt = some s1) : same_lifecycle s s1 := by
  unfold enqueue_tagged at h
  split at h
  · simp at h
  · simp only [Option.some.injEq] at h; subst h; exact ⟨rfl, rfl, rfl, rfl⟩

theorem control_loop_same_lifecycle (conf : switch_conf) (env : tx_env) (pkts : List rte_mbuf) :
    ∀ (i : Nat) (s r : tx_state), control_loop conf env pkts i s = some r →
      same_lifecycle s r := by
  induction pkts with
  | nil =>
    intro i s r h
    simp only [control_loop, Option.some.injEq] at h
    subst h; exact same_lifecycle_refl s
  | cons pkt rest ih =>
    intro i s r h
    simp only [control_loop] at h
    split at h
    · simp at h
    · refine same_lifecycle_trans _ _ _ ?_ (ih _ _ _ h)
      exact ⟨rfl, rfl, rfl, rfl⟩

theorem data_loop_same_lifecycle (conf : switch_conf) (env : tx_env) (pkts : List rte_mbuf) :
    ∀ (i : Nat) (s r : tx_state), data_loop conf env pkts i s = some r →
      same_lifecycle s r := by
  induction pkts with
  | nil =>
    intro i s r h
    simp only [data_loop, Option.some.injEq] at h
    subst h; exact same_lifecycle_refl s
  | cons pkt rest ih =>
    intro i s r h
    simp only [data_loop] at h
    split at h
    · split at h
      · simp at h
      · rename_i tr htr
        have hv : same_but_stats s.vdev tr.vdev := by
          rcases tag_packet_vdev _ _ _ _ _ _ _ htr with hv | ⟨_, hv⟩
          · unfold same_but_stats; rw [hv]
          · unfold same_but_stats; rw [hv]
        split at h
        · split at h
          · simp at h
          · rename_i s3 hs3
            refine same_lifecycle_trans _ _ _ ?_ (ih _ _ _ h)
            refine same_lifecycle_trans _ _ _ ?_ (flush_if_full_same_lifecycle env _)
            refine same_lifecycle_trans _ _ _ ?_ (enqueue_tagged_same_lifecycle _ _ _ hs3)
            exact ⟨hv, rfl, rfl, rfl⟩
        · refine same_lifecycle_trans _ _ _ ?_ (ih _ _ _ h)
          refine same_lifecycle_trans _ _ _ ?_ (flush_if_full_same_lifecycle env _)
          exact ⟨hv, rfl, rfl, rfl⟩
    · split at h
      · simp at h
      · rename_i s3 hs3
        refine same_lifecycle_trans _ _ _ ?_ (ih _ _ _ h)
        refine same_lifecycle_trans _ _ _ ?_ (flush_if_full_same_lifecycle env _)
        refine same_lifecycle_trans _ _ _ ?_ (enqueue_tagged_same_lifecycle _ _ _ hs3)
        exact ⟨rfl, rfl, rfl, rfl⟩

theorem link_vmdq_ready (conf : switch_conf) (mac_addr_add_ret : Int) (stray : Bool)
    (pools_used : List Bool) (lcores : List lcore_info) (pool_allocation_failure : Nat)
    (vdev : vhost_dev) (m : rte_mbuf) (lr : link_result)
    (h : link_vmdq conf mac_addr_add_ret stray pools_used lcores pool_allocation_failure vdev m
      = some lr) :
    lr.vdev.ready = vdev.ready ∨ lr.vdev.ready = DEVICE_DATA_RX
      ∨ lr.vdev.ready = DEVICE_CONTROL := by
  unfold link_vmdq at h
  split at h
  · simp at h
  · simp only [] at h
    split at h
    · simp at h
    · simp only [Option.some.injEq] at h; subst h; exact Or.inl rfl
    · split at h
      · split at h
        · simp at h
        · split at h
          · simp only [Option.some.injEq] at h; subst h; exact Or.inl rfl
          · simp only [Option.some.injEq] at h; subst h; exact Or.inr (Or.inl rfl)
      · split at h
        · simp at h
        · split at h
          · simp only [Option.some.injEq] at h; subst h; exact Or.inr (Or.inr rfl)
          · simp at h

/-- The MAC learning step either leaves the lifecycle alone, or is a call of
`link_vmdq` on a guest in MacLearning that is not marked for removal. -/
theorem learn_mac_cases (conf : switch_conf) (env : tx_env) (s s1 : tx_state)
    (pkts : List rte_mbuf) (h : learn_mac conf env s pkts = some s1) :
    (s1.vdev = s.vdev ∧ same_lifecycle s s1)
    ∨ (s.vdev.ready = DEVICE_MAC_LEARNING ∧ s.vdev.remove = 0
      ∧ ∃ m rest lr, pkts = m :: rest
        ∧ link_vmdq conf env.mac_addr_add_ret env.stray s.pools_used s.lcore_info
            s.pool_allocation_failure s.vdev m = some lr
        ∧ s1.vdev = lr.vdev ∧ s1.pools_used = lr.pools_used
        ∧ s1.lcore_info = lr.lcore_info
        ∧ s1.pool_allocation_failure = lr.pool_allocation_failure) := by
  unfold learn_mac at h
  split at h
  · simp only [Option.some.injEq] at h; subst h
    exact Or.inl ⟨rfl, same_lifecycle_refl s⟩
  · rename_i m rest
    split at h
    · rename_i hst
      split at h
      · simp only [Option.some.injEq] at h; subst h
        exact Or.inl ⟨rfl, rfl, rfl, rfl, rfl⟩
      · rename_i hrm
        split at h
        · simp at h
        · rename_i lr hlr
          refine Or.inr ⟨hst, by simpa using hrm, m, rest, lr, rfl, hlr, ?_⟩
          split at h
          · simp only [Option.some.injEq] at h; subst h; exact ⟨rfl, rfl, rfl, rfl⟩
          · simp only [Option.some.injEq] at h; subst h; exact ⟨rfl, rfl, rfl, rfl⟩
    · simp only [Option.some.injEq] at h; subst h
      exact Or.inl ⟨rfl, same_lifecycle_refl s⟩

theorem drain_virtio_tx_cases (conf : switch_conf) (env : tx_env) (s r : tx_state)
    (pkts : List rte_mbuf) (h : drain_virtio_tx conf env s pkts = some r) :
    ∃ s1, learn_mac conf env s pkts = some s1 ∧ same_lifecycle s1 r := by
  unfold drain_virtio_tx at h
  split at h
  · simp at h
  · rename_i s1 hs1
    refine ⟨s1, hs1, ?_⟩
    split at h
    · exact control_loop_same_lifecycle _ _ _ _ _ _ h
    · split at h
      · split at h
        · simp at h
        · rename_i s2 hs2
          have h2 := data_loop_same_lifecycle _ _ _ _ _ _ hs2
          split at h
          · simp only [Option.some.injEq] at h; subst h
            exact same_lifecycle_trans _ _ _ h2 (flush_tx_q_same_lifecycle env s2)
          · simp only [Option.some.injEq] at h; subst h; exact h2
      · simp only [Option.some.injEq] at h; subst h; exact same_lifecycle_refl _

theorem same_lifecycle_ready (s r : tx_state) (h : same_lifecycle s r) :
    r.vdev.ready = s.vdev.ready := by
  have h1 := h.1
  unfold same_but_stats at h1
  rw [h1]

theorem drain_virtio_tx_ready (conf : switch_conf) (env : tx_env) (s r : tx_state)
    (pkts : List rte_mbuf) (h : drain_virtio_tx conf env s pkts = some r) :
    r.vdev.ready = s.vdev.ready
    ∨ (s.vdev.ready = DEVICE_MAC_LEARNING
      ∧ (r.vdev.ready = DEVICE_DATA_RX ∨ r.vdev.ready = DEVICE_CONTROL)) := by
  obtain ⟨s1, hs1, hlife⟩ := drain_virtio_tx_cases conf env s r pkts h
  have hr := same_lifecycle_ready s1 r hlife
  rcases learn_mac_cases conf env s s1 pkts hs1 with ⟨hv, _⟩ | ⟨hst, _, m, rest, lr, _, hl, hv, _⟩
  · left; rw [hr, hv]
  · rcases link_vmdq_ready _ _ _ _ _ _ _ _ _ hl with h1 | h1 | h1
    · left; rw [hr, hv, h1]
    · right; exact ⟨hst, Or.inl (by rw [hr, hv, h1])⟩
    · right; exact ⟨hst, Or.inr (by rw [hr, hv, h1])⟩

/-! ### The order of the states -/

set_option maxRecDepth 100000 in
/-- C17 fails as stated: `unlink_vmdq`, and with it the RX part of an
iteration of `switch_worker` on a guest marked for removal, takes a guest in
DataRx back to MacLearning, which is lower in the order. -/
theorem unlink_vmdq_decreases_state :
    data_guest.ready = DEVICE_DATA_RX
    ∧ (unlink_vmdq example_conf (pools_used_init.set 4 true) data_guest).map
        (fun r => r.1.ready) = some DEVICE_MAC_LEARNING
    ∧ (switch_worker_rx_body example_conf 0 0 (pools_used_init.set 4 true)
        { data_guest with remove := 1 }).map (fun r => r.1.ready) = some DEVICE_MAC_LEARNING
    ∧ DEVICE_MAC_LEARNING < DEVICE_DATA_RX := by
  decide

theorem unlink_vmdq_ready (conf : switch_conf) (pools_used pools_used1 : List Bool)
    (vdev vdev1 : vhost_dev) (h : unlink_vmdq conf pools_used vdev = some (vdev1, pools_used1)) :
    if vdev.ready = DEVICE_DATA_RX ∨ vdev.ready = DEVICE_CONTROL then
      vdev1.ready = DEVICE_MAC_LEARNING
    else vdev1.ready = vdev.ready := by
  unfold unlink_vmdq at h
  split at h
  · rename_i hst
    rw [if_pos hst]
    simp only [] at h
    split at h
    · split at h
      · simp only [Option.some.injEq, Prod.mk.injEq] at h; rw [← h.1]
      · simp at h
    · simp only [Option.some.injEq, Prod.mk.injEq] at h; rw [← h.1]
  · rename_i hst
    rw [if_neg hst]
    simp only [Option.some.injEq, Prod.mk.injEq] at h; rw [← h.1]

/-- C17 as amended: in the order MacLearning < DataRx < Control < SafeRemove,
`link_vmdq` on a guest in MacLearning, `drain_eth_rx`, `drain_virtio_tx` and
the TX part of an iteration of `switch_worker` never decrease the state of the
guest. `unlink_vmdq` takes a guest in DataRx or Control back to MacLearning and
leaves the state of any other guest; the RX part of an iteration of
`switch_worker` does so for a guest marked for removal and leaves the state
of a guest that is not. -/
theorem state_never_decreases_but_on_unlink (conf : switch_conf) :
    (∀ mac_addr_add_ret stray pools_used lcores pool_allocation_failure vdev m lr,
      vdev.ready = DEVICE_MAC_LEARNING →
      link_vmdq conf mac_addr_add_ret stray pools_used lcores pool_allocation_failure vdev m
        = some lr →
      vdev.ready ≤ lr.vdev.ready ∧ lr.vdev.ready ≤ DEVICE_CONTROL)
    ∧ (∀ rx_count enqueue_count vdev,
      (drain_eth_rx rx_count enqueue_count vdev).ready = vdev.ready)
    ∧ (∀ env s pkts r, drain_virtio_tx conf env s pkts = some r →
      s.vdev.ready ≤ r.vdev.ready)
    ∧ (∀ env s pkts r, s.vdev.ready ≤ DEVICE_SAFE_REMOVE →
      switch_worker_tx_body conf env s pkts = some r → s.vdev.ready ≤ r.vdev.ready)
    ∧ (∀ pools_used vdev vdev1 pools_used1,
      unlink_vmdq conf pools_used vdev = some (vdev1, pools_used1) →
      if vdev.ready = DEVICE_DATA_RX ∨ vdev.ready = DEVICE_CONTROL then
        vdev1.ready = DEVICE_MAC_LEARNING
      else vdev1.ready = vdev.ready)
    ∧ (∀ rx_count enqueue_count pools_used vdev vdev1 pools_used1,
      switch_worker_rx_body conf rx_count enqueue_count pools_used vdev
        = some (vdev1, pools_used1) →
      if vdev.remove ≠ 0 ∧ (vdev.ready = DEVICE_DATA_RX ∨ vdev.ready = DEVICE_CONTROL) then
        vdev1.ready = DEVICE_MAC_LEARNING
      else vdev1.ready = vdev.ready) := by
  have hdrain : ∀ env s pkts r, drain_virtio_tx conf env s pkts = some r →
      s.vdev.ready ≤ r.vdev.ready := by
    intro env s pkts r h
    rcases drain_virtio_tx_ready conf env s r pkts h with h1 | ⟨h1, _⟩
    · omega
    · rw [h1]; exact Nat.zero_le _
  have hrx : ∀ rx_count enqueue_count vdev,
      (drain_eth_rx rx_count enqueue_count vdev).ready = vdev.ready := by
    intro rx_count enqueue_count vdev
    unfold drain_eth_rx; split <;> rfl
  refine ⟨?_, hrx, hdrain, ?_, fun pu vdev vdev1 pu1 h => unlink_vmdq_ready conf pu pu1 vdev vdev1 h, ?_⟩
  · intro mac_addr_add_ret stray pools_used lcores pool_allocation_failure vdev m lr hst h
    rcases link_vmdq_ready _ _ _ _ _ _ _ _ _ h with h1 | h1 | h1
    · rw [h1, hst]; exact ⟨Nat.le_refl _, by decide⟩
    · rw [h1, hst]; exact ⟨by decide, by decide⟩
    · rw [h1, hst]; exact ⟨by decide, by decide⟩
  · intro env s pkts r hle h
    unfold switch_worker_tx_body at h
    split at h
    · simp at h
    · rename_i s1 hs1
      split at h
      · simp only [Option.some.injEq] at h; subst h; exact hle
      · simp only [Option.some.injEq] at h; subst h; exact hdrain env s pkts _ hs1
  · intro rx_count enqueue_count pools_used vdev vdev1 pools_used1 h
    unfold switch_worker_rx_body at h
    split at h
    · rename_i hrm
      have hu := unlink_vmdq_ready conf _ _ _ _ h
      by_cases hst : vdev.ready = DEVICE_DATA_RX ∨ vdev.ready = DEVICE_CONTROL
      · rw [if_pos hst] at hu; rw [if_pos ⟨hrm, hst⟩]; exact hu
      · rw [if_neg hst] at hu; rw [if_neg (fun hc => hst hc.2)]; exact hu
    · rename_i hrm
      rw [if_neg (fun hc => hrm hc.1)]
      split at h
      · simp only [Option.some.injEq, Prod.mk.injEq] at h; rw [← h.1]; exact hrx _ _ _
      · simp only [Option.some.injEq, Prod.mk.injEq] at h; rw [← h.1]

set_option maxRecDepth 100000 in
/-- Witness of C17 as amended: the first burst of the guest of the examples
takes it from MacLearning to DataRx. -/
theorem state_never_decreases_but_on_unlink_witness :
    (tx_state_of new_guest pools_used_init new_guest_lcores).vdev.ready ≤ linked_state.vdev.ready
    ∧ linked_state.vdev.ready = DEVICE_DATA_RX :=
  ⟨(state_never_decreases_but_on_unlink example_conf).2.2.1 (example_env false)
      (tx_state_of new_guest pools_used_init new_guest_lcores) [frame_from 5] linked_state
      (by decide),
    by decide⟩

/-! ### Core assignment -/

set_option maxRecDepth 100000 in
/-- The guest of the examples is the one `new_device` makes first. -/
theorem new_guest_is_made :
    after_new_devices [0]
      = some { switch_state_init 4 with
          vhost_dev_list := [new_guest], lcore_info := new_guest_lcores } := by
  decide

set_option maxRecDepth 100000 in
/-- C20, the code at a failing input: with 8 pools and the worker cores 1 and
2, eight calls of `new_device` leave core 2, the only worker besides the TX
core, with `device_num = 8 = num_virtio_devices`. The second loop of the ninth
call starts from `device_num_min = num_virtio_devices` and so takes no core:
`core_add` still holds the TX core, the ninth guest gets `rx_coreid = 1 =
tx_coreid`, and core 1 is incremented twice while core 2 is not incremented. -/
theorem ninth_guest_rx_on_tx_core :
    (after_new_devices [0, 1, 2, 3, 4, 5, 6, 7]).map
        (fun s => s.lcore_info.map (fun lc => lc.device_num)) = some [0, 8, 8, 0]
    ∧ (after_new_devices [0, 1, 2, 3, 4, 5, 6, 7, 8]).map
        (fun s => (s.vhost_dev_list[8]?).map (fun v => (v.tx_coreid, v.rx_coreid)))
      = some (some (1, 1))
    ∧ (after_new_devices [0, 1, 2, 3, 4, 5, 6, 7, 8]).map
        (fun s => s.lcore_info.map (fun lc => lc.device_num)) = some [0, 10, 8, 0] := by
  decide

/-- The second loop of `new_device` on the cores `ws`: either it takes no core,
and then every core of `ws` but the TX core has at least `device_num_min`
devices, or it takes the first core of `ws`, the TX core apart, whose
`device_num` is below `device_num_min` and minimal. -/
theorem rx_core_loop_spec (lcores : List lcore_info) (tx_coreid : Nat) (ws : List Nat) :
    ∀ (device_num_min core_add m c : Nat),
      rx_core_loop lcores tx_coreid ws device_num_min core_add = some (m, c) →
      (m = device_num_min ∧ c = core_add
        ∧ ∀ w ∈ ws, w ≠ tx_coreid → ∀ lc, lcores[w]? = some lc → device_num_min ≤ lc.device_num)
      ∨ (∃ a b lc, ws = a ++ c :: b ∧ c ≠ tx_coreid ∧ lcores[c]? = some lc
        ∧ lc.device_num = m ∧ m < device_num_min
        ∧ (∀ w ∈ a, w ≠ tx_coreid → ∀ lw, lcores[w]? = some lw → m < lw.device_num)
        ∧ (∀ w ∈ b, w ≠ tx_coreid → ∀ lw, lcores[w]? = some lw → m ≤ lw.device_num)) := by
  induction ws with
  | nil =>
    intro device_num_min core_add m c h
    simp only [rx_core_loop, Option.some.injEq, Prod.mk.injEq] at h
    exact Or.inl ⟨h.1.symm, h.2.symm, fun w hw => absurd hw (List.not_mem_nil w)⟩
  | cons w rest ih =>
    intro device_num_min core_add m c h
    simp only [rx_core_loop] at h
    split at h
    · rename_i hw
      rcases ih _ _ _ _ h with ⟨h1, h2, h3⟩ | ⟨a, b, lc, h1, h2, h3, h4, h5, h6, h7⟩
      · refine Or.inl ⟨h1, h2, fun x hx hne => ?_⟩
        rcases List.mem_cons.1 hx with hx | hx
        · exact absurd (hx.trans hw) hne
        · exact h3 x hx hne
      · refine Or.inr ⟨w :: a, b, lc, by rw [h1]; rfl, h2, h3, h4, h5, fun x hx hne => ?_, h7⟩
        rcases List.mem_cons.1 hx with hx | hx
        · exact absurd (hx.trans hw) hne
        · exact h6 x hx hne
    · rename_i hw
      split at h
      · simp at h
      · rename_i lcw hlcw
        split at h
        · rename_i hlt
          rcases ih _ _ _ _ h with ⟨h1, h2, h3⟩ | ⟨a, b, lc, h1, h2, h3, h4, h5, h6, h7⟩
          · subst h1; subst h2
            exact Or.inr ⟨[], rest, lcw, rfl, hw, hlcw, rfl, hlt,
              fun x hx => absurd hx (List.not_mem_nil x), h3⟩
          · refine Or.inr ⟨w :: a, b, lc, by rw [h1]; rfl, h2, h3, h4, by omega,
              fun x hx hne lw hlw => ?_, h7⟩
            rcases List.mem_cons.1 hx with hx | hx
            · subst hx
              rw [hlcw] at hlw
              simp only [Option.some.injEq] at hlw
              rw [← hlw]; exact h5
            · exact h6 x hx hne lw hlw
        · rename_i hge
          rcases ih _ _ _ _ h with ⟨h1, h2, h3⟩ | ⟨a, b, lc, h1, h2, h3, h4, h5, h6, h7⟩
          · refine Or.inl ⟨h1, h2, fun x hx hne lw hlw => ?_⟩
            rcases List.mem_cons.1 hx with hx | hx
            · subst hx
              rw [hlcw] at hlw
              simp only [Option.some.injEq] at hlw
              rw [← hlw]; omega
            · exact h3 x hx hne lw hlw
          · refine Or.inr ⟨w :: a, b, lc, by rw [h1]; rfl, h2, h3, h4, h5,
              fun x hx hne lw hlw => ?_, h7⟩
            rcases List.mem_cons.1 hx with hx | hx
            · subst hx
              rw [hlcw] at hlw
              simp only [Option.some.injEq] at hlw
              rw [← hlw]; omega
            · exact h6 x hx hne lw hlw

/-- What `new_device` does as long as a worker core other than the first one
has fewer than `num_virtio_devices` devices: the new guest gets the first
worker core `w0` for TX, and for RX the first of the other worker cores whose
`device_num` is minimal; both cores have their `device_num` incremented. -/
theorem new_device_balances (conf : switch_conf) (w0 : Nat) (ws : List Nat) (vid ret : Int)
    (s s1 : switch_state)
    (hw0 : w0 < 2 ^ 16) (hws : ∀ w ∈ ws, w < 2 ^ 16)
    (h : new_device conf (w0 :: ws) true vid s = some (ret, s1))
    (hroom : ∃ w ∈ ws, w ≠ w0 ∧ ∃ lc, s.lcore_info[w]? = some lc
      ∧ lc.device_num < conf.num_virtio_devices) :
    ret = 0 ∧ ∃ c a b lc_tx lc_rx vdev,
      s1.vhost_dev_list = s.vhost_dev_list ++ [vdev]
      ∧ vdev.vid = vid ∧ vdev.ready = DEVICE_MAC_LEARNING
      ∧ vdev.tx_coreid = w0 ∧ vdev.rx_coreid = c
      ∧ ws = a ++ c :: b ∧ c ≠ w0
      ∧ s.lcore_info[w0]? = some lc_tx ∧ s.lcore_info[c]? = some lc_rx
      ∧ (∀ w ∈ a, w ≠ w0 → ∀ lw, s.lcore_info[w]? = some lw →
          lc_rx.device_num < lw.device_num)
      ∧ (∀ w ∈ b, w ≠ w0 → ∀ lw, s.lcore_info[w]? = some lw →
          lc_rx.device_num ≤ lw.device_num)
      ∧ (s1.lcore_info[w0]?).map (fun lc => lc.device_num)
          = some (u32_add lc_tx.device_num 1)
      ∧ (s1.lcore_info[c]?).map (fun lc => lc.device_num)
          = some (u32_add lc_rx.device_num 1) := by
  unfold new_device at h
  simp only [Bool.true_eq_false, if_false, List.headD_cons, Nat.mod_eq_of_lt hw0] at h
  split at h
  · simp at h
  · rename_i lc_tx hlc_tx
    have hlt0 : w0 < s.lcore_info.length := by
      rcases Nat.lt_or_ge w0 s.lcore_info.length with hl | hl
      · exact hl
      · rw [List.getElem?_eq_none hl] at hlc_tx; simp at hlc_tx
    split at h
    · simp at h
    · rename_i m c hloop
      have hother : ∀ w, w ≠ w0 → ∀ lw,
          (s.lcore_info.set w0 { lc_tx with
            device_num := u32_add lc_tx.device_num 1
            tx_vdev_list := lc_tx.tx_vdev_list ++ [vid] })[w]? = some lw →
          s.lcore_info[w]? = some lw := by
        intro w hw lw hlw
        rw [List.getElem?_set_ne (Ne.symm hw)] at hlw; exact hlw
      have hother2 : ∀ w, w ≠ w0 → ∀ lw, s.lcore_info[w]? = some lw →
          (s.lcore_info.set w0 { lc_tx with
            device_num := u32_add lc_tx.device_num 1
            tx_vdev_list := lc_tx.tx_vdev_list ++ [vid] })[w]? = some lw := by
        intro w hw lw hlw
        rw [List.getElem?_set_ne (Ne.symm hw)]; exact hlw
      rcases rx_core_loop_spec _ _ _ _ _ _ _ hloop with
        ⟨_, _, h3⟩ | ⟨a, b, lc, h1, h2, h3, h4, h5, h6, h7⟩
      · exfalso
        obtain ⟨w, hw, hne, lc, hlc, hlt⟩ := hroom
        have := h3 w (List.mem_cons_of_mem _ hw) hne lc (hother2 w hne lc hlc)
        omega
      · have hc16 : c < 2 ^ 16 := by
          have hmem : c ∈ w0 :: ws := by rw [h1]; simp
          rcases List.mem_cons.1 hmem with hm | hm
          · exact absurd hm h2
          · exact hws c hm
        simp only [Nat.mod_eq_of_lt hc16, h3] at h
        simp only [Option.some.injEq, Prod.mk.injEq] at h
        obtain ⟨hret, hs1⟩ := h
        have hlc := hother c h2 lc h3
        have hltc : c < s.lcore_info.length := by
          rcases Nat.lt_or_ge c s.lcore_info.length with hl | hl
          · exact hl
          · rw [List.getElem?_eq_none hl] at hlc; simp at hlc
        cases a with
        | nil =>
          simp only [List.nil_append, List.cons.injEq] at h1
          exact absurd h1.1.symm h2
        | cons x a =>
          simp only [List.cons_append, List.cons.injEq] at h1
          obtain ⟨hx, hws_eq⟩ := h1
          subst hx
          refine ⟨hret.symm, c, a, b, lc_tx, lc, _, by rw [← hs1], rfl, rfl, rfl, rfl, hws_eq, h2,
            hlc_tx, hlc, ?_, ?_, ?_, ?_⟩
          · intro w hw hne lw hlw
            have := h6 w (List.mem_cons_of_mem _ hw) hne lw (hother2 w hne lw hlw)
            omega
          · intro w hw hne lw hlw
            have := h7 w hw hne lw (hother2 w hne lw hlw)
            omega
          · rw [← hs1]
            simp only []
            rw [List.getElem?_set_ne h2, List.getElem?_set_self hlt0]
            rfl
          · rw [← hs1]
            simp only []
            rw [List.getElem?_set_self (by rw [List.length_set]; exact hltc)]
            rfl

/-! ### Pool allocation -/

theorem getElem?_set_cases (l : List vhost_dev) (k i : Nat) (v g : vhost_dev)
    (h : (l.set k v)[i]? = some g) : (i = k ∧ g = v) ∨ (i ≠ k ∧ l[i]? = some g) := by
  by_cases hik : k = i
  · subst hik
    rcases Nat.lt_or_ge k l.length with hl | hl
    · rw [List.getElem?_set_self hl] at h
      simp only [Option.some.injEq] at h
      exact Or.inl ⟨rfl, h.symm⟩
    · rw [List.getElem?_eq_none (by rw [List.length_set]; exact hl)] at h
      simp at h
  · rw [List.getElem?_set_ne hik] at h
    exact Or.inr ⟨fun hc => hik hc.symm, h⟩

/-- The invariant survives a change of guest `k` that leaves it outside DataRx
and Control and leaves the pool bits. -/
theorem pool_invariant_idle (n : Nat) (guests : List vhost_dev) (pools_used : List Bool)
    (k : Nat) (g1 : vhost_dev) (hinv : pool_invariant n guests pools_used)
    (h1 : g1.ready ≠ DEVICE_DATA_RX) (h2 : g1.ready ≠ DEVICE_CONTROL) :
    pool_invariant n (guests.set k g1) pools_used := by
  obtain ⟨hA, hB, hC⟩ := hinv
  refine ⟨?_, ?_, ?_⟩
  · intro i g hg hr
    rcases getElem?_set_cases _ _ _ _ _ hg with ⟨_, he⟩ | ⟨_, he⟩
    · subst he; exact absurd hr h1
    · exact hA i g he hr
  · intro i g hg hr
    rcases getElem?_set_cases _ _ _ _ _ hg with ⟨_, he⟩ | ⟨_, he⟩
    · subst he; exact absurd hr h2
    · exact hB i g he hr
  · intro i j gi gj hij hgi hgj hri hrj
    rcases getElem?_set_cases _ _ _ _ _ hgi with ⟨_, he⟩ | ⟨_, hei⟩
    · subst he; exact absurd hri h1
    · rcases getElem?_set_cases _ _ _ _ _ hgj with ⟨_, he⟩ | ⟨_, hej⟩
      · subst he; exact absurd hrj h1
      · exact hC i j gi gj hij hei hej hri hrj

/-- The invariant survives a change of guest `k` that leaves its state, its
MAC address, its pool and the pool bits. -/
theorem pool_invariant_same (n : Nat) (guests : List vhost_dev) (pools_used : List Bool)
    (k : Nat) (g g1 : vhost_dev) (hinv : pool_invariant n guests pools_used)
    (hg : guests[k]? = some g) (h1 : g1.ready = g.ready)
    (h2 : g1.mac_address = g.mac_address) (h3 : g1.pool_id = g.pool_id) :
    pool_invariant n (guests.set k g1) pools_used := by
  obtain ⟨hA, hB, hC⟩ := hinv
  refine ⟨?_, ?_, ?_⟩
  · intro i x hx hr
    rcases getElem?_set_cases _ _ _ _ _ hx with ⟨_, he⟩ | ⟨_, he⟩
    · subst he; rw [h2, h3]; exact hA k g hg (by rw [← h1]; exact hr)
    · exact hA i x he hr
  · intro i x hx hr
    rcases getElem?_set_cases _ _ _ _ _ hx with ⟨_, he⟩ | ⟨_, he⟩
    · subst he; rw [h2]; exact hB k g hg (by rw [← h1]; exact hr)
    · exact hB i x he hr
  · intro i j gi gj hij hgi hgj hri hrj
    rcases getElem?_set_cases _ _ _ _ _ hgi with ⟨hi, he⟩ | ⟨hi, hei⟩
    · subst he
      rcases getElem?_set_cases _ _ _ _ _ hgj with ⟨hj, _⟩ | ⟨_, hej⟩
      · exact absurd (hi.trans hj.symm) hij
      · rw [h3]; exact hC k j g gj (by omega) hg hej (by rw [← h1]; exact hri) hrj
    · rcases getElem?_set_cases _ _ _ _ _ hgj with ⟨hj, he⟩ | ⟨_, hej⟩
      · subst he; rw [h3]
        exact hC i k gi g (by omega) hei hg hri (by rw [← h1]; exact hrj)
      · exact hC i j gi gj hij hei hej hri hrj

/-- The invariant survives the binding of guest `k` to a pool that was free. -/
theorem pool_invariant_bind (n : Nat) (guests : List vhost_dev) (pools_used : List Bool)
    (k : Nat) (g1 : vhost_dev) (hinv : pool_invariant n guests pools_used)
    (h0 : g1.ready = DEVICE_DATA_RX)
    (h1 : GET_POOL_ID g1.mac_address n = (g1.pool_id : Int))
    (h2 : pools_used[g1.pool_id]? = some false) :
    pool_invariant n (guests.set k g1) (pools_used.set g1.pool_id true) := by
  obtain ⟨hA, hB, hC⟩ := hinv
  have hlt : g1.pool_id < pools_used.length := by
    rcases Nat.lt_or_ge g1.pool_id pools_used.length with hl | hl
    · exact hl
    · rw [List.getElem?_eq_none hl] at h2; simp at h2
  have hset : (pools_used.set g1.pool_id true)[g1.pool_id]? = some true :=
    List.getElem?_set_self hlt
  have hold : ∀ x : vhost_dev, pools_used[x.pool_id]? = some true →
      x.pool_id ≠ g1.pool_id ∧ (pools_used.set g1.pool_id true)[x.pool_id]? = some true := by
    intro x hx
    have hne : x.pool_id ≠ g1.pool_id := by
      intro hc; rw [hc, h2] at hx; simp at hx
    exact ⟨hne, by rw [List.getElem?_set_ne (Ne.symm hne)]; exact hx⟩
  refine ⟨?_, ?_, ?_⟩
  · intro i x hx hr
    rcases getElem?_set_cases _ _ _ _ _ hx with ⟨_, he⟩ | ⟨_, he⟩
    · subst he; exact ⟨h1, hset⟩
    · exact ⟨(hA i x he hr).1, (hold x (hA i x he hr).2).2⟩
  · intro i x hx hr
    rcases getElem?_set_cases _ _ _ _ _ hx with ⟨_, he⟩ | ⟨_, he⟩
    · subst he; rw [h0] at hr; exact absurd hr (by decide)
    · exact hB i x he hr
  · intro i j gi gj hij hgi hgj hri hrj
    rcases getElem?_set_cases _ _ _ _ _ hgi with ⟨hi, he⟩ | ⟨hi, hei⟩
    · subst he
      rcases getElem?_set_cases _ _ _ _ _ hgj with ⟨hj, _⟩ | ⟨_, hej⟩
      · exact absurd (hi.trans hj.symm) hij
      · exact Ne.symm (hold gj (hA j gj hej hrj).2).1
    · rcases getElem?_set_cases _ _ _ _ _ hgj with ⟨hj, he⟩ | ⟨_, hej⟩
      · subst he; exact (hold gi (hA i gi hei hri).2).1
      · exact hC i j gi gj hij hei hej hri hrj

/-- The invariant survives guest `k` becoming the control guest. -/
theorem pool_invariant_control (n : Nat) (guests : List vhost_dev) (pools_used : List Bool)
    (k : Nat) (g1 : vhost_dev) (hinv : pool_invariant n guests pools_used)
    (h0 : g1.ready = DEVICE_CONTROL) (h1 : GET_POOL_ID g1.mac_address n = -1) :
    pool_invariant n (guests.set k g1) pools_used := by
  obtain ⟨hA, hB, hC⟩ := hinv
  have hnd : g1.ready ≠ DEVICE_DATA_RX := by rw [h0]; decide
  refine ⟨?_, ?_, ?_⟩
  · intro i x hx hr
    rcases getElem?_set_cases _ _ _ _ _ hx with ⟨_, he⟩ | ⟨_, he⟩
    · subst he; exact absurd hr hnd
    · exact hA i x he hr
  · intro i x hx hr
    rcases getElem?_set_cases _ _ _ _ _ hx with ⟨_, he⟩ | ⟨_, he⟩
    · subst he; exact h1
    · exact hB i x he hr
  · intro i j gi gj hij hgi hgj hri hrj
    rcases getElem?_set_cases _ _ _ _ _ hgi with ⟨_, he⟩ | ⟨_, hei⟩
    · subst he; exact absurd hri hnd
    · rcases getElem?_set_cases _ _ _ _ _ hgj with ⟨_, he⟩ | ⟨_, hej⟩
      · subst he; exact absurd hrj hnd
      · exact hC i j gi gj hij hei hej hri hrj

/-- The invariant survives guest `k`, in DataRx, giving its pool back. -/
theorem pool_invariant_release (n : Nat) (guests : List vhost_dev) (pools_used : List Bool)
    (k : Nat) (g g1 : vhost_dev) (hinv : pool_invariant n guests pools_used)
    (hg : guests[k]? = some g) (hr : g.ready = DEVICE_DATA_RX)
    (h1 : g1.ready ≠ DEVICE_DATA_RX) (h2 : g1.ready ≠ DEVICE_CONTROL) :
    pool_invariant n (guests.set k g1) (pools_used.set g.pool_id false) := by
  obtain ⟨hA, hB, hC⟩ := hinv
  refine ⟨?_, ?_, ?_⟩
  · intro i x hx hrx
    rcases getElem?_set_cases _ _ _ _ _ hx with ⟨_, he⟩ | ⟨hi, he⟩
    · subst he; exact absurd hrx h1
    · have hne := hC i k x g hi he hg hrx hr
      exact ⟨(hA i x he hrx).1, by
        rw [List.getElem?_set_ne (Ne.symm hne)]; exact (hA i x he hrx).2⟩
  · intro i x hx hrx
    rcases getElem?_set_cases _ _ _ _ _ hx with ⟨_, he⟩ | ⟨_, he⟩
    · subst he; exact absurd hrx h2
    · exact hB i x he hrx
  · intro i j gi gj hij hgi hgj hri hrj
    rcases getElem?_set_cases _ _ _ _ _ hgi with ⟨_, he⟩ | ⟨_, hei⟩
    · subst he; exact absurd hri h1
    · rcases getElem?_set_cases _ _ _ _ _ hgj with ⟨_, he⟩ | ⟨_, hej⟩
      · subst he; exact absurd hrj h1
      · exact hC i j gi gj hij hei hej hri hrj

/-- The invariant survives the arrival of a guest in MacLearning. -/
theorem pool_invariant_append (n : Nat) (guests : List vhost_dev) (pools_used : List Bool)
    (g1 : vhost_dev) (hinv : pool_invariant n guests pools_used)
    (h0 : g1.ready = DEVICE_MAC_LEARNING) :
    pool_invariant n (guests ++ [g1]) pools_used := by
  obtain ⟨hA, hB, hC⟩ := hinv
  have hcases : ∀ (i : Nat) (x : vhost_dev), (guests ++ [g1])[i]? = some x →
      guests[i]? = some x ∨ x = g1 := by
    intro i x hx
    rcases Nat.lt_or_ge i guests.length with hl | hl
    · rw [List.getElem?_append_left hl] at hx; exact Or.inl hx
    · rw [List.getElem?_append_right hl] at hx
      right
      have := List.getElem?_mem hx
      simpa using this
  have hnd : g1.ready ≠ DEVICE_DATA_RX := by rw [h0]; decide
  have hnc : g1.ready ≠ DEVICE_CONTROL := by rw [h0]; decide
  refine ⟨?_, ?_, ?_⟩
  · intro i x hx hr
    rcases hcases i x hx with he | he
    · exact hA i x he hr
    · subst he; exact absurd hr hnd
  · intro i x hx hr
    rcases hcases i x hx with he | he
    · exact hB i x he hr
    · subst he; exact absurd hr hnc
  · intro i j gi gj hij hgi hgj hri hrj
    rcases hcases i gi hgi with hei | he
    · rcases hcases j gj hgj with hej | he
      · exact hC i j gi gj hij hei hej hri hrj
      · subst he; exact absurd hrj hnd
    · subst he; exact absurd hri hnd

/-- The outcomes of `link_vmdq` for the pool allocation: a failure that leaves
state and pool bits, a binding to a pool that was free, or the control guest. -/
theorem link_vmdq_cases (conf : switch_conf) (mac_addr_add_ret : Int) (stray : Bool)
    (pools_used : List Bool) (lcores : List lcore_info) (pool_allocation_failure : Nat)
    (vdev : vhost_dev) (m : rte_mbuf) (lr : link_result)
    (h : link_vmdq conf mac_addr_add_ret stray pools_used lcores pool_allocation_failure vdev m
      = some lr) :
    (lr.ret = -1 ∧ lr.vdev.ready = vdev.ready ∧ lr.pools_used = pools_used)
    ∨ (lr.ret = 0 ∧ lr.vdev.ready = DEVICE_DATA_RX
      ∧ GET_POOL_ID lr.vdev.mac_address conf.num_virtio_devices = (lr.vdev.pool_id : Int)
      ∧ pools_used[lr.vdev.pool_id]? = some false
      ∧ lr.pools_used = pools_used.set lr.vdev.pool_id true)
    ∨ (lr.ret = 0 ∧ lr.vdev.ready = DEVICE_CONTROL
      ∧ GET_POOL_ID lr.vdev.mac_address conf.num_virtio_devices = -1
      ∧ lr.pools_used = pools_used) := by
  unfold link_vmdq at h
  split at h
  · simp at h
  · simp only [] at h
    generalize hpid : GET_POOL_ID (bytes_at m.data RTE_ETHER_ADDR_LEN RTE_ETHER_ADDR_LEN)
      conf.num_virtio_devices = pool_id at h
    have hge : -1 ≤ pool_id := by
      rw [← hpid]; unfold GET_POOL_ID; omega
    have hle : pool_id < 255 := by
      rw [← hpid]; unfold GET_POOL_ID
      have h1 := byte_at_lt (bytes_at m.data RTE_ETHER_ADDR_LEN RTE_ETHER_ADDR_LEN) 5
      have h2 := Nat.mod_le (byte_at (bytes_at m.data RTE_ETHER_ADDR_LEN RTE_ETHER_ADDR_LEN) 5)
        (conf.num_virtio_devices + 1)
      omega
    split at h
    · simp at h
    · simp only [Option.some.injEq] at h; subst h; exact Or.inl ⟨rfl, rfl, rfl⟩
    · rename_i hfree
      split at h
      · rename_i hne
        have hnat : (pool_id.toNat : Int) = pool_id := Int.toNat_of_nonneg (by omega)
        have hfree2 : pools_used[pool_id.toNat]? = some false := by
          unfold pools_used_at at hfree
          rw [if_neg hne, if_neg (by omega)] at hfree
          exact hfree
        split at h
        · simp at h
        · split at h
          · simp only [Option.some.injEq] at h; subst h; exact Or.inl ⟨rfl, rfl, rfl⟩
          · simp only [Option.some.injEq] at h; subst h
            have hmod : pool_id.toNat % 2 ^ 16 = pool_id.toNat :=
              Nat.mod_eq_of_lt (by omega)
            refine Or.inr (Or.inl ⟨rfl, rfl, ?_, ?_, ?_⟩)
            · show GET_POOL_ID (bytes_at m.data RTE_ETHER_ADDR_LEN RTE_ETHER_ADDR_LEN)
                conf.num_virtio_devices = ((pool_id.toNat % 2 ^ 16 : Nat) : Int)
              rw [hmod, hnat, hpid]
            · show pools_used[pool_id.toNat % 2 ^ 16]? = some false
              rw [hmod]; exact hfree2
            · show pools_used.set pool_id.toNat true
                = pools_used.set (pool_id.toNat % 2 ^ 16) true
              rw [hmod]
      · rename_i heq
        split at h
        · simp at h
        · split at h
          · simp only [Option.some.injEq] at h; subst h
            refine Or.inr (Or.inr ⟨rfl, rfl, ?_, rfl⟩)
            show GET_POOL_ID (bytes_at m.data RTE_ETHER_ADDR_LEN RTE_ETHER_ADDR_LEN)
                conf.num_virtio_devices = -1
            rw [hpid]; simpa using heq
          · simp at h

theorem same_but_stats_fields (a b : vhost_dev) (h : same_but_stats a b) :
    b.ready = a.ready ∧ b.mac_address = a.mac_address ∧ b.pool_id = a.pool_id := by
  unfold same_but_stats at h
  rw [h]; exact ⟨rfl, rfl, rfl⟩

theorem pool_invariant_drain (conf : switch_conf) (env : tx_env) (guests : List vhost_dev)
    (k : Nat) (s r : tx_state) (pkts : List rte_mbuf)
    (hinv : pool_invariant conf.num_virtio_devices guests s.pools_used)
    (hg : guests[k]? = some s.vdev)
    (h : drain_virtio_tx conf env s pkts = some r) :
    pool_invariant conf.num_virtio_devices (guests.set k r.vdev) r.pools_used := by
  obtain ⟨s1, hs1, hlife⟩ := drain_virtio_tx_cases conf env s r pkts h
  obtain ⟨hf1, hf2, hf3⟩ := same_but_stats_fields _ _ hlife.1
  have hpu := hlife.2.1
  rcases learn_mac_cases conf env s s1 pkts hs1 with
    ⟨hv, hl⟩ | ⟨hst, _, m, rest, lr, _, hlink, hv, hp, _, _⟩
  · rw [hpu, hl.2.1]
    exact pool_invariant_same _ _ _ k s.vdev r.vdev hinv hg (by rw [hf1, hv])
      (by rw [hf2, hv]) (by rw [hf3, hv])
  · rw [hv] at hf1 hf2 hf3
    rw [hpu, hp]
    rcases link_vmdq_cases _ _ _ _ _ _ _ _ _ hlink with
      ⟨_, h1, h2⟩ | ⟨_, h1, h2, h3, h4⟩ | ⟨_, h1, h2, h3⟩
    · rw [h2]
      exact pool_invariant_idle _ _ _ k r.vdev hinv
        (by rw [hf1, h1, hst]; decide) (by rw [hf1, h1, hst]; decide)
    · rw [h4, ← hf3]
      exact pool_invariant_bind _ _ _ k r.vdev hinv (by rw [hf1, h1])
        (by rw [hf2, hf3]; exact h2) (by rw [hf3]; exact h3)
    · rw [h3]
      exact pool_invariant_control _ _ _ k r.vdev hinv (by rw [hf1, h1]) (by rw [hf2]; exact h2)

theorem pool_invariant_unlink (conf : switch_conf) (guests : List vhost_dev)
    (pools_used pools_used1 : List Bool) (k : Nat) (vdev vdev1 : vhost_dev)
    (hinv : pool_invariant conf.num_virtio_devices guests pools_used)
    (hg : guests[k]? = some vdev)
    (h : unlink_vmdq conf pools_used vdev = some (vdev1, pools_used1)) :
    pool_invariant conf.num_virtio_devices (guests.set k vdev1) pools_used1 := by
  have hnl : DEVICE_MAC_LEARNING ≠ DEVICE_DATA_RX := by decide
  have hnc : DEVICE_MAC_LEARNING ≠ DEVICE_CONTROL := by decide
  unfold unlink_vmdq at h
  split at h
  · rename_i hst
    simp only [] at h
    split at h
    · rename_i hne
      split at h
      · simp only [Option.some.injEq, Prod.mk.injEq] at h
        obtain ⟨hv, hp⟩ := h
        subst hv; subst hp
        rcases hst with hst | hst
        · have hid := (hinv.1 k vdev hg hst).1
          rw [hid, Int.toNat_ofNat]
          exact pool_invariant_release _ _ _ k vdev _ hinv hg hst hnl hnc
        · exact absurd (hinv.2.1 k vdev hg hst) hne
      · simp at h
    · simp only [Option.some.injEq, Prod.mk.injEq] at h
      obtain ⟨hv, hp⟩ := h
      subst hv; subst hp
      exact pool_invariant_idle _ _ _ k _ hinv hnl hnc
  · simp only [Option.some.injEq, Prod.mk.injEq] at h
    obtain ⟨hv, hp⟩ := h
    subst hv; subst hp
    exact pool_invariant_same _ _ _ k vdev vdev hinv hg rfl rfl rfl

theorem pool_invariant_new_device (conf : switch_conf) (workers : List Nat) (alloc_ok : Bool)
    (vid ret : Int) (s s1 : switch_state)
    (hinv : pool_invariant conf.num_virtio_devices s.vhost_dev_list s.pools_used)
    (h : new_device conf workers alloc_ok vid s = some (ret, s1)) :
    pool_invariant conf.num_virtio_devices s1.vhost_dev_list s1.pools_used := by
  unfold new_device at h
  split at h
  · simp only [Option.some.injEq, Prod.mk.injEq] at h; rw [← h.2]; exact hinv
  · simp only [] at h
    split at h
    · simp at h
    · split at h
      · simp at h
      · split at h
        · simp at h
        · simp only [Option.some.injEq, Prod.mk.injEq] at h
          rw [← h.2]
          exact pool_invariant_append _ _ _ _ hinv rfl

theorem pool_invariant_reachable (conf : switch_conf) (workers : List Nat) (s : switch_state)
    (h : reachable_state conf workers s) :
    pool_invariant conf.num_virtio_devices s.vhost_dev_list s.pools_used := by
  induction h with
  | init n =>
    refine ⟨?_, ?_, ?_⟩
    · intro k g hg; simp [switch_state_init] at hg
    · intro k g hg; simp [switch_state_init] at hg
    · intro i j gi gj _ hg; simp [switch_state_init] at hg
  | new_device s s1 alloc_ok vid ret _ hnew ih =>
    exact pool_invariant_new_device conf workers alloc_ok vid ret s s1 ih hnew
  | drain_virtio_tx s k vdev env tx_q pkts r _ hg hdrain ih =>
    exact pool_invariant_drain conf env s.vhost_dev_list k _ r pkts ih hg hdrain
  | unlink_vmdq s k vdev vdev1 pools_used1 _ hg hun ih =>
    exact pool_invariant_unlink conf s.vhost_dev_list s.pools_used pools_used1 k vdev vdev1
      ih hg hun

/-- C18: in every state reachable from start-up by `new_device`,
`drain_virtio_tx` (which runs `link_vmdq`) and `unlink_vmdq`, one call after
the other, every guest in DataRx has the pool bit of its `pool_id` set, and no
two guests in DataRx have the same `pool_id`. -/
theorem data_rx_guests_own_distinct_pools (conf : switch_conf) (workers : List Nat)
    (s : switch_state) (h : reachable_state conf workers s) :
    (∀ (k : Nat) (g : vhost_dev), s.vhost_dev_list[k]? = some g →
      g.ready = DEVICE_DATA_RX → s.pools_used[g.pool_id]? = some true)
    ∧ (∀ (i j : Nat) (gi gj : vhost_dev), i ≠ j →
      s.vhost_dev_list[i]? = some gi → s.vhost_dev_list[j]? = some gj →
      gi.ready = DEVICE_DATA_RX → gj.ready = DEVICE_DATA_RX → gi.pool_id ≠ gj.pool_id) := by
  obtain ⟨hA, _, hC⟩ := pool_invariant_reachable conf workers s h
  exact ⟨fun k g hg hr => (hA k g hg hr).2, hC⟩

set_option maxRecDepth 100000 in
/-- Witness of C18: after `new_device` and a first burst from a MAC address
ending in `05`, the guest is in DataRx with pool 4 and bit 4 is set. -/
theorem data_rx_guests_own_distinct_pools_witness :
    linked_switch_state.vhost_dev_list[0]?.map (fun g => (g.ready, g.pool_id))
      = some (DEVICE_DATA_RX, 4)
    ∧ linked_switch_state.pools_used[linked_state.vdev.pool_id]? = some true :=
  ⟨by decide,
    (data_rx_guests_own_distinct_pools example_conf [1, 2] linked_switch_state
      (reachable_state.drain_virtio_tx
        { switch_state_init 4 with vhost_dev_list := [new_guest], lcore_info := new_guest_lcores }
        0 new_guest (example_env false) ⟨0, []⟩ [frame_from 5] linked_state
        (reachable_state.new_device (switch_state_init 4) _ true 0 0
          (reachable_state.init 4) (by decide))
        (by decide) (by decide))).1 0 linked_state.vdev (by decide) (by decide)⟩

/-! ### Statistics -/

theorem u64_add_of_lt (a b : Nat) (h : a + b < 2 ^ 64) : u64_add a b = a + b := by
  unfold u64_add; exact Nat.mod_eq_of_lt h

theorem counters_ok_mono (b1 b2 : Nat) (s : tx_state) (h : counters_ok b1 s)
    (hle : b1 ≤ b2) (hb : b2 < 2 ^ 64) : counters_ok b2 s := by
  obtain ⟨_, h2, h3, h4, h5, h6⟩ := h
  exact ⟨hb, by omega, by omega, h4, h5, h6⟩

theorem flush_tx_q_counters (env : tx_env) (b : Nat) (s : tx_state)
    (hfair : ∀ k n, env.tx_burst k n ≤ n) (h : counters_ok b s) :
    counters_ok b (flush_tx_q env s) ∧ (flush_tx_q env s).tx_q.m_table = [] := by
  obtain ⟨h1, h2, h3, h4, h5, h6⟩ := h
  have hc := hfair s.flushes s.tx_q.m_table.length
  refine ⟨⟨h1, h2, h3, h4, ?_, h6⟩, rfl⟩
  show u64_add s.vdev.stats.tx_success (env.tx_burst s.flushes s.tx_q.m_table.length) + 0
    ≤ s.vdev.stats.tx_tagged
  rw [u64_add_of_lt _ _ (by omega)]
  omega

theorem flush_if_full_counters (env : tx_env) (b : Nat) (s : tx_state)
    (hfair : ∀ k n, env.tx_burst k n ≤ n) (h : counters_ok b s)
    (hlen : s.tx_q.m_table.length ≤ MAX_PKT_BURST) :
    counters_ok b (flush_if_full env s)
    ∧ (flush_if_full env s).tx_q.m_table.length < MAX_PKT_BURST := by
  unfold flush_if_full
  split
  · have := flush_tx_q_counters env b s hfair h
    exact ⟨this.1, by rw [this.2]; decide⟩
  · rename_i hne
    exact ⟨h, by omega⟩

theorem enqueue_tagged_some (s : tx_state) (pkt : rte_mbuf)
    (hlen : s.tx_q.m_table.length < MAX_PKT_BURST) :
    enqueue_tagged s pkt = some { s with
      tx_q := { s.tx_q with m_table := s.tx_q.m_table ++ [pkt] }
      vdev := { s.vdev with stats := { s.vdev.stats with
        tx_tagged := u64_add s.vdev.stats.tx_tagged 1 } } } := by
  unfold enqueue_tagged
  rw [if_neg (by omega)]

theorem data_loop_counters (conf : switch_conf) (env : tx_env)
    (hfair : ∀ k n, env.tx_burst k n ≤ n) (pkts : List rte_mbuf) :
    ∀ (i b : Nat) (s r : tx_state), data_loop conf env pkts i s = some r →
      counters_ok b s ∧ s.tx_q.m_table.length < MAX_PKT_BURST →
      b + pkts.length < 2 ^ 64 →
      counters_ok (b + pkts.length) r ∧ r.tx_q.m_table.length < MAX_PKT_BURST := by
  induction pkts with
  | nil =>
    intro i b s r h hok _
    simp only [data_loop, Option.some.injEq] at h
    subst h; simpa using hok
  | cons pkt rest ih =>
    intro i b s r h hok hb
    obtain ⟨⟨h1, h2, h3, h4, h5, h6⟩, hlen⟩ := hok
    simp only [List.length_cons] at hb ⊢
    have hb1 : b + 1 + rest.length < 2 ^ 64 := by omega
    have hrw : b + (rest.length + 1) = b + 1 + rest.length := by omega
    rw [hrw]
    simp only [data_loop] at h
    have htot : u64_add s.vdev.stats.tx_total 1 = s.vdev.stats.tx_total + 1 :=
      u64_add_of_lt _ _ (by omega)
    have htag : u64_add s.vdev.stats.tx_tagged 1 = s.vdev.stats.tx_tagged + 1 :=
      u64_add_of_lt _ _ (by omega)
    have hdrop : u64_add s.vdev.stats.tx_dropped 1 = s.vdev.stats.tx_dropped + 1 :=
      u64_add_of_lt _ _ (by omega)
    have hmax : MAX_PKT_BURST = 32 := rfl
    split at h
    · split at h
      · simp at h
      · rename_i tr htr
        have hv := tag_packet_vdev _ _ _ _ _ _ _ htr
        split at h
        · rename_i hret
          have hvd : tr.vdev = { s.vdev with stats := { s.vdev.stats with
              tx_total := u64_add s.vdev.stats.tx_total 1 } } := by
            rcases hv with hv | ⟨h0, _⟩
            · exact hv
            · rw [h0] at hret; exact absurd rfl hret
          rw [enqueue_tagged_some _ _ (by exact hlen)] at h
          simp only [] at h
          refine ih _ (b + 1) _ _ h (flush_if_full_counters env (b + 1) _ hfair ?_ ?_) hb1
          · unfold counters_ok
            simp only [hvd, htot, htag, List.length_append, List.length_cons, List.length_nil]
            omega
          · simp only [List.length_append, List.length_cons, List.length_nil]
            omega
        · refine ih _ (b + 1) _ _ h (flush_if_full_counters env (b + 1) _ hfair ?_ ?_) hb1
          · unfold counters_ok
            rcases hv with hv | ⟨_, hv⟩
            · simp only [hv, htot]
              omega
            · simp only [hv, htot, hdrop]
              omega
          · exact Nat.le_of_lt hlen
    · rw [enqueue_tagged_some _ _ (by exact hlen)] at h
      simp only [] at h
      refine ih _ (b + 1) _ _ h (flush_if_full_counters env (b + 1) _ hfair ?_ ?_) hb1
      · unfold counters_ok
        simp only [htot, htag, List.length_append, List.length_cons, List.length_nil]
        omega
      · simp only [List.length_append, List.length_cons, List.length_nil]
        omega

theorem link_vmdq_stats (conf : switch_conf) (mac_addr_add_ret : Int) (stray : Bool)
    (pools_used : List Bool) (lcores : List lcore_info) (pool_allocation_failure : Nat)
    (vdev : vhost_dev) (m : rte_mbuf) (lr : link_result)
    (h : link_vmdq conf mac_addr_add_ret stray pools_used lcores pool_allocation_failure vdev m
      = some lr) :
    lr.vdev.stats = vdev.stats := by
  unfold link_vmdq at h
  split at h
  · simp at h
  · simp only [] at h
    split at h
    · simp at h
    · simp only [Option.some.injEq] at h; subst h; rfl
    · split at h
      · split at h
        · simp at h
        · split at h
          · simp only [Option.some.injEq] at h; subst h; rfl
          · simp only [Option.some.injEq] at h; subst h; rfl
      · split at h
        · simp at h
        · split at h
          · simp only [Option.some.injEq] at h; subst h; rfl
          · simp at h

theorem learn_mac_counters (conf : switch_conf) (env : tx_env) (s s1 : tx_state)
    (pkts : List rte_mbuf) (h : learn_mac conf env s pkts = some s1) :
    s1.vdev.stats = s.vdev.stats ∧ s1.tx_q = s.tx_q := by
  unfold learn_mac at h
  split at h
  · simp only [Option.some.injEq] at h; subst h; exact ⟨rfl, rfl⟩
  · split at h
    · split at h
      · simp only [Option.some.injEq] at h; subst h; exact ⟨rfl, rfl⟩
      · split at h
        · simp at h
        · rename_i lr hlr
          have hst := link_vmdq_stats _ _ _ _ _ _ _ _ _ hlr
          split at h
          · simp only [Option.some.injEq] at h; subst h; exact ⟨hst, rfl⟩
          · simp only [Option.some.injEq] at h; subst h; exact ⟨hst, rfl⟩
    · simp only [Option.some.injEq] at h; subst h; exact ⟨rfl, rfl⟩

theorem counters_ok_congr (b : Nat) (s s1 : tx_state) (h : counters_ok b s)
    (hst : s1.vdev.stats = s.vdev.stats) (hq : s1.tx_q = s.tx_q) : counters_ok b s1 := by
  unfold counters_ok at h ⊢
  rw [hst, hq]; exact h

theorem control_loop_counters (conf : switch_conf) (env : tx_env) (pkts : List rte_mbuf) :
    ∀ (i b : Nat) (s r : tx_state), control_loop conf env pkts i s = some r →
      counters_ok b s → b + pkts.length < 2 ^ 64 →
      counters_ok (b + pkts.length) r ∧ r.tx_q = s.tx_q := by
  induction pkts with
  | nil =>
    intro i b s r h hok _
    simp only [control_loop, Option.some.injEq] at h
    subst h; exact ⟨by simpa using hok, rfl⟩
  | cons pkt rest ih =>
    intro i b s r h hok hb
    obtain ⟨h1, h2, h3, h4, h5, h6⟩ := hok
    simp only [List.length_cons] at hb ⊢
    have hb1 : b + 1 + rest.length < 2 ^ 64 := by omega
    have hrw : b + (rest.length + 1) = b + 1 + rest.length := by omega
    rw [hrw]
    simp only [control_loop] at h
    have htot : u64_add s.vdev.stats.tx_total 1 = s.vdev.stats.tx_total + 1 :=
      u64_add_of_lt _ _ (by omega)
    have htag : u64_add s.vdev.stats.tx_tagged 1 = s.vdev.stats.tx_tagged + 1 :=
      u64_add_of_lt _ _ (by omega)
    split at h
    · simp at h
    · have hstep := ih _ (b + 1) _ _ h (by
        unfold counters_ok
        simp only [htot, htag]
        omega) hb1
      exact ⟨hstep.1, hstep.2⟩

theorem drain_virtio_tx_counters (conf : switch_conf) (env : tx_env) (b : Nat)
    (s r : tx_state) (pkts : List rte_mbuf) (hfair : ∀ k n, env.tx_burst k n ≤ n)
    (h : drain_virtio_tx conf env s pkts = some r)
    (hok : counters_ok b s) (hempty : s.tx_q.m_table = [])
    (hb : b + pkts.length < 2 ^ 64) :
    counters_ok (b + pkts.length) r ∧ r.tx_q.m_table = [] := by
  unfold drain_virtio_tx at h
  split at h
  · simp at h
  · rename_i s1 hs1
    obtain ⟨hst, hq⟩ := learn_mac_counters conf env s s1 pkts hs1
    have hok1 := counters_ok_congr b s s1 hok hst hq
    have hempty1 : s1.tx_q.m_table = [] := by rw [hq]; exact hempty
    split at h
    · obtain ⟨hc, hcq⟩ := control_loop_counters conf env pkts 0 b s1 r h hok1 hb
      exact ⟨hc, by rw [hcq]; exact hempty1⟩
    · split at h
      · split at h
        · simp at h
        · rename_i s2 hs2
          obtain ⟨hd, _⟩ := data_loop_counters conf env hfair pkts 0 b s1 s2 hs2
            ⟨hok1, by rw [hempty1]; decide⟩ hb
          split at h
          · simp only [Option.some.injEq] at h; subst h
            exact flush_tx_q_counters env _ s2 hfair hd
          · rename_i hlen
            simp only [Option.some.injEq] at h; subst h
            exact ⟨hd, List.length_eq_zero.mp (by omega)⟩
      · simp only [Option.some.injEq] at h; subst h
        exact ⟨counters_ok_mono b _ s1 hok1 (by omega) hb, hempty1⟩

theorem drain_eth_rx_counters (b rx_count enqueue_count : Nat) (s : tx_state)
    (hfair : enqueue_count ≤ rx_count) (hok : counters_ok b s)
    (hb : b + rx_count < 2 ^ 64) :
    counters_ok (b + rx_count)
      { s with vdev := drain_eth_rx rx_count enqueue_count s.vdev } := by
  obtain ⟨h1, h2, h3, h4, h5, h6⟩ := hok
  have hrx : u64_add s.vdev.stats.rx_total_atomic rx_count
      = s.vdev.stats.rx_total_atomic + rx_count := u64_add_of_lt _ _ (by omega)
  have hen : u64_add s.vdev.stats.rx_success_atomic enqueue_count
      = s.vdev.stats.rx_success_atomic + enqueue_count := u64_add_of_lt _ _ (by omega)
  unfold counters_ok drain_eth_rx
  split
  · exact ⟨hb, Nat.le_trans h2 (Nat.le_add_right _ _), Nat.le_trans h3 (Nat.le_add_right _ _),
      h4, h5, h6⟩
  · simp only [hrx, hen]
    omega

theorem run_calls_counters (conf : switch_conf) (calls : List worker_call) :
    ∀ (b : Nat) (s r : tx_state), run_calls conf s calls = some r →
      (∀ c ∈ calls, c.fair) → counters_ok b s → s.tx_q.m_table = [] →
      b + MAX_PKT_BURST * calls.length < 2 ^ 64 →
      counters_ok (b + MAX_PKT_BURST * calls.length) r ∧ r.tx_q.m_table = [] := by
  induction calls with
  | nil =>
    intro b s r h _ hok hempty _
    simp only [run_calls, Option.some.injEq] at h
    subst h; exact ⟨by simpa using hok, hempty⟩
  | cons c rest ih =>
    intro b s r h hfair hok hempty hb
    have hc := hfair c (List.mem_cons_self _ _)
    have hrest : ∀ c ∈ rest, c.fair := fun c hc => hfair c (List.mem_cons_of_mem _ hc)
    have hmax : MAX_PKT_BURST = 32 := rfl
    simp only [List.length_cons, hmax] at hb ⊢
    rw [hmax] at ih
    have hrw : b + 32 * (rest.length + 1) = b + 32 + 32 * rest.length := by omega
    rw [hrw]
    cases c with
    | rx rx_count enqueue_count =>
      simp only [run_calls] at h
      obtain ⟨hf1, hf2⟩ := hc
      rw [hmax] at hf2
      have hstep := drain_eth_rx_counters b rx_count enqueue_count s hf1 hok (by omega)
      refine ih (b + 32) _ r h hrest
        (counters_ok_mono _ _ _ hstep (by omega) (by omega)) hempty (by omega)
    | tx env pkts =>
      simp only [run_calls] at h
      obtain ⟨hf1, hf2⟩ := hc
      rw [hmax] at hf1
      split at h
      · simp at h
      · rename_i s1 hs1
        obtain ⟨hstep, hq⟩ := drain_virtio_tx_counters conf env b s s1 pkts hf2 hs1 hok
          hempty (by omega)
        exact ih (b + 32) s1 r h hrest
          (counters_ok_mono _ _ _ hstep (by omega) (by omega)) hq (by omega)

/-- C19: starting from zeroed counters and an empty batch, after every
sequence of `drain_eth_rx` and `drain_virtio_tx` calls on a guest in which the
NIC and the guest never report more packets than they were offered, and which
is short enough that no 64-bit counter wraps, `rx_success ≤ rx_total`,
`tx_tagged + tx_dropped ≤ tx_total` and `tx_success ≤ tx_tagged`. -/
theorem counters_consistent (conf : switch_conf) (s r : tx_state) (calls : List worker_call)
    (hzero : s.vdev.stats = ⟨0, 0, 0, 0, 0, 0⟩) (hempty : s.tx_q.m_table = [])
    (hfair : ∀ c ∈ calls, c.fair)
    (hwrap : MAX_PKT_BURST * calls.length < 2 ^ 64)
    (hrun : run_calls conf s calls = some r) :
    r.vdev.stats.rx_success_atomic ≤ r.vdev.stats.rx_total_atomic
    ∧ r.vdev.stats.tx_tagged + r.vdev.stats.tx_dropped ≤ r.vdev.stats.tx_total
    ∧ r.vdev.stats.tx_success ≤ r.vdev.stats.tx_tagged := by
  have hok : counters_ok 0 s := by
    unfold counters_ok
    rw [hzero, hempty]
    exact ⟨by decide, Nat.le_refl _, Nat.le_refl _, Nat.le_refl _, Nat.le_refl _, Nat.le_refl _⟩
  obtain ⟨⟨_, _, _, h4, h5, h6⟩, _⟩ :=
    run_calls_counters conf calls 0 s r hrun hfair hok hempty (by omega)
  exact ⟨h6, h4, by omega⟩

set_option maxRecDepth 100000 in
/-- The guest of the examples sends a tagged TCP segment and an unmatched ARP
frame, then receives two packets of three: the counters read 2 packets seen, 1
tagged, 0 dropped, 1 sent, 3 received and 2 delivered. -/
theorem counters_consistent_witness :
    run_calls example_conf counting_state counting_calls = some counted_state
    ∧ counted_state.vdev.stats = ⟨2, 1, 0, 1, 3, 2⟩
    ∧ counted_state.vdev.stats.rx_success_atomic ≤ counted_state.vdev.stats.rx_total_atomic
    ∧ counted_state.vdev.stats.tx_tagged + counted_state.vdev.stats.tx_dropped
      ≤ counted_state.vdev.stats.tx_total
    ∧ counted_state.vdev.stats.tx_success ≤ counted_state.vdev.stats.tx_tagged :=
  ⟨by decide, by decide,
    counters_consistent example_conf counting_state counted_state counting_calls rfl rfl
      (fun c hc => by
        simp only [counting_calls, List.mem_cons, List.mem_singleton, List.not_mem_nil,
          or_false] at hc
        rcases hc with hc | hc
        · subst hc; exact ⟨by decide, fun _ n => Nat.le_refl n⟩
        · subst hc; exact ⟨by decide, by decide⟩)
      (by decide) (by decide)⟩

/-! ### The batch of the core -/

theorem flush_if_full_batch_lt (env : tx_env) (s : tx_state)
    (hlen : s.tx_q.m_table.length ≤ MAX_PKT_BURST) :
    (flush_if_full env s).tx_q.m_table.length < MAX_PKT_BURST := by
  unfold flush_if_full
  split
  · show ([] : List rte_mbuf).length < MAX_PKT_BURST
    decide
  · rename_i hne
    omega

/-- At the head of every iteration of the data loop the batch holds fewer
than `MAX_PKT_BURST` packets. -/
theorem data_loop_batch_lt (conf : switch_conf) (env : tx_env) (pkts : List rte_mbuf) :
    ∀ (i : Nat) (s r : tx_state), data_loop conf env pkts i s = some r →
      s.tx_q.m_table.length < MAX_PKT_BURST → r.tx_q.m_table.length < MAX_PKT_BURST := by
  induction pkts with
  | nil =>
    intro i s r h hlen
    simp only [data_loop, Option.some.injEq] at h
    subst h; exact hlen
  | cons pkt rest ih =>
    intro i s r h hlen
    have hmax : MAX_PKT_BURST = 32 := rfl
    simp only [data_loop] at h
    split at h
    · split at h
      · simp at h
      · split at h
        · rw [enqueue_tagged_some _ _ (by exact hlen)] at h
          simp only [] at h
          refine ih _ _ _ h (flush_if_full_batch_lt env _ ?_)
          simp only [List.length_append, List.length_cons, List.length_nil]
          omega
        · exact ih _ _ _ h (flush_if_full_batch_lt env _ (Nat.le_of_lt hlen))
    · rw [enqueue_tagged_some _ _ (by exact hlen)] at h
      simp only [] at h
      refine ih _ _ _ h (flush_if_full_batch_lt env _ ?_)
      simp only [List.length_append, List.length_cons, List.length_nil]
      omega

/-- The data loop is undefined only where `tag_packet` is, never by a write
past the batch: if it has no result, some packet `k` is reached with a batch of
fewer than `MAX_PKT_BURST` packets and `tag_packet` has no result on it. -/
theorem data_loop_none (conf : switch_conf) (env : tx_env) (pkts : List rte_mbuf) :
    ∀ (i : Nat) (s : tx_state), data_loop conf env pkts i s = none →
      s.tx_q.m_table.length < MAX_PKT_BURST →
      ∃ k pkt sk, pkts[k]? = some pkt ∧ data_loop conf env (pkts.take k) i s = some sk
        ∧ conf.do_tag ≠ 0
        ∧ tag_packet conf.cpu_freq conf.do_shape (env.tsc (i + k)) sk.matching_table pkt
            { sk.vdev with stats := { sk.vdev.stats with
                tx_total := u64_add sk.vdev.stats.tx_total 1 } } = none := by
  induction pkts with
  | nil =>
    intro i s h _
    simp [data_loop] at h
  | cons pkt rest ih =>
    intro i s h hlen
    have hmax : MAX_PKT_BURST = 32 := rfl
    simp only [data_loop] at h
    split at h
    · rename_i htag
      split at h
      · rename_i hnone
        exact ⟨0, pkt, s, by simp, by simp [data_loop], htag, hnone⟩
      · rename_i tr htr
        split at h
        · rename_i hret
          rw [enqueue_tagged_some _ _ (by exact hlen)] at h
          simp only [] at h
          obtain ⟨k, p, sk, hk, hrun, _, hnone⟩ := ih _ _ h (flush_if_full_batch_lt env _ (by
            simp only [List.length_append, List.length_cons, List.length_nil]
            omega))
          refine ⟨k + 1, p, sk, by simpa using hk, ?_, htag, ?_⟩
          · simp only [List.take_succ_cons, data_loop, if_pos htag, htr, if_pos hret]
            rw [enqueue_tagged_some _ _ (by exact hlen)]
            exact hrun
          · rw [show i + (k + 1) = i + 1 + k by omega]; exact hnone
        · rename_i hret
          obtain ⟨k, p, sk, hk, hrun, _, hnone⟩ := ih _ _ h
            (flush_if_full_batch_lt env _ (Nat.le_of_lt hlen))
          refine ⟨k + 1, p, sk, by simpa using hk, ?_, htag, ?_⟩
          · simp only [List.take_succ_cons, data_loop, if_pos htag, htr, if_neg hret]
            exact hrun
          · rw [show i + (k + 1) = i + 1 + k by omega]; exact hnone
    · rename_i htag
      rw [enqueue_tagged_some _ _ (by exact hlen)] at h
      simp only [] at h
      obtain ⟨k, p, sk, hk, hrun, htag2, hnone⟩ := ih _ _ h (flush_if_full_batch_lt env _ (by
        simp only [List.length_append, List.length_cons, List.length_nil]
        omega))
      exact absurd htag2 htag

theorem learn_mac_of_linked (conf : switch_conf) (env : tx_env) (s : tx_state)
    (pkts : List rte_mbuf) (hstate : s.vdev.ready ≠ DEVICE_MAC_LEARNING) :
    learn_mac conf env s pkts = some s := by
  unfold learn_mac
  split
  · rfl
  · rw [if_neg hstate]

/-- C22: for a guest in DataRx and a batch that is empty when
`drain_virtio_tx` starts, whatever the burst: at the head of every iteration of
the loop (the state after the first `k` packets) the batch holds fewer than
`MAX_PKT_BURST` packets, so that the write `m_table[len++]` of that iteration
uses an index below `MAX_PKT_BURST` and leaves a length of at most
`MAX_PKT_BURST`; the batch is empty when `drain_virtio_tx` returns; and
`drain_virtio_tx` is undefined only where `tag_packet` is on some packet, never
by a write past the batch. -/
theorem batch_index_below_burst (conf : switch_conf) (env : tx_env) (s : tx_state)
    (pkts : List rte_mbuf) (hstate : s.vdev.ready = DEVICE_DATA_RX)
    (hempty : s.tx_q.m_table = []) :
    (∀ k sk, data_loop conf env (pkts.take k) 0 s = some sk →
      sk.tx_q.m_table.length < MAX_PKT_BURST
      ∧ ∀ (s2 : tx_state) (pkt : rte_mbuf), s2.tx_q = sk.tx_q →
        ∃ s3, enqueue_tagged s2 pkt = some s3
          ∧ s3.tx_q.m_table = sk.tx_q.m_table ++ [pkt]
          ∧ s3.tx_q.m_table.length ≤ MAX_PKT_BURST)
    ∧ (∀ r, drain_virtio_tx conf env s pkts = some r → r.tx_q.m_table = [])
    ∧ (drain_virtio_tx conf env s pkts = none →
      ∃ k pkt sk, pkts[k]? = some pkt ∧ data_loop conf env (pkts.take k) 0 s = some sk
        ∧ conf.do_tag ≠ 0
        ∧ tag_packet conf.cpu_freq conf.do_shape (env.tsc k) sk.matching_table pkt
            { sk.vdev with stats := { sk.vdev.stats with
                tx_total := u64_add sk.vdev.stats.tx_total 1 } } = none) := by
  have hmax : MAX_PKT_BURST = 32 := rfl
  have hlen : s.tx_q.m_table.length < MAX_PKT_BURST := by rw [hempty]; decide
  have hlearn := learn_mac_of_linked conf env s pkts (by rw [hstate]; decide)
  have hnc : ¬ s.vdev.ready = DEVICE_CONTROL := by rw [hstate]; decide
  refine ⟨?_, ?_, ?_⟩
  · intro k sk hk
    have hlt := data_loop_batch_lt conf env (pkts.take k) 0 s sk hk hlen
    refine ⟨hlt, fun s2 pkt hq => ?_⟩
    have hlt2 : s2.tx_q.m_table.length < MAX_PKT_BURST := by rw [hq]; exact hlt
    refine ⟨_, enqueue_tagged_some s2 pkt hlt2, ?_, ?_⟩
    · show s2.tx_q.m_table ++ [pkt] = sk.tx_q.m_table ++ [pkt]
      rw [hq]
    · show (s2.tx_q.m_table ++ [pkt]).length ≤ MAX_PKT_BURST
      simp only [List.length_append, List.length_cons, List.length_nil]
      omega
  · intro r h
    unfold drain_virtio_tx at h
    rw [hlearn] at h
    simp only [if_neg hnc, if_pos hstate] at h
    split at h
    · simp at h
    · split at h
      · simp only [Option.some.injEq] at h; subst h; rfl
      · rename_i hz
        simp only [Option.some.injEq] at h; subst h
        exact List.length_eq_zero.mp (by omega)
  · intro h
    unfold drain_virtio_tx at h
    rw [hlearn] at h
    simp only [if_neg hnc, if_pos hstate] at h
    split at h
    · rename_i hnone
      have := data_loop_none conf env pkts 0 s hnone hlen
      simpa using this
    · split at h <;> simp at h

set_option maxRecDepth 100000 in
/-- Witness of C22: the data guest of the examples sends a TCP segment that
is tagged and an ARP frame that is freed; the batch is empty at the end and one
packet was offered to the NIC. -/
theorem batch_index_below_burst_witness :
    drain_virtio_tx example_conf (example_env false) counting_state
        [fresh_mbuf tcp_frame, fresh_mbuf arp_frame] = some drained_state
    ∧ drained_state.tx_q.m_table = []
    ∧ drained_state.offered.length = 1 ∧ drained_state.freed = [fresh_mbuf arp_frame] :=
  ⟨by decide,
    (batch_index_below_burst example_conf (example_env false) counting_state
      [fresh_mbuf tcp_frame, fresh_mbuf arp_frame] (by decide) rfl).2.1 drained_state
      (by decide),
    by decide, by decide⟩

/-! ### The index into `pools_used` -/

/-- For every number of pools up to 64 the derived pool index is at least -1
and at most 63; it is -1 exactly when the last byte of the MAC address is a
multiple of the number of pools plus one. -/
theorem get_pool_id_range (mac : List Nat) (n : Nat) (hn : n ≤ 64) :
    -1 ≤ GET_POOL_ID mac n ∧ GET_POOL_ID mac n ≤ 63
    ∧ (GET_POOL_ID mac n = -1 ↔ byte_at mac 5 % (n + 1) = 0) := by
  unfold GET_POOL_ID
  have h : byte_at mac 5 % (n + 1) < n + 1 := Nat.mod_lt _ (Nat.succ_pos n)
  omega

set_option maxRecDepth 100000 in
/-- C23, the code at a failing input: with 8 pools a first packet from a MAC
address ending in `09` gives `pool_id = (9 mod 9) - 1 = -1`; for every number
of pools a MAC address ending in `00` does. `link_vmdq` reads
`pools_used[pool_id]` before it tests `pool_id != -1`: the index -1 is
outside `0..63`, and what `link_vmdq` returns depends on the byte found there. -/
theorem link_vmdq_reads_index_minus_one :
    GET_POOL_ID (bytes_at (frame_from 9).data 6 6) example_conf.num_virtio_devices = -1
    ∧ (∀ n, GET_POOL_ID [0, 0, 0, 0, 0, 0] n = -1)
    ∧ (link_vmdq example_conf 0 true pools_used_init new_guest_lcores 0 new_guest
        (frame_from 9)).map (fun r => r.ret) = some (-1)
    ∧ (link_vmdq example_conf 0 false pools_used_init new_guest_lcores 0 new_guest
        (frame_from 9)).map (fun r => r.ret) = some 0 := by
  refine ⟨by decide, fun n => ?_, by decide, by decide⟩
  exact get_pool_id_of_rem_zero _ n (by simp [byte_at])

/-! ### Tokens and packets that cannot be tagged -/

/-- What the body of the loop does with a matched packet in a shared or
indirect buffer that the shaper lets pass: it returns 0 and writes back the
entry as the shaper left it, refilled and debited. -/
theorem tag_matched_shared_buffer (cpu_freq do_shape current_tsc : Nat) (e : tagging_entry)
    (packet : rte_mbuf) (vdev : vhost_dev) (h0 : e.n_tags ≠ 0)
    (hc : packet.direct = false ∨ packet.refcnt > 1)
    (hpass : do_shape ≠ 0 →
      (shaper cpu_freq current_tsc (load_le packet.data (SIZEOF_ETHER_HDR + 2) 2) e).2 = true) :
    tag_matched cpu_freq do_shape current_tsc e packet vdev
      = some ⟨0,
          if do_shape ≠ 0 then
            (shaper cpu_freq current_tsc (load_le packet.data (SIZEOF_ETHER_HDR + 2) 2) e).1
          else e,
          packet, vdev⟩ := by
  unfold tag_matched
  rw [if_neg h0]
  by_cases hs : do_shape ≠ 0
  · simp only [if_pos hs, hpass hs, if_pos hc]
    simp
  · simp only [if_neg hs, if_pos hc]
    simp

set_option maxRecDepth 100000 in
/-- C25, the code at a failing input: the rule of the example with a full
bucket of `10^15` tokens, refilled at TSC reading 2000, and the matching TCP
segment in a buffer shared by two owners, at the same TSC reading. With shaping
on, `tag_packet` returns 0 and leaves the packet and the counters of the guest
as they were (`tx_dropped` is not incremented), but the entry has lost the
cost of the packet, `848 * 10^9` tokens. With shaping off the entry is
unchanged. -/
theorem cannot_tag_debits_tokens :
    tag_packet 1000000000 1 2000
        (table_with 0 (five_tuple_entry 1000000 1000000000000000 2000 2))
        { fresh_mbuf tcp_frame with refcnt := 2 } data_guest
      = some ⟨0, { fresh_mbuf tcp_frame with refcnt := 2 },
          table_with 0 (five_tuple_entry 1000000 (1000000000000000 - 848000000000) 2000 2),
          data_guest⟩
    ∧ packet_cost 1000000000
        (packet_size (load_le tcp_frame (SIZEOF_ETHER_HDR + 2) 2)
          (five_tuple_entry 1000000 1000000000000000 2000 2))
      = 848000000000
    ∧ tag_packet 1000000000 0 2000
        (table_with 0 (five_tuple_entry 1000000 1000000000000000 2000 2))
        { fresh_mbuf tcp_frame with refcnt := 2 } data_guest
      = some ⟨0, { fresh_mbuf tcp_frame with refcnt := 2 },
          table_with 0 (five_tuple_entry 1000000 1000000000000000 2000 2), data_guest⟩ := by
  decide

/-! ### Tail queues -/

/-- On a queue and one of its elements the macros do what they do to a list:
three insertions at the tail give the elements in order, and removing the
middle one, the first one or the last one leaves the two others. -/
theorem tailq_macros_on_members :
    three_elements_tailq.bind (fun q => TAILQ_FOREACH q 0) = some [0, 1, 2]
    ∧ (three_elements_tailq.bind (fun q => TAILQ_REMOVE q 0 1)).bind
        (fun q => TAILQ_FOREACH q 0) = some [0, 2]
    ∧ (three_elements_tailq.bind (fun q => TAILQ_REMOVE q 0 0)).bind
        (fun q => TAILQ_FOREACH q 0) = some [1, 2]
    ∧ (((three_elements_tailq.bind (fun q => TAILQ_REMOVE q 0 2)).bind
        (fun q => TAILQ_INSERT_TAIL q 0 2)).bind (fun q => TAILQ_FOREACH q 0)) = some [0, 1, 2] := by
  decide

/-! ### The removal of guests -/

set_option maxRecDepth 100000 in
/-- C24, the code at a failing input: with four cores all at `device_num = 0`
and the worker cores 1 and 2, a guest is created (cores 1 and 2 go to 1, the
guest is in the TX list of core 1 and the RX list of core 2), becomes the
control guest (`link_vmdq` takes it out of the RX list of core 2, decrements
that core and sets `rx_coreid = 0`) and is destroyed. `destroy_device`
decrements `lcore_info[tx_coreid]` and `lcore_info[rx_coreid]`, which is now
core 0: core 0 ends with `device_num = 2^32 - 1` and two empty lists. -/
theorem control_guest_round_trip_device_num :
    (switch_mem_init 4).device_num = [0, 0, 0, 0]
    ∧ one_guest_mem.map (fun st => st.device_num) = some [0, 1, 1, 0]
    ∧ one_guest_mem.bind (fun st => TAILQ_FOREACH st.tx_vdev_list 1) = some [0]
    ∧ one_guest_mem.bind (fun st => TAILQ_FOREACH st.rx_vdev_list 2) = some [0]
    ∧ control_guest_mem.map (fun st => st.device_num) = some [0, 1, 0, 0]
    ∧ control_guest_mem.bind (fun st => TAILQ_FOREACH st.rx_vdev_list 2) = some []
    ∧ control_guest_mem.map (fun st => st.vdev.map (fun v => (v.ready, v.rx_coreid)))
      = some [(DEVICE_CONTROL, 0)]
    ∧ control_guest_destroyed_mem.map (fun st => st.device_num)
      = some [4294967295, 0, 0, 0]
    ∧ control_guest_destroyed_mem.bind (fun st => TAILQ_FOREACH st.tx_vdev_list 0) = some []
    ∧ control_guest_destroyed_mem.bind (fun st => TAILQ_FOREACH st.rx_vdev_list 0) = some []
    ∧ control_guest_destroyed_mem.map (fun st => st.rte_freed) = some [0] := by
  decide

set_option maxRecDepth 100000 in
/-- C21, the code at a failing input: two guests are created, at addresses 0
and 1, both with RX core 2; guest 0 becomes the control guest, which takes it
out of the RX list of core 2 but leaves its `tqe_next` pointing to guest 1.
Guest 1 is destroyed: it is in no list and its memory is freed. Then the
control guest is destroyed: `destroy_device` applies `TAILQ_REMOVE` to its RX
entry once more, and `*elm->tqe_prev = elm->tqe_next` makes the freed guest 1
the first element of the RX list of core 2. From then on each iteration of
`switch_worker` on core 2 walks to guest 1 and reads it. -/
theorem freed_guest_back_in_rx_list :
    two_guests_mem.bind (fun st => TAILQ_FOREACH st.rx_vdev_list 2) = some [1]
    ∧ two_guests_mem.map (fun st => st.vdev.map (fun v => (v.ready, v.rx_coreid)))
      = some [(DEVICE_CONTROL, 0), (DEVICE_MAC_LEARNING, 2)]
    ∧ two_guests_mem.map (fun st => st.rx_vdev_list.entries[0]?)
      = some (some ⟨some 1, some (tailq_slot.tqh_first 2)⟩)
    ∧ second_guest_destroyed_mem.map (fun st => st.rte_freed) = some [1]
    ∧ second_guest_destroyed_mem.bind (fun st => TAILQ_FOREACH st.rx_vdev_list 2) = some []
    ∧ second_guest_destroyed_mem.bind (fun st => TAILQ_FOREACH st.tx_vdev_list 1) = some [0]
    ∧ second_guest_destroyed_mem.bind (fun st => TAILQ_FOREACH st.vhost_dev_list 0) = some [0]
    ∧ both_guests_destroyed_mem.map (fun st => st.rte_freed) = some [1, 0]
    ∧ both_guests_destroyed_mem.bind (fun st => TAILQ_FOREACH st.rx_vdev_list 2) = some [1]
    ∧ both_guests_destroyed_mem.map (fun st => st.dev_removal_flag)
      = some [0, ACK_DEV_REMOVAL, ACK_DEV_REMOVAL, 0]
    ∧ (both_guests_destroyed_mem.bind (Mem.switch_worker example_conf idle_env 2)).isSome
      = true := by
  decide

set_option maxRecDepth 100000 in
/-- The same round trip for a guest that becomes a data guest: it keeps its
RX core, `destroy_device` takes it out of the lists it is in, and every core
is back at `device_num = 0`, the pool bit cleared by `unlink_vmdq`. -/
theorem data_guest_round_trip_device_num :
    (one_guest_mem.bind (workers_run data_burst_env)).map
        (fun st => (st.device_num, st.vdev.map (fun v => (v.ready, v.rx_coreid)),
          st.pools_used[4]?))
      = some ([0, 1, 1, 0], [(DEVICE_DATA_RX, 2)], some true)
    ∧ data_guest_destroyed_mem.map (fun st => (st.device_num, st.rte_freed, st.pools_used[4]?))
      = some ([0, 0, 0, 0], [0], some false)
    ∧ data_guest_destroyed_mem.bind (fun st => TAILQ_FOREACH st.tx_vdev_list 1) = some []
    ∧ data_guest_destroyed_mem.bind (fun st => TAILQ_FOREACH st.rx_vdev_list 2) = some []
    ∧ data_guest_destroyed_mem.bind (fun st => TAILQ_FOREACH st.vhost_dev_list 0)
      = some [] := by
  decide

end Chameleon
